import Mathlib

/-!
# Library catalogue: record store

A shallow embedding of the record store of `program.c` (book.c, admin.c, the
search, filter, listing, borrow and return operations of user.c, and
data_handler.c), followed by the properties proved about it.

Conventions of the embedding.

* A C `int` is an `Int`. The only arithmetic of the program that can leave the
  32-bit range is `next_id++` and `max_id + 1`; both are taken modulo `2^32`
  (`wrap32`).
* A C string is a `String`, one `Char` per byte, without the terminating
  `NUL`; where the code works on the characters it is the list `toList`.
* A `Book` array is a function from slot index to `Book`. The slots at and
  beyond the count are kept in the model: they hold stale data, as in C.
  An `int` index `e` addresses the slot `e.toNat`; the two agree whenever
  `0 ≤ e`, which is the case for every index the program computes from a
  count that is not negative.
* A `for (int i = 0; i < n; i++)` loop is a function recursive on the number of
  iterations that remain, carrying `i` as an argument.
* The values an operation reads from standard input (the title, author and
  year of `addBook`, the id and the confirmation character of `removeBook`,
  the id of `borrowBook` and `returnBook`, the search term, menu choice and
  filter value of `searchByTitle`) are arguments of its model; what it
  prints is returned next to the new state as a value of a result type with
  one constructor per message.
* The content of the data file is a list of characters. The calls of `fscanf`
  and `fprintf` are modelled directive by directive (`scan_int`, `scan_string`,
  `fprintf_int`); a number read by `%d` is converted as by `strtol` to a
  64-bit `long`, saturated at `LONG_MIN` and `LONG_MAX`, of which the `int`
  keeps the low 32 bits. Whether `fopen` succeeds is an argument of the model.
-/

namespace Library

/-! ## book.h -/

/-- The constant `MAX_BOOKS` of book.h. -/
def MAX_BOOKS : Int := 800

/-- The constant `INT_MIN` of limits.h for a 32-bit `int`. -/
def INT_MIN : Int := -2147483648

/-- The constant `INT_MAX` of limits.h for a 32-bit `int`. -/
def INT_MAX : Int := 2147483647

/-- Reduction of an integer to the 32-bit two's complement range. -/
def wrap32 (x : Int) : Int := (x + 2147483648) % 4294967296 - 2147483648

/-- The struct `Book` of book.h. -/
structure Book where
  id : Int
  title : String
  author : String
  publication_year : Int
  is_borrowed : Int
deriving DecidableEq, Repr

/-- A zero-initialised `Book`, the content of every slot of a global array at
program start. -/
def zeroBook : Book :=
  { id := 0, title := "", author := "", publication_year := 0, is_borrowed := 0 }

/-- The assignment `books[i] = b`. -/
def writeSlot (books : Nat → Book) (i : Nat) (b : Book) : Nat → Book :=
  fun j => if j = i then b else books j

/-! ## book.c -/

/-- The loop of `get_next_id`: `n` iterations remain, `i` is the loop index and
`max_id` the running maximum. -/
def get_next_id_loop (books : Nat → Book) : Nat → Nat → Int → Int
  | 0, _, max_id => max_id
  | n + 1, i, max_id =>
    get_next_id_loop books n (i + 1)
      (if (books i).id > max_id then (books i).id else max_id)

/-- The function `get_next_id` of book.c. -/
def get_next_id (books : Nat → Book) (count : Int) : Int :=
  if count = 0 then 1
  else wrap32 (get_next_id_loop books count.toNat 0 INT_MIN + 1)

/-! ## admin.c and the globals of user.c -/

/-- The global variables of the program: `library`, `book_count` and `next_id`
of admin.c, `searchResults` and `searchResultCount` of user.c. -/
structure State where
  library : Nat → Book
  book_count : Int
  next_id : Int
  searchResults : Nat → Book
  searchResultCount : Int

/-- The state at program start: the initialisers of the globals. -/
def initState : State :=
  { library := fun _ => zeroBook, book_count := 0, next_id := 1,
    searchResults := fun _ => zeroBook, searchResultCount := 0 }

/-- The live records: the first `book_count` slots of `library`, in order. -/
def live (s : State) : List Book :=
  (List.range s.book_count.toNat).map s.library

/-- The loop of `find_book_by_id`: `n` iterations remain, `i` is the index. -/
def find_loop (books : Nat → Book) (id : Int) : Nat → Nat → Int
  | 0, _ => -1
  | n + 1, i => if (books i).id = id then (i : Int) else find_loop books id n (i + 1)

/-- The function `find_book_by_id` of admin.c. -/
def find_book_by_id (s : State) (id : Int) : Int :=
  find_loop s.library id s.book_count.toNat 0

/-- What `addBook` prints. -/
inductive AddResult where
  /-- "Library is full and you Cannot add more books." -/
  | libraryFull
  /-- "Book added successfully! (ID: %d)" with the id of the new record. -/
  | added (id : Int)
deriving DecidableEq, Repr

/-- The function `addBook` of admin.c; `title`, `author` and `year` are the
values its three reads deliver. -/
def addBook (s : State) (title author : String) (year : Int) : State × AddResult :=
  if s.book_count ≥ MAX_BOOKS then (s, AddResult.libraryFull)
  else
    let slot := s.book_count.toNat
    let book : Book :=
      { id := s.next_id, title := title, author := author,
        publication_year := year, is_borrowed := 0 }
    let s1 : State :=
      { s with library := writeSlot s.library slot book,
               next_id := wrap32 (s.next_id + 1),
               book_count := s.book_count + 1 }
    (s1, AddResult.added (s1.library (s1.book_count - 1).toNat).id)

/-- The shifting loop of `removeBook`: `n` iterations remain, `i` is the index;
each iteration performs `library[i] = library[i + 1]`. -/
def shift_loop (books : Nat → Book) : Nat → Nat → Nat → Book
  | 0, _ => books
  | n + 1, i => shift_loop (writeSlot books i (books (i + 1))) n (i + 1)

/-- What `removeBook` prints last. -/
inductive RemoveResult where
  /-- "No books in this library to remove." -/
  | noBooks
  /-- "Book with ID %d not found." -/
  | notFound
  /-- "Book with ID %d removed successfully." -/
  | removed
  /-- "Book removal canceled." -/
  | canceled
deriving DecidableEq, Repr

/-- The function `removeBook` of admin.c; `id` and `confirm` are the values its
two reads deliver. -/
def removeBook (s : State) (id : Int) (confirm : Char) : State × RemoveResult :=
  if s.book_count = 0 then (s, RemoveResult.noBooks)
  else
    let index := find_book_by_id s id
    if index = -1 then (s, RemoveResult.notFound)
    else if confirm = 'y' ∨ confirm = 'Y' then
      ({ s with library :=
                  shift_loop s.library (s.book_count - 1 - index).toNat index.toNat,
                book_count := s.book_count - 1 },
        RemoveResult.removed)
    else (s, RemoveResult.canceled)

/-! ## user.c: borrowing and returning -/

/-- What `borrowBook` and `returnBook` print. -/
inductive LoanResult where
  /-- "No books in the library." -/
  | noBooks
  /-- "The book ... is borrowed successfully." or "... is returned successfully." -/
  | done
  /-- "The book ... is already borrowed." or "... is not currently borrowed." -/
  | refused
  /-- "The book with ID %d is not found." -/
  | notFound
deriving DecidableEq, Repr

/-- The loop of `borrowBook`: `n` iterations remain, `i` is the index. -/
def borrow_loop (books : Nat → Book) (id : Int) : Nat → Nat → (Nat → Book) × LoanResult
  | 0, _ => (books, LoanResult.notFound)
  | n + 1, i =>
    if (books i).id = id ∧ (books i).is_borrowed = 0 then
      (writeSlot books i { books i with is_borrowed := 1 }, LoanResult.done)
    else if (books i).id = id ∧ (books i).is_borrowed ≠ 0 then
      (books, LoanResult.refused)
    else borrow_loop books id n (i + 1)

/-- The function `borrowBook` of user.c; `id` is the value its read delivers. -/
def borrowBook (s : State) (id : Int) : State × LoanResult :=
  if s.book_count = 0 then (s, LoanResult.noBooks)
  else
    let r := borrow_loop s.library id s.book_count.toNat 0
    ({ s with library := r.1 }, r.2)

/-- The loop of `returnBook`: `n` iterations remain, `i` is the index. -/
def return_loop (books : Nat → Book) (id : Int) : Nat → Nat → (Nat → Book) × LoanResult
  | 0, _ => (books, LoanResult.notFound)
  | n + 1, i =>
    if (books i).id = id ∧ (books i).is_borrowed ≠ 0 then
      (writeSlot books i { books i with is_borrowed := 0 }, LoanResult.done)
    else if (books i).id = id ∧ (books i).is_borrowed = 0 then
      (books, LoanResult.refused)
    else return_loop books id n (i + 1)

/-- The function `returnBook` of user.c; `id` is the value its read delivers. -/
def returnBook (s : State) (id : Int) : State × LoanResult :=
  if s.book_count = 0 then (s, LoanResult.noBooks)
  else
    let r := return_loop s.library id s.book_count.toNat 0
    ({ s with library := r.1 }, r.2)

/-! ## data_handler.c: loading -/

/-- The function `isspace` of ctype.h in the C locale. -/
def isspace (c : Char) : Bool :=
  c = ' ' || c = '\t' || c = '\n' || c = '\x0b' || c = '\x0c' || c = '\r'

/-- The function `isdigit` of ctype.h. -/
def isdigit (c : Char) : Bool := '0' ≤ c && c ≤ '9'

/-- Skipping of white space, as done by a `%d` directive before it converts and
by a white-space directive such as the final `\n` of the format. -/
def skip_space : List Char → List Char
  | [] => []
  | c :: cs => if isspace c then skip_space cs else c :: cs

/-- The digits of a `%d` conversion: the value read so far is `acc`. -/
def scan_digits : List Char → Int → Int × List Char
  | [], acc => (acc, [])
  | c :: cs, acc =>
    if isdigit c then scan_digits cs (acc * 10 + ((c.toNat : Int) - 48))
    else (acc, c :: cs)

/-- The constant `LONG_MIN` of limits.h for a 64-bit `long`. -/
def LONG_MIN : Int := -9223372036854775808

/-- The constant `LONG_MAX` of limits.h for a 64-bit `long`. -/
def LONG_MAX : Int := 9223372036854775807

/-- The result of `strtol` for a numeral of value `x`: a value outside the
range of `long` is replaced by `LONG_MIN` or `LONG_MAX`. -/
def strtol_value (x : Int) : Int :=
  if x < LONG_MIN then LONG_MIN else if LONG_MAX < x then LONG_MAX else x

/-- The directive `%d` of `fscanf`: white space is skipped, then an optional
sign and at least one digit are read. The result is `none` on a matching or
input failure. The digits are converted as the C library does it, with
`strtol` to a 64-bit `long` that is then stored into the `int`: a value outside
the range of `long` is saturated, and the `int` keeps the low 32 bits. -/
def scan_int (inp : List Char) : Option (Int × List Char) :=
  let signed : Bool × List Char :=
    match skip_space inp with
    | '-' :: r => (true, r)
    | '+' :: r => (false, r)
    | r => (false, r)
  match signed.2 with
  | [] => none
  | c :: r =>
    if isdigit c then
      let d := scan_digits (c :: r) 0
      some (wrap32 (strtol_value (if signed.1 then -d.1 else d.1)), d.2)
    else none

/-- The characters taken by a `%[^;]` directive of field width `width`: the
longest run of at most `width` characters other than `;`. -/
def scan_field : Nat → List Char → List Char × List Char
  | 0, inp => ([], inp)
  | _ + 1, [] => ([], [])
  | width + 1, c :: cs =>
    if c = ';' then ([], c :: cs)
    else
      let r := scan_field width cs
      (c :: r.1, r.2)

/-- The directive `%99[^;]` of `fscanf`: it fails when no character matches. -/
def scan_string (inp : List Char) : Option (String × List Char) :=
  let r := scan_field 99 inp
  if r.1 = [] then none else some (String.mk r.1, r.2)

/-- A literal `;` of the format. -/
def scan_semicolon : List Char → Option (List Char)
  | ';' :: r => some r
  | _ => none

/-- The call `fscanf(file, "%d;%99[^;];%99[^;];%d;%d\n", ...)` of `load_books`
on the rest `inp` of the file, storing into the record `b`. The result is the
return value of `fscanf` (the number of fields stored, or `-1` for `EOF`), the
record with the converted fields stored, and the unread rest of the file. -/
def fscanf_record (inp : List Char) (b : Book) : Int × Book × List Char :=
  match scan_int inp with
  | none => (if skip_space inp = [] then -1 else 0, b, inp)
  | some (id, r1) =>
    let b1 := { b with id := id }
    match scan_semicolon r1 with
    | none => (1, b1, r1)
    | some r2 =>
      match scan_string r2 with
      | none => (1, b1, r2)
      | some (title, r3) =>
        let b2 := { b1 with title := title }
        match scan_semicolon r3 with
        | none => (2, b2, r3)
        | some r4 =>
          match scan_string r4 with
          | none => (2, b2, r4)
          | some (author, r5) =>
            let b3 := { b2 with author := author }
            match scan_semicolon r5 with
            | none => (3, b3, r5)
            | some r6 =>
              match scan_int r6 with
              | none => (3, b3, r6)
              | some (year, r7) =>
                let b4 := { b3 with publication_year := year }
                match scan_semicolon r7 with
                | none => (4, b4, r7)
                | some r8 =>
                  match scan_int r8 with
                  | none => (4, b4, r8)
                  | some (flag, r9) =>
                    (5, { b4 with is_borrowed := flag }, skip_space r9)

/-- The loop of `load_books`: `n` is `MAX_BOOKS - *count`, the number of
iterations the first conjunct of the loop condition still allows. -/
def load_loop : Nat → List Char → (Nat → Book) → Nat → (Nat → Book) × Nat
  | 0, _, books, count => (books, count)
  | n + 1, inp, books, count =>
    let r := fscanf_record inp (books count)
    if r.1 = 5 then load_loop n r.2.2 (writeSlot books count r.2.1) (count + 1)
    else (writeSlot books count r.2.1, count)

/-- The function `load_books` of data_handler.c. The file is `none` when it
cannot be opened and otherwise its content. The result is the return value,
the array `books` and the value left in `*count`. -/
def load_books (file : Option (List Char)) (books : Nat → Book) :
    Int × (Nat → Book) × Int :=
  match file with
  | none => (0, books, 0)
  | some inp =>
    let r := load_loop MAX_BOOKS.toNat inp books 0
    (1, r.1, (r.2 : Int))

/-! ## user.c: searching and filtering -/

/-- The constant `MAX_RESULTS` of user.c, the size of `searchResults`. -/
def MAX_RESULTS : Int := 100

/-- The function `tolower` of ctype.h in the C locale. -/
def tolower (c : Char) : Char :=
  if 'A' ≤ c ∧ c ≤ 'Z' then Char.ofNat (c.toNat + 32) else c

/-- The function `toLowerStr` of user.c: every character is replaced by its
`tolower`. -/
def toLowerStr (str : List Char) : List Char := str.map tolower

/-- The test `strstr(hay, needle) != NULL` of string.h: `needle` occurs in
`hay` as a run of consecutive characters. -/
def strstr : List Char → List Char → Bool
  | [], needle => needle.isPrefixOf []
  | c :: cs, needle => needle.isPrefixOf (c :: cs) || strstr cs needle

/-- The content of a buffer `char dst[100]` after `strncpy(dst, src, 100)` and
`dst[99] = 0`: the first 99 characters of `src`. -/
def copy100 (src : String) : List Char := src.toList.take 99

/-- The records of the search result subset: the first `searchResultCount`
slots of `searchResults`, in order. -/
def results (s : State) : List Book :=
  (List.range s.searchResultCount.toNat).map s.searchResults

/-- What a filter prints: the records it shows, in order, and whether it ends
with its message "No books found ... in the search results.". -/
structure FilterOutput where
  shown : List Book
  noMatch : Bool
deriving DecidableEq, Repr

/-- The loop of `filterByAuthor`: `n` iterations remain, `i` is the index. The
result is what these iterations print and the value they leave in `found`,
starting from `found`. -/
def filter_author_loop (res : Nat → Book) (author : List Char) :
    Nat → Nat → Bool → List Book × Bool
  | 0, _, found => ([], found)
  | n + 1, i, found =>
    if strstr (res i).author.toList author then
      let r := filter_author_loop res author n (i + 1) true
      (res i :: r.1, r.2)
    else filter_author_loop res author n (i + 1) found

/-- The function `filterByAuthor` of user.c; `author` is the value its read
delivers. -/
def filterByAuthor (s : State) (author : String) : State × FilterOutput :=
  let r := filter_author_loop s.searchResults author.toList s.searchResultCount.toNat 0 false
  (s, { shown := r.1, noMatch := !r.2 })

/-- The loop of `filterByYear`: `n` iterations remain, `i` is the index. The
result is what these iterations print and the value they leave in `found`,
starting from `found`. -/
def filter_year_loop (res : Nat → Book) (year : Int) :
    Nat → Nat → Bool → List Book × Bool
  | 0, _, found => ([], found)
  | n + 1, i, found =>
    if (res i).publication_year = year then
      let r := filter_year_loop res year n (i + 1) true
      (res i :: r.1, r.2)
    else filter_year_loop res year n (i + 1) found

/-- The function `filterByYear` of user.c; `year` is the value its read
delivers. -/
def filterByYear (s : State) (year : Int) : State × FilterOutput :=
  let r := filter_year_loop s.searchResults year s.searchResultCount.toNat 0 false
  (s, { shown := r.1, noMatch := !r.2 })

/-- What the loop of `searchByTitle` has done so far: the array
`searchResults`, the counter `searchResultCount`, the records printed, in
order, and the flag `found`. -/
structure SearchProgress where
  searchResults : Nat → Book
  searchResultCount : Int
  shown : List Book
  found : Bool

/-- The loop of `searchByTitle`: `n` iterations remain, `i` is the index and
`lower_search_title` the lower-cased search term. -/
def search_loop (library : Nat → Book) (lower_search_title : List Char) :
    Nat → Nat → SearchProgress → SearchProgress
  | 0, _, p => p
  | n + 1, i, p =>
    if strstr (toLowerStr (copy100 (library i).title)) lower_search_title then
      search_loop library lower_search_title n (i + 1)
        { searchResults :=
            writeSlot p.searchResults p.searchResultCount.toNat (library i),
          searchResultCount := p.searchResultCount + 1,
          shown := p.shown ++ [library i],
          found := true }
    else search_loop library lower_search_title n (i + 1) p

/-- What `searchByTitle` prints: the records its loop shows, in order, whether
it ends with "No books found with title containing ...", and what the filter
called from its menu prints, if one is called. -/
structure SearchOutput where
  shown : List Book
  noneFound : Bool
  filtered : Option FilterOutput
deriving DecidableEq, Repr

/-- The function `searchByTitle` of user.c; `search_title` is the value its
first read delivers, `choice` the menu choice it reads when a record was
found, and `author` and `year` the values the chosen filter reads. -/
def searchByTitle (s : State) (search_title : String) (choice : Int)
    (author : String) (year : Int) : State × SearchOutput :=
  let lower_search_title := toLowerStr (copy100 search_title)
  let p := search_loop s.library lower_search_title s.book_count.toNat 0
    { searchResults := s.searchResults, searchResultCount := 0, shown := [],
      found := false }
  let s1 : State :=
    { s with searchResults := p.searchResults,
             searchResultCount := p.searchResultCount }
  if !p.found then (s1, { shown := p.shown, noneFound := true, filtered := none })
  else if choice = 1 then
    ((filterByAuthor s1 author).1,
      { shown := p.shown, noneFound := false,
        filtered := some (filterByAuthor s1 author).2 })
  else if choice = 2 then
    ((filterByYear s1 year).1,
      { shown := p.shown, noneFound := false,
        filtered := some (filterByYear s1 year).2 })
  else (s1, { shown := p.shown, noneFound := false, filtered := none })

/-! ## admin.c and user.c: counting and listing -/

/-- What `countTotalBooks` prints: the total, the number of available books
and the number of borrowed books. -/
structure CountOutput where
  total : Int
  available : Int
  borrowed : Int
deriving DecidableEq, Repr

/-- The loop of `countTotalBooks`: `n` iterations remain, `i` is the index,
`available` and `borrowed` are the two counters. -/
def count_loop (books : Nat → Book) : Nat → Nat → Int → Int → Int × Int
  | 0, _, available, borrowed => (available, borrowed)
  | n + 1, i, available, borrowed =>
    if (books i).is_borrowed ≠ 0 then count_loop books n (i + 1) available (borrowed + 1)
    else count_loop books n (i + 1) (available + 1) borrowed

/-- The function `countTotalBooks` of admin.c. -/
def countTotalBooks (s : State) : State × CountOutput :=
  let r := count_loop s.library s.book_count.toNat 0 0 0
  (s, { total := s.book_count, available := r.1, borrowed := r.2 })

/-- What `view_borrowed_books` prints: the records it shows, in order, and
whether it ends with "No books are currently borrowed.". -/
structure BorrowedOutput where
  shown : List Book
  noneBorrowed : Bool
deriving DecidableEq, Repr

/-- The loop of `view_borrowed_books`: `n` iterations remain, `i` is the
index. The result is what these iterations print and the value they leave in
`found`, starting from `found`. -/
def view_borrowed_loop (books : Nat → Book) : Nat → Nat → Bool → List Book × Bool
  | 0, _, found => ([], found)
  | n + 1, i, found =>
    if (books i).is_borrowed ≠ 0 then
      let r := view_borrowed_loop books n (i + 1) true
      (books i :: r.1, r.2)
    else view_borrowed_loop books n (i + 1) found

/-- The function `view_borrowed_books` of admin.c; it reads the array through
a pointer to `const` and has no access to the globals. -/
def view_borrowed_books (books : Nat → Book) (count : Int) : BorrowedOutput :=
  let r := view_borrowed_loop books count.toNat 0 false
  { shown := r.1, noneBorrowed := !r.2 }

/-- What `viewAvailableBooks` prints: the records it shows, in order, whether
it prints "No books found, currently." and whether it ends with "No books are
currently available for borrowing.". -/
structure AvailableOutput where
  shown : List Book
  noBooks : Bool
  noneAvailable : Bool
deriving DecidableEq, Repr

/-- The loop of `viewAvailableBooks`: `n` iterations remain, `i` is the index.
The result is what these iterations print and the value they leave in
`available_count`, starting from `available_count`. -/
def view_available_loop (books : Nat → Book) : Nat → Nat → Int → List Book × Int
  | 0, _, available_count => ([], available_count)
  | n + 1, i, available_count =>
    if (books i).is_borrowed = 0 then
      let r := view_available_loop books n (i + 1) (available_count + 1)
      (books i :: r.1, r.2)
    else view_available_loop books n (i + 1) available_count

/-- The function `viewAvailableBooks` of user.c. -/
def viewAvailableBooks (s : State) : State × AvailableOutput :=
  if s.book_count = 0 then (s, { shown := [], noBooks := true, noneAvailable := false })
  else
    let r := view_available_loop s.library s.book_count.toNat 0 0
    (s, { shown := r.1, noBooks := false, noneAvailable := decide (r.2 = 0) })

/-! ## data_handler.c: saving -/

/-- The decimal digit for `d < 10`. -/
def digitChar (d : Nat) : Char := Char.ofNat (48 + d)

/-- The decimal digits of `n`, most significant first; `fuel` bounds the number
of digits. -/
def print_nat : Nat → Nat → List Char
  | 0, _ => []
  | fuel + 1, n =>
    if n < 10 then [digitChar n] else print_nat fuel (n / 10) ++ [digitChar (n % 10)]

/-- The text that the directive `%d` of `fprintf` writes for an `int`. -/
def fprintf_int (x : Int) : List Char :=
  if x < 0 then '-' :: print_nat (x.natAbs + 1) x.natAbs
  else print_nat (x.toNat + 1) x.toNat

/-- The text that `fprintf(file, "%d;%s;%s;%d;%d\n", ...)` writes for one
record. -/
def fprintf_record (b : Book) : List Char :=
  fprintf_int b.id ++ ';' :: (b.title.toList ++ ';' :: (b.author.toList ++
    ';' :: (fprintf_int b.publication_year ++ ';' :: (fprintf_int b.is_borrowed ++ ['\n']))))

/-- The loop of `save_books`: `n` iterations remain, `i` is the index; the
result is the text these iterations write. -/
def save_loop (books : Nat → Book) : Nat → Nat → List Char
  | 0, _ => []
  | n + 1, i => fprintf_record (books i) ++ save_loop books n (i + 1)

/-- The function `save_books` of data_handler.c; `canOpen` tells whether
`fopen(filename, "w")` succeeds. The result is the return value and, when the
file was opened, its new content. -/
def save_books (canOpen : Bool) (books : Nat → Book) (current_book_count : Int) :
    Int × Option (List Char) :=
  if canOpen then (1, some (save_loop books current_book_count.toNat 0))
  else (0, none)

/-! ## Sequences of operations -/

/-- One call of a store operation together with the values it reads. -/
inductive Op where
  | add (title author : String) (year : Int)
  | remove (id : Int) (confirm : Char)
  | borrow (id : Int)
  | giveBack (id : Int)
deriving DecidableEq, Repr

/-- The state after one operation. -/
def step (s : State) : Op → State
  | Op.add title author year => (addBook s title author year).1
  | Op.remove id confirm => (removeBook s id confirm).1
  | Op.borrow id => (borrowBook s id).1
  | Op.giveBack id => (returnBook s id).1

/-- The state after a sequence of operations. -/
def run (s : State) (ops : List Op) : State := ops.foldl step s

/-- The id an operation assigns: the id reported by a successful `addBook`. -/
def assignedBy (s : State) : Op → List Int
  | Op.add title author year =>
    match (addBook s title author year).2 with
    | AddResult.added id => [id]
    | AddResult.libraryFull => []
  | _ => []

/-- The ids assigned by the successful adds of a sequence of operations, in
the order of the operations. -/
def assigned (s : State) : List Op → List Int
  | [] => []
  | op :: ops => assignedBy s op ++ assigned (step s op) ops

/-- The ids of the live records, in store order. -/
def liveIds (s : State) : List Int := (live s).map Book.id

/-! ## Definitions used in the statements and proofs -/

/-- The invariant of a state reached through `n` successful adds: the count is
within its bounds, the counter is `n + 1` reduced to 32 bits and, as long as
`n` fits in an `int`, the live ids increase strictly along the store and lie
between `1` and `n`. -/
def Inv (n : Nat) (s : State) : Prop :=
  0 ≤ s.book_count ∧ s.book_count ≤ MAX_BOOKS ∧ s.next_id = wrap32 ((n : Int) + 1) ∧
  (n < 2147483648 →
    (liveIds s).Pairwise (fun a b => a < b) ∧ ∀ x ∈ liveIds s, 1 ≤ x ∧ x ≤ (n : Int))

/-- A sequence of `n` rounds, each adding a record and removing it again; round
`k` (counted from `0`) removes the id `k + 2` reduced to 32 bits. -/
def churn : Nat → List Op
  | 0 => []
  | n + 1 => churn n ++ [Op.add "" "" 0, Op.remove (wrap32 ((n : Int) + 2)) 'y']

/-- The scenario of the specification: two adds, the removal of the first
record, and a third add. -/
def scenario : List Op :=
  [Op.add "Dune" "Herbert" 1965, Op.add "Foundation" "Asimov" 1951, Op.remove 1 'y',
    Op.add "Neuromancer" "Gibson" 1984]

/-- Two adds followed by the removal of the record added last. -/
def topRemoved : List Op :=
  [Op.add "Dune" "Herbert" 1965, Op.add "Foundation" "Asimov" 1951, Op.remove 2 'y']

/-- One add followed by the removal of the record it added. -/
def addRemove : List Op :=
  [Op.add "Dune" "Herbert" 1965, Op.remove 1 'y']

/-- An array whose first two records carry the ids 5 and 3. -/
def sampleBooks : Nat → Book :=
  fun i => if i = 0 then { zeroBook with id := 5 } else { zeroBook with id := 3 }

/-- A store with `MAX_BOOKS` records. -/
def fullStore : State := { initState with book_count := MAX_BOOKS }

/-- A file of two records that carry the same id. -/
def twinFile : List Char := "1;Dune;Herbert;1965;0\n1;Emma;Austen;1815;0\n".toList

/-- The store whose records are those `load_books` reads from `twinFile`. -/
def twinStore : State :=
  { initState with
    library := (load_books (some twinFile) initState.library).2.1,
    book_count := (load_books (some twinFile) initState.library).2.2 }

/-- The state `s` with the flag `is_borrowed` of slot `k` set to `v`: the effect
of `library_ptr[k].is_borrowed = v`. -/
def setFlag (s : State) (k : Nat) (v : Int) : State :=
  { s with library := writeSlot s.library k { s.library k with is_borrowed := v } }

/-- The relation between two states that differ at most in the `is_borrowed`
flag of one record: the counts, the counter and the search results agree,
every slot keeps its id, title, author and year, and all slots but one are
equal. -/
def FlagOnly (s t : State) : Prop :=
  t.book_count = s.book_count ∧ t.next_id = s.next_id ∧
  t.searchResults = s.searchResults ∧ t.searchResultCount = s.searchResultCount ∧
  (∀ j : Nat, (t.library j).id = (s.library j).id ∧
    (t.library j).title = (s.library j).title ∧
    (t.library j).author = (s.library j).author ∧
    (t.library j).publication_year = (s.library j).publication_year) ∧
  ∃ k : Nat, ∀ j : Nat, j ≠ k → t.library j = s.library j

/-- The test that the loop of `searchByTitle` applies to a record: the title,
cut to 99 characters and lower-cased, contains the search term, cut to 99
characters and lower-cased. -/
def titleHit (search_title : String) (b : Book) : Bool :=
  strstr (toLowerStr (copy100 b.title)) (toLowerStr (copy100 search_title))

/-- The match of the specification for a title search: the whole title,
lower-cased, contains the whole query, lower-cased. -/
def titleContains (query : String) (b : Book) : Bool :=
  strstr (toLowerStr b.title.toList) (toLowerStr query.toList)

/-- The store after the first add of the scenario of the specification. -/
def duneStore : State := (addBook initState "Dune" "Herbert" 1965).1

/-- A title of 104 characters that ends in "Dune". -/
def longTitle : String := String.mk (List.replicate 100 'x' ++ "Dune".toList)

/-- The store after one add of a record with the title `longTitle`. -/
def longStore : State := (addBook initState longTitle "Herbert" 1965).1

/-- The store after 101 adds of a record with the title "Dune". -/
def manyStore : State := run initState (List.replicate 101 (Op.add "Dune" "Herbert" 1965))

/-- A file of two records with the same id, the first of them borrowed. -/
def lentTwinFile : List Char := "1;Dune;Herbert;1965;1\n1;Emma;Austen;1815;0\n".toList

/-- The store whose records are those `load_books` reads from `lentTwinFile`. -/
def lentTwinStore : State :=
  { initState with
    library := (load_books (some lentTwinFile) initState.library).2.1,
    book_count := (load_books (some lentTwinFile) initState.library).2.2 }

/-- The state after the search for "dune" in the store that holds "Dune". -/
def duneFound : State := (searchByTitle duneStore "dune" 3 "" 0).1

/-- An array whose first two records carry the ids `INT_MAX` and `INT_MIN`. -/
def extremeBooks : Nat → Book :=
  fun i => if i = 0 then { zeroBook with id := INT_MAX } else { zeroBook with id := INT_MIN }

/-- The match of the format of `load_books` at the start of a text: the record
read and the text left, when `fscanf` stores all five fields. -/
def nextRecord (inp : List Char) : Option (Book × List Char) :=
  if (fscanf_record inp zeroBook).1 = 5 then
    some ((fscanf_record inp zeroBook).2.1, (fscanf_record inp zeroBook).2.2)
  else none

/-- The longest leading run of at most `n` matches of the format in a text:
the records read one after the other until the format fails to match. -/
def recordRun : Nat → List Char → List Book
  | 0, _ => []
  | n + 1, inp =>
    match nextRecord inp with
    | none => []
    | some (b, rest) => b :: recordRun n rest

/-- The lines of a text: the runs of characters between line ends. -/
def textLines : List Char → List (List Char)
  | [] => []
  | c :: cs =>
    if c = '\n' then [] :: textLines cs
    else
      match textLines cs with
      | [] => [[c]]
      | l :: ls => (c :: l) :: ls

/-- The fields of a line: the runs of characters between semicolons. -/
def lineFields : List Char → List (List Char)
  | [] => [[]]
  | c :: cs =>
    if c = ';' then [] :: lineFields cs
    else
      match lineFields cs with
      | [] => [[c]]
      | f :: fs => (c :: f) :: fs

/-- A field that is a decimal integer: an optional sign and at least one
digit, nothing else. -/
def isIntField : List Char → Bool
  | '-' :: ds => !ds.isEmpty && ds.all isdigit
  | '+' :: ds => !ds.isEmpty && ds.all isdigit
  | ds => !ds.isEmpty && ds.all isdigit

/-- The 5-field shape of the specification, `id;title;author;year;flag`: five
fields, the first and the last two integers, title and author not empty. -/
def lineShape (line : List Char) : Bool :=
  match lineFields line with
  | [id, title, author, year, flag] =>
    isIntField id && !title.isEmpty && !author.isEmpty && isIntField year && isIntField flag
  | _ => false

/-- A file whose first line carries text behind its five fields. -/
def junkFile : List Char := "1;Dune;Herbert;1965;0junk\n2;Emma;Austen;1815;0\n".toList

/-- A file with one record whose title runs across a line end. -/
def brokenTitleFile : List Char := "1;Du\nne;Herbert;1965;0\n".toList

/-- The store after one add with an empty title. -/
def blankStore : State := (addBook initState "" "Herbert" 1965).1

/-- The decimal value of a run of digits written behind a number of value
`acc`: each digit multiplies the value by ten and adds itself. -/
def digitsValue (ds : List Char) (acc : Int) : Int :=
  ds.foldl (fun a c => a * 10 + ((c.toNat : Int) - 48)) acc

/-- A record that the format of `load_books` can read back from the line that
`save_books` writes for it: its numbers are `int` values, its title and its
author have 1 to 99 characters, none of them `;`. -/
def Storable (b : Book) : Prop :=
  (INT_MIN ≤ b.id ∧ b.id ≤ INT_MAX) ∧
  (INT_MIN ≤ b.publication_year ∧ b.publication_year ≤ INT_MAX) ∧
  (INT_MIN ≤ b.is_borrowed ∧ b.is_borrowed ≤ INT_MAX) ∧
  (b.title.toList ≠ [] ∧ b.title.toList.length ≤ 99 ∧ ';' ∉ b.title.toList) ∧
  (b.author.toList ≠ [] ∧ b.author.toList.length ≤ 99 ∧ ';' ∉ b.author.toList)

instance decidableStorable (b : Book) : Decidable (Storable b) := by
  unfold Storable
  infer_instance

/-- The outcomes of `borrow` and `return_item` in the specification: `Ok`,
`NotFound`, and `AlreadyBorrowed` or `NotBorrowed`. -/
inductive LoanOutcome where
  | ok
  | notFound
  | wrongState
deriving DecidableEq, Repr

/-- The outcome that a message of `borrowBook` or `returnBook` reports. The
message "No books in the library." of an empty store says of every id that no
record has it, as the not-found message does of one id. -/
def reported : LoanResult → LoanOutcome
  | LoanResult.noBooks => LoanOutcome.notFound
  | LoanResult.done => LoanOutcome.ok
  | LoanResult.refused => LoanOutcome.wrongState
  | LoanResult.notFound => LoanOutcome.notFound

/-- The live ids of a state reached through `n` successful adds are the
numbers of some of these adds, in increasing order, each reduced to 32 bits. -/
def IdsFrom (n : Nat) (s : State) : Prop :=
  ∃ idx : List Int, idx.Pairwise (fun a b => a < b) ∧
    (∀ x ∈ idx, 1 ≤ x ∧ x ≤ (n : Int)) ∧ liveIds s = idx.map wrap32

/-- The `int` that `%d` stores for a numeral with the given sign and digits:
the decimal value, saturated to the range of a 64-bit `long`, of which the
`int` keeps the low 32 bits. -/
def numeralValue (negative : Bool) (ds : List Char) : Int :=
  wrap32 (strtol_value (if negative then -(digitsValue ds 0) else digitsValue ds 0))

/-- A numeral of the directive `%d` with the `int` stored for it: white space,
an optional sign, and at least one decimal digit. -/
def IsNumeral (txt : List Char) (v : Int) : Prop :=
  ∃ ws sign ds : List Char, txt = ws ++ (sign ++ ds) ∧
    (∀ c ∈ ws, isspace c = true) ∧
    (sign = [] ∨ sign = ['-'] ∨ sign = ['+']) ∧
    ds ≠ [] ∧ (∀ c ∈ ds, isdigit c = true) ∧
    v = numeralValue (decide (sign = ['-'])) ds

/-- A field of the directive `%99[^;]`: 1 to 99 characters, none of them `;`. -/
def IsField (f : List Char) : Prop :=
  f ≠ [] ∧ f.length ≤ 99 ∧ ';' ∉ f

/-- A match of the format `"%d;%99[^;];%99[^;];%d;%d\n"` at the start of the
text `inp`, with the record it stores and the text `rest` left behind it: a
numeral, `;`, a field, `;`, a field, `;`, a numeral, `;`, a numeral that is not
followed by a further digit, and all the white space that follows. -/
def FormatMatch (inp : List Char) (b : Book) (rest : List Char) : Prop :=
  ∃ n1 n2 n3 ws : List Char,
    inp = n1 ++ ';' :: (b.title.toList ++ ';' :: (b.author.toList ++ ';' ::
      (n2 ++ ';' :: (n3 ++ (ws ++ rest))))) ∧
    IsNumeral n1 b.id ∧ IsField b.title.toList ∧ IsField b.author.toList ∧
    IsNumeral n2 b.publication_year ∧ IsNumeral n3 b.is_borrowed ∧
    (∀ c ∈ ws, isspace c = true) ∧
    (∀ c r, ws ++ rest = c :: r → isdigit c = false) ∧
    (∀ c r, rest = c :: r → isspace c = false)

/-- The longest leading run of at most `n` matches of the format in the text
`inp`: each match starts where the one before it ended, and the run ends
after `n` matches or where the format does not match. -/
def MatchRun : Nat → List Char → List Book → Prop
  | 0, _, bs => bs = []
  | _ + 1, inp, [] => ∀ (b : Book) (rest : List Char), ¬ FormatMatch inp b rest
  | n + 1, inp, b :: bs => ∃ rest : List Char, FormatMatch inp b rest ∧ MatchRun n rest bs

/-! ## Lemmas -/

theorem length_live (s : State) : (live s).length = s.book_count.toNat := by
  simp [live]

theorem getElem_live (s : State) (i : Nat) (h : i < (live s).length) :
    (live s)[i] = s.library i := by
  simp [live]

theorem writeSlot_same (books : Nat → Book) (i : Nat) (b : Book) :
    writeSlot books i b i = b := by
  simp [writeSlot]

theorem writeSlot_other (books : Nat → Book) (i j : Nat) (b : Book) (h : j ≠ i) :
    writeSlot books i b j = books j := by
  simp [writeSlot, h]

/-- The outcome of the search loop: either no slot in `[i, i + n)` carries the
id and the result is `-1`, or the result is the first such slot. -/
theorem find_loop_spec (books : Nat → Book) (id : Int) (n i : Nat) :
    (find_loop books id n i = -1 ∧ ∀ j, i ≤ j → j < i + n → (books j).id ≠ id) ∨
    (∃ k, i ≤ k ∧ k < i + n ∧ find_loop books id n i = (k : Int) ∧ (books k).id = id ∧
      ∀ j, i ≤ j → j < k → (books j).id ≠ id) := by
  induction n generalizing i with
  | zero =>
    left
    exact ⟨rfl, fun j h1 h2 => by omega⟩
  | succ n ih =>
    by_cases h : (books i).id = id
    · right
      exact ⟨i, le_refl i, by omega, by simp [find_loop, h], h, fun j h1 h2 => by omega⟩
    · rcases ih (i + 1) with ⟨h1, h2⟩ | ⟨k, h1, h2, h3, h4, h5⟩
      · left
        refine ⟨by simp [find_loop, h, h1], fun j hj1 hj2 => ?_⟩
        by_cases hji : j = i
        · subst hji; exact h
        · exact h2 j (by omega) (by omega)
      · right
        refine ⟨k, by omega, by omega, by simp [find_loop, h, h3], h4, fun j hj1 hj2 => ?_⟩
        by_cases hji : j = i
        · subst hji; exact h
        · exact h5 j (by omega) hj2

/-- The content of every slot after the shifting loop. -/
theorem shift_loop_apply (n : Nat) : ∀ (books : Nat → Book) (i j : Nat),
    shift_loop books n i j = if i ≤ j ∧ j < i + n then books (j + 1) else books j := by
  induction n with
  | zero =>
    intro books i j
    have h : ¬ (i ≤ j ∧ j < i + 0) := by omega
    rw [if_neg h, shift_loop]
  | succ n ih =>
    intro books i j
    rw [shift_loop, ih]
    by_cases h1 : i + 1 ≤ j ∧ j < i + 1 + n
    · have h2 : i ≤ j ∧ j < i + (n + 1) := by omega
      rw [if_pos h1, if_pos h2, writeSlot_other _ _ _ _ (by omega)]
    · rw [if_neg h1]
      by_cases h3 : j = i
      · subst h3
        have h2 : j ≤ j ∧ j < j + (n + 1) := by omega
        rw [if_pos h2, writeSlot_same]
      · have h2 : ¬ (i ≤ j ∧ j < i + (n + 1)) := by omega
        rw [if_neg h2, writeSlot_other _ _ _ _ h3]


/-- Erasing position `k` of the list of the first `m` slots. -/
theorem map_range_eraseIdx (f g : Nat → Book) (m k : Nat) (hk : k < m)
    (hg : ∀ j, j + 1 < m → g j = if j < k then f j else f (j + 1)) :
    (List.range (m - 1)).map g = ((List.range m).map f).eraseIdx k := by
  apply List.ext_getElem
  · rw [List.length_eraseIdx_of_lt (by simpa using hk)]
    simp
  · intro j h1 h2
    have hj : j + 1 < m := by simp at h1; omega
    rw [List.getElem_eraseIdx]
    simp only [List.getElem_map, List.getElem_range]
    rw [hg j hj]
    by_cases h : j < k
    · simp [h]
    · simp [h]

/-- A found index is in range, carries the id, and is the first to do so. -/
theorem find_found (s : State) (id : Int) (k : Nat) (hk : find_book_by_id s id = (k : Int)) :
    k < s.book_count.toNat ∧ (s.library k).id = id ∧ ∀ j, j < k → (s.library j).id ≠ id := by
  unfold find_book_by_id at hk
  rcases find_loop_spec s.library id s.book_count.toNat 0 with ⟨h1, _⟩ | ⟨k1, _, h2, h3, h4, h5⟩
  · omega
  · have : k1 = k := by omega
    subst this
    exact ⟨by omega, h4, fun j hj => h5 j (Nat.zero_le j) hj⟩

/-- The state left by a confirmed removal of a record found at slot `k`. -/
theorem removeBook_confirmed (s : State) (id : Int) (confirm : Char) (k : Nat)
    (hc : confirm = 'y' ∨ confirm = 'Y') (hk : find_book_by_id s id = (k : Int)) :
    removeBook s id confirm =
      ({ s with library := shift_loop s.library (s.book_count.toNat - 1 - k) k,
                book_count := s.book_count - 1 }, RemoveResult.removed) := by
  have hf := find_found s id k hk
  have h0 : s.book_count ≠ 0 := by omega
  have h1 : ¬ ((k : Int) = -1) := by omega
  have h2 : (s.book_count - 1 - (k : Int)).toNat = s.book_count.toNat - 1 - k := by omega
  simp only [removeBook, if_neg h0, hk, if_neg h1, if_pos hc, h2, Int.toNat_ofNat]

/-- The live records after a confirmed removal of a record found at slot `k`. -/
theorem live_removeBook (s : State) (id : Int) (confirm : Char) (k : Nat)
    (hc : confirm = 'y' ∨ confirm = 'Y') (hk : find_book_by_id s id = (k : Int)) :
    live (removeBook s id confirm).1 = (live s).eraseIdx k := by
  have hf := find_found s id k hk
  rw [removeBook_confirmed s id confirm k hc hk]
  unfold live
  have h3 : (s.book_count - 1).toNat = s.book_count.toNat - 1 := by omega
  simp only [h3]
  apply map_range_eraseIdx _ _ _ _ hf.1
  intro j hj
  rw [shift_loop_apply]
  by_cases h : j < k
  · have : ¬ (k ≤ j ∧ j < k + (s.book_count.toNat - 1 - k)) := by omega
    rw [if_neg this, if_pos h]
  · have : k ≤ j ∧ j < k + (s.book_count.toNat - 1 - k) := by omega
    rw [if_pos this, if_neg h]


/-- The search either fails with `-1` or returns a slot index. -/
theorem find_cases (s : State) (id : Int) :
    find_book_by_id s id = -1 ∨ ∃ k : Nat, find_book_by_id s id = (k : Int) := by
  unfold find_book_by_id
  rcases find_loop_spec s.library id s.book_count.toNat 0 with ⟨h1, _⟩ | ⟨k, _, _, h3, _, _⟩
  · exact Or.inl h1
  · exact Or.inr ⟨k, h3⟩

/-- A removal either leaves the state as it is or is a confirmed removal of a
record that was found. -/
theorem removeBook_cases (s : State) (id : Int) (confirm : Char) :
    (removeBook s id confirm).1 = s ∨
    ∃ k : Nat, find_book_by_id s id = (k : Int) ∧ (confirm = 'y' ∨ confirm = 'Y') := by
  rcases find_cases s id with h | ⟨k, hk⟩
  · left
    unfold removeBook
    by_cases h0 : s.book_count = 0
    · rw [if_pos h0]
    · simp only [if_neg h0, h, if_true]
  · by_cases hc : confirm = 'y' ∨ confirm = 'Y'
    · exact Or.inr ⟨k, hk, hc⟩
    · left
      unfold removeBook
      by_cases h0 : s.book_count = 0
      · rw [if_pos h0]
      · have h1 : ¬ ((k : Int) = -1) := by omega
        simp only [if_neg h0, hk, if_neg h1, if_neg hc]

/-- A full store refuses the add. -/
theorem addBook_full (s : State) (title author : String) (year : Int)
    (h : MAX_BOOKS ≤ s.book_count) :
    addBook s title author year = (s, AddResult.libraryFull) := by
  unfold addBook
  rw [if_pos h]

/-- The state and the message of an add into a store that is not full. -/
theorem addBook_ok (s : State) (title author : String) (year : Int)
    (h : s.book_count < MAX_BOOKS) :
    addBook s title author year =
      ({ s with library := writeSlot s.library s.book_count.toNat
                  { id := s.next_id, title := title, author := author,
                    publication_year := year, is_borrowed := 0 },
                next_id := wrap32 (s.next_id + 1),
                book_count := s.book_count + 1 }, AddResult.added s.next_id) := by
  unfold addBook
  rw [if_neg (not_le.mpr h)]
  simp [writeSlot]

/-- The live records after an add into a store that is not full. -/
theorem live_addBook (s : State) (title author : String) (year : Int)
    (h0 : 0 ≤ s.book_count) (h : s.book_count < MAX_BOOKS) :
    live (addBook s title author year).1 =
      live s ++ [{ id := s.next_id, title := title, author := author,
                   publication_year := year, is_borrowed := 0 }] := by
  rw [addBook_ok s title author year h]
  unfold live
  have h1 : (s.book_count + 1).toNat = s.book_count.toNat + 1 := by omega
  simp only [h1, List.range_succ, List.map_append, List.map_cons, List.map_nil, writeSlot_same]
  congr 1
  apply List.map_congr_left
  intro j hj
  rw [List.mem_range] at hj
  exact writeSlot_other _ _ _ _ (by omega)

/-- The borrowing loop changes no id. -/
theorem borrow_loop_id (id : Int) (n : Nat) : ∀ (books : Nat → Book) (i j : Nat),
    ((borrow_loop books id n i).1 j).id = (books j).id := by
  induction n with
  | zero => intro books i j; rfl
  | succ n ih =>
    intro books i j
    unfold borrow_loop
    split_ifs with h1 h2
    · by_cases hj : j = i
      · subst hj; simp [writeSlot]
      · simp [writeSlot, hj]
    · rfl
    · exact ih books (i + 1) j

/-- The returning loop changes no id. -/
theorem return_loop_id (id : Int) (n : Nat) : ∀ (books : Nat → Book) (i j : Nat),
    ((return_loop books id n i).1 j).id = (books j).id := by
  induction n with
  | zero => intro books i j; rfl
  | succ n ih =>
    intro books i j
    unfold return_loop
    split_ifs with h1 h2
    · by_cases hj : j = i
      · subst hj; simp [writeSlot]
      · simp [writeSlot, hj]
    · rfl
    · exact ih books (i + 1) j

theorem borrowBook_frame (s : State) (id : Int) :
    (borrowBook s id).1.book_count = s.book_count ∧
    (borrowBook s id).1.next_id = s.next_id ∧
    liveIds (borrowBook s id).1 = liveIds s := by
  unfold borrowBook
  by_cases h0 : s.book_count = 0
  · simp [h0]
  · simp only [if_neg h0, liveIds, live, List.map_map, true_and]
    apply List.map_congr_left
    intro j _
    exact borrow_loop_id id _ s.library 0 j

theorem returnBook_frame (s : State) (id : Int) :
    (returnBook s id).1.book_count = s.book_count ∧
    (returnBook s id).1.next_id = s.next_id ∧
    liveIds (returnBook s id).1 = liveIds s := by
  unfold returnBook
  by_cases h0 : s.book_count = 0
  · simp [h0]
  · simp only [if_neg h0, liveIds, live, List.map_map, true_and]
    apply List.map_congr_left
    intro j _
    exact return_loop_id id _ s.library 0 j


theorem wrap32_of_range (x : Int) (h1 : -2147483648 ≤ x) (h2 : x < 2147483648) :
    wrap32 x = x := by
  unfold wrap32; omega

theorem wrap32_succ (x : Int) : wrap32 (wrap32 x + 1) = wrap32 (x + 1) := by
  unfold wrap32; omega

theorem Inv_init : Inv 0 initState := by
  refine ⟨by decide, by decide, by decide, fun _ => ?_⟩
  simp [liveIds, live, initState]

/-- The ids of the live records after a removal are a sublist of those before. -/
theorem liveIds_removeBook (s : State) (id : Int) (confirm : Char) :
    (liveIds (removeBook s id confirm).1).Sublist (liveIds s) := by
  rcases removeBook_cases s id confirm with h | ⟨k, hk, hc⟩
  · rw [h]
  · unfold liveIds
    rw [live_removeBook s id confirm k hc hk]
    exact (List.eraseIdx_sublist _ _).map _

/-- The count after a removal. -/
theorem book_count_removeBook (s : State) (id : Int) (confirm : Char) :
    ((removeBook s id confirm).1.book_count = s.book_count ∨
      (removeBook s id confirm).1.book_count = s.book_count - 1 ∧ 0 < s.book_count) ∧
    (removeBook s id confirm).1.next_id = s.next_id := by
  rcases removeBook_cases s id confirm with h | ⟨k, hk, hc⟩
  · rw [h]; exact ⟨Or.inl rfl, rfl⟩
  · have hf := find_found s id k hk
    rw [removeBook_confirmed s id confirm k hc hk]
    exact ⟨Or.inr ⟨rfl, by omega⟩, rfl⟩

/-- One operation keeps the invariant; a successful add assigns the counter and
moves the invariant from `n` to `n + 1`. -/
theorem Inv_step (n : Nat) (s : State) (op : Op) (h : Inv n s) :
    Inv (n + (assignedBy s op).length) (step s op) ∧
    (assignedBy s op = [] ∨ assignedBy s op = [wrap32 ((n : Int) + 1)]) := by
  obtain ⟨h0, h1, h2, h3⟩ := h
  cases op with
  | add title author year =>
    by_cases hfull : MAX_BOOKS ≤ s.book_count
    · simp only [assignedBy, step, addBook_full s title author year hfull]
      exact ⟨⟨h0, h1, h2, h3⟩, Or.inl trivial⟩
    · have hlt : s.book_count < MAX_BOOKS := not_le.mp hfull
      have hl := live_addBook s title author year h0 hlt
      simp only [assignedBy, step]
      rw [addBook_ok s title author year hlt] at hl ⊢
      simp only [List.length_singleton]
      refine ⟨⟨?_, ?_, ?_, ?_⟩, Or.inr (by rw [h2])⟩
      · show 0 ≤ s.book_count + 1
        omega
      · show s.book_count + 1 ≤ MAX_BOOKS
        omega
      · show wrap32 (s.next_id + 1) = wrap32 (((n + 1 : Nat) : Int) + 1)
        rw [h2, wrap32_succ]
        push_cast
        rfl
      · intro hn
        obtain ⟨h4, h5⟩ := h3 (by omega)
        have hid : s.next_id = (n : Int) + 1 := by
          rw [h2]; exact wrap32_of_range _ (by omega) (by omega)
        unfold liveIds at h4 h5 ⊢
        rw [hl, List.map_append, List.map_cons, List.map_nil]
        refine ⟨List.pairwise_append.mpr ⟨h4, List.pairwise_singleton _ _, ?_⟩, ?_⟩
        · intro a ha b hb
          rw [List.mem_singleton] at hb
          have := h5 a ha
          subst hb
          show a < s.next_id
          omega
        · intro x hx
          rw [List.mem_append, List.mem_singleton] at hx
          rcases hx with hx | hx
          · have := h5 x hx
            push_cast; omega
          · subst hx
            show 1 ≤ s.next_id ∧ s.next_id ≤ ((n + 1 : Nat) : Int)
            push_cast; omega
  | remove id confirm =>
    simp only [assignedBy, step, List.length_nil, Nat.add_zero]
    have hsub := liveIds_removeBook s id confirm
    obtain ⟨hc, hn⟩ := book_count_removeBook s id confirm
    refine ⟨⟨by omega, by omega, by rw [hn, h2], fun hlt => ?_⟩, Or.inl trivial⟩
    obtain ⟨h4, h5⟩ := h3 hlt
    exact ⟨h4.sublist hsub, fun x hx => h5 x (hsub.subset hx)⟩
  | borrow id =>
    simp only [assignedBy, step, List.length_nil, Nat.add_zero]
    obtain ⟨hc, hn, hl⟩ := borrowBook_frame s id
    refine ⟨⟨by omega, by omega, by rw [hn, h2], fun hlt => ?_⟩, Or.inl trivial⟩
    rw [hl]; exact h3 hlt
  | giveBack id =>
    simp only [assignedBy, step, List.length_nil, Nat.add_zero]
    obtain ⟨hc, hn, hl⟩ := returnBook_frame s id
    refine ⟨⟨by omega, by omega, by rw [hn, h2], fun hlt => ?_⟩, Or.inl trivial⟩
    rw [hl]; exact h3 hlt

theorem run_append (s : State) (a b : List Op) : run s (a ++ b) = run (run s a) b := by
  simp [run]

theorem run_cons (s : State) (op : Op) (ops : List Op) :
    run s (op :: ops) = run (step s op) ops := rfl

theorem assigned_append (a b : List Op) : ∀ s : State,
    assigned s (a ++ b) = assigned s a ++ assigned (run s a) b := by
  induction a with
  | nil => intro s; rfl
  | cons op a ih =>
    intro s
    show assignedBy s op ++ assigned (step s op) (a ++ b) = _
    rw [ih, run_cons]
    simp only [assigned, List.append_assoc]

/-- Along a sequence of operations the invariant is kept, and as long as the
number of successful adds fits in an `int` the ids handed out are consecutive:
after `n` earlier successful adds, the next ones get `n + 1`, `n + 2`, ... -/
theorem Inv_run (ops : List Op) : ∀ (n : Nat) (s : State), Inv n s →
    Inv (n + (assigned s ops).length) (run s ops) ∧
    (n + (assigned s ops).length < 2147483648 →
      ∀ (i : Nat) (hi : i < (assigned s ops).length),
        (assigned s ops)[i] = (n : Int) + 1 + (i : Int)) := by
  induction ops with
  | nil =>
    intro n s h
    exact ⟨h, fun _ i hi => absurd hi (Nat.not_lt_zero i)⟩
  | cons op ops ih =>
    intro n s h
    obtain ⟨h1, h2⟩ := Inv_step n s op h
    obtain ⟨h3, h4⟩ := ih (n + (assignedBy s op).length) (step s op) h1
    rw [run_cons]
    simp only [assigned, List.length_append]
    refine ⟨by rw [← Nat.add_assoc]; exact h3, fun hlt i hi => ?_⟩
    rcases h2 with h2 | h2
    · simp only [h2, List.nil_append, List.length_nil, Nat.add_zero, Nat.zero_add] at h4 hlt hi ⊢
      exact h4 hlt i hi
    · simp only [h2, List.length_singleton] at h4 hlt hi
      simp only [h2, List.singleton_append]
      cases i with
      | zero =>
        rw [List.getElem_cons_zero]
        have hw : wrap32 ((n : Int) + 1) = (n : Int) + 1 :=
          wrap32_of_range _ (by omega) (by omega)
        rw [hw]
        simp
      | succ j =>
        rw [List.getElem_cons_succ]
        rw [h4 (by omega) j (by omega)]
        push_cast
        omega

/-- The maximum loop returns an upper bound of its start value and of the ids
in the slots it visits, and this bound is the start value or one of those ids. -/
theorem get_next_id_loop_spec (books : Nat → Book) (n : Nat) : ∀ (i : Nat) (m0 : Int),
    m0 ≤ get_next_id_loop books n i m0 ∧
    (∀ j, i ≤ j → j < i + n → (books j).id ≤ get_next_id_loop books n i m0) ∧
    (get_next_id_loop books n i m0 = m0 ∨
      ∃ j, i ≤ j ∧ j < i + n ∧ (books j).id = get_next_id_loop books n i m0) := by
  induction n with
  | zero =>
    intro i m0
    exact ⟨le_refl _, fun j h1 h2 => by omega, Or.inl rfl⟩
  | succ n ih =>
    intro i m0
    rw [get_next_id_loop]
    by_cases hgt : (books i).id > m0
    · rw [if_pos hgt]
      obtain ⟨h1, h2, h3⟩ := ih (i + 1) (books i).id
      refine ⟨by omega, fun j hj1 hj2 => ?_, ?_⟩
      · by_cases hji : j = i
        · subst hji; exact h1
        · exact h2 j (by omega) (by omega)
      · right
        rcases h3 with h3 | ⟨j, hj1, hj2, hj3⟩
        · exact ⟨i, le_refl i, by omega, h3.symm⟩
        · exact ⟨j, by omega, by omega, hj3⟩
    · rw [if_neg hgt]
      obtain ⟨h1, h2, h3⟩ := ih (i + 1) m0
      refine ⟨h1, fun j hj1 hj2 => ?_, ?_⟩
      · by_cases hji : j = i
        · subst hji; omega
        · exact h2 j (by omega) (by omega)
      · rcases h3 with h3 | ⟨j, hj1, hj2, hj3⟩
        · exact Or.inl h3
        · exact Or.inr ⟨j, by omega, by omega, hj3⟩

/-- With at least one record and all ids in the range of `int` below
`INT_MAX`, `get_next_id` is one more than the largest id. -/
theorem get_next_id_pos (books : Nat → Book) (n : Nat) (hn : 0 < n)
    (hr : ∀ i, i < n → INT_MIN ≤ (books i).id ∧ (books i).id < INT_MAX) :
    ∃ m : Int, (∃ i, i < n ∧ (books i).id = m) ∧ (∀ i, i < n → (books i).id ≤ m) ∧
      get_next_id books (n : Int) = 1 + m := by
  obtain ⟨h1, h2, h3⟩ := get_next_id_loop_spec books n 0 INT_MIN
  have hatt : ∃ i, i < n ∧ (books i).id = get_next_id_loop books n 0 INT_MIN := by
    rcases h3 with h3 | ⟨j, _, hj2, hj3⟩
    · refine ⟨0, hn, ?_⟩
      have := h2 0 (le_refl 0) (by omega)
      have := (hr 0 hn).1
      omega
    · exact ⟨j, by omega, hj3⟩
  refine ⟨get_next_id_loop books n 0 INT_MIN, hatt, fun i hi => h2 i (Nat.zero_le i) (by omega), ?_⟩
  obtain ⟨i, hi, he⟩ := hatt
  have hb := hr i hi
  rw [he] at hb
  have hn0 : ¬ ((n : Int) = 0) := by omega
  unfold get_next_id
  rw [if_neg hn0, Int.toNat_ofNat]
  have e1 : INT_MIN = -2147483648 := rfl
  have e2 : INT_MAX = 2147483647 := rfl
  have hw : wrap32 (get_next_id_loop books n 0 INT_MIN + 1) =
      get_next_id_loop books n 0 INT_MIN + 1 :=
    wrap32_of_range _ (by omega) (by omega)
  rw [hw]
  omega

theorem length_liveIds (s : State) : (liveIds s).length = s.book_count.toNat := by
  simp [liveIds, live]

theorem getElem_liveIds (s : State) (i : Nat) (h : i < (liveIds s).length) :
    (liveIds s)[i] = (s.library i).id := by
  simp [liveIds, live]

/-- Distinct live ids, read on the slots. -/
theorem distinct_slots (s : State) (hd : (liveIds s).Nodup) (i j : Nat)
    (hi : i < s.book_count.toNat) (hj : j < s.book_count.toNat)
    (h : (s.library i).id = (s.library j).id) : i = j := by
  have hi1 : i < (liveIds s).length := by rw [length_liveIds]; exact hi
  have hj1 : j < (liveIds s).length := by rw [length_liveIds]; exact hj
  have h2 : (liveIds s)[i] = (liveIds s)[j] := by
    rw [getElem_liveIds, getElem_liveIds]; exact h
  exact (List.Nodup.getElem_inj_iff hd).mp h2

/-- The search fails exactly when no live record carries the id. -/
theorem find_eq_neg_one_iff (s : State) (id : Int) :
    find_book_by_id s id = -1 ↔
      ∀ i : Nat, i < s.book_count.toNat → (s.library i).id ≠ id := by
  unfold find_book_by_id
  rcases find_loop_spec s.library id s.book_count.toNat 0 with ⟨h1, h2⟩ | ⟨k, _, h2, h3, h4, _⟩
  · exact ⟨fun _ i hi => h2 i (Nat.zero_le i) (by omega), fun _ => h1⟩
  · constructor
    · intro h; omega
    · intro h; exact absurd h4 (h k (by omega))

/-- The loading loop stops at `MAX_BOOKS` records: it adds at most `n`. -/
theorem load_loop_count (n : Nat) : ∀ (inp : List Char) (books : Nat → Book) (count : Nat),
    (load_loop n inp books count).2 ≤ count + n := by
  induction n with
  | zero => intro inp books count; exact le_refl _
  | succ n ih =>
    intro inp books count
    rw [load_loop]
    split_ifs with h
    · have := ih (fscanf_record inp (books count)).2.2
        (writeSlot books count (fscanf_record inp (books count)).2.1) (count + 1)
      omega
    · show count ≤ count + (n + 1)
      omega

/-- One operation keeps the count within its bounds. -/
theorem bounds_step (s : State) (op : Op) (h0 : 0 ≤ s.book_count)
    (h1 : s.book_count ≤ MAX_BOOKS) :
    0 ≤ (step s op).book_count ∧ (step s op).book_count ≤ MAX_BOOKS := by
  cases op with
  | add title author year =>
    by_cases hfull : MAX_BOOKS ≤ s.book_count
    · simp only [step, addBook_full s title author year hfull]
      exact ⟨h0, h1⟩
    · have hlt : s.book_count < MAX_BOOKS := not_le.mp hfull
      simp only [step, addBook_ok s title author year hlt]
      constructor <;> omega
  | remove id confirm =>
    obtain ⟨hc, _⟩ := book_count_removeBook s id confirm
    simp only [step]
    constructor <;> omega
  | borrow id =>
    obtain ⟨hc, _⟩ := borrowBook_frame s id
    simp only [step]
    constructor <;> omega
  | giveBack id =>
    obtain ⟨hc, _⟩ := returnBook_frame s id
    simp only [step]
    constructor <;> omega

theorem mem_liveIds_iff (s : State) (x : Int) :
    x ∈ liveIds s ↔ ∃ i, i < s.book_count.toNat ∧ (s.library i).id = x := by
  simp [liveIds, live]

/-- One round of `churn` on a store that holds one record with id `1` and
whose counter is `n + 2` reduced to 32 bits. -/
theorem churn_round (s : State) (n : Nat) (hn : n + 1 ≤ 4294967295)
    (h1 : s.book_count = 1) (h2 : (s.library 0).id = 1)
    (h3 : s.next_id = wrap32 ((n : Int) + 2)) :
    (removeBook (addBook s "" "" 0).1 s.next_id 'y').1.book_count = 1 ∧
    ((removeBook (addBook s "" "" 0).1 s.next_id 'y').1.library 0).id = 1 ∧
    (removeBook (addBook s "" "" 0).1 s.next_id 'y').1.next_id =
      wrap32 (((n + 1 : Nat) : Int) + 2) := by
  have hlt : s.book_count < MAX_BOOKS := by rw [h1]; decide
  have hne : ¬ ((1 : Int) = s.next_id) := by
    rw [h3]; unfold wrap32; omega
  have hfind : find_book_by_id (addBook s "" "" 0).1 s.next_id = ((1 : Nat) : Int) := by
    rw [addBook_ok s "" "" 0 hlt]
    unfold find_book_by_id
    simp only [h1]
    have e : ((1 : Int) + 1).toNat = 2 := by decide
    have e1 : (1 : Int).toNat = 1 := by decide
    rw [e, e1, find_loop, find_loop]
    rw [writeSlot_other _ _ _ _ (by decide), h2, if_neg hne, writeSlot_same, if_pos rfl]
  rw [removeBook_confirmed _ _ _ 1 (Or.inl rfl) hfind, addBook_ok s "" "" 0 hlt]
  refine ⟨?_, ?_, ?_⟩
  · show s.book_count + 1 - 1 = 1
    omega
  · show (shift_loop _ ((s.book_count + 1).toNat - 1 - 1) 1 0).id = 1
    have e : (0 : Nat) ≠ s.book_count.toNat := by rw [h1]; decide
    rw [shift_loop_apply, if_neg (by omega)]
    show (writeSlot s.library s.book_count.toNat _ 0).id = 1
    rw [writeSlot_other _ _ _ _ e]
    exact h2
  · show wrap32 (s.next_id + 1) = wrap32 (((n + 1 : Nat) : Int) + 2)
    rw [h3, wrap32_succ]
    push_cast
    congr 1

/-- After one add and `n` rounds of `churn` the store holds the first record
only, and the counter is `n + 2` reduced to 32 bits. -/
theorem churn_state (n : Nat) (hn : n ≤ 4294967295) :
    (run (step initState (Op.add "" "" 0)) (churn n)).book_count = 1 ∧
    ((run (step initState (Op.add "" "" 0)) (churn n)).library 0).id = 1 ∧
    (run (step initState (Op.add "" "" 0)) (churn n)).next_id = wrap32 ((n : Int) + 2) := by
  induction n with
  | zero => exact ⟨by decide, by decide, by decide⟩
  | succ n ih =>
    obtain ⟨h1, h2, h3⟩ := ih (by omega)
    have hrun : run (step initState (Op.add "" "" 0)) (churn (n + 1)) =
        (removeBook (addBook (run (step initState (Op.add "" "" 0)) (churn n)) "" "" 0).1
          (wrap32 ((n : Int) + 2)) 'y').1 := by
      rw [churn, run_append]
      rfl
    rw [hrun, ← h3]
    exact churn_round _ n hn h1 h2 h3

theorem run_singleton (s : State) (op : Op) : run s [op] = step s op := rfl

/-- An add into a store that holds one record with id `1` while the counter is
`1` again. -/
theorem add_duplicate (s : State) (h1 : s.book_count = 1) (h2 : (s.library 0).id = 1)
    (h3 : s.next_id = 1) : liveIds (step s (Op.add "" "" 0)) = [1, 1] := by
  have hlt : s.book_count < MAX_BOOKS := by rw [h1]; decide
  have hl := live_addBook s "" "" 0 (by omega) hlt
  have hlive : live s = [s.library 0] := by
    unfold live; rw [h1]; rfl
  show liveIds (addBook s "" "" 0).1 = [1, 1]
  unfold liveIds
  rw [hl, hlive, h3]
  simp only [List.map_append, List.map_cons, List.map_nil, h2]
  rfl

/-- The live ids after one add, `2^32 - 1` rounds of `churn` and one more add. -/
theorem churn_liveIds :
    liveIds (run initState (Op.add "" "" 0 :: (churn 4294967295 ++ [Op.add "" "" 0]))) =
      [1, 1] := by
  obtain ⟨h1, h2, h3⟩ := churn_state 4294967295 (Nat.le_refl _)
  rw [run_cons, run_append, run_singleton]
  exact add_duplicate _ h1 h2 (by rw [h3]; decide)

theorem assignedBy_add (s : State) (title author : String) (year z : Int)
    (h : (addBook s title author year).2 = AddResult.added z) :
    assignedBy s (Op.add title author year) = [z] := by
  simp only [assignedBy, h]

/-- In a state reached through `n` successful adds, `get_next_id` of the live
records is at most `n + 1`, with equality exactly when nothing was added yet
or the record with id `n` is live. -/
theorem get_next_id_of_Inv (n : Nat) (s : State) (h : Inv n s) (hn : n + 1 < 2147483648) :
    get_next_id s.library s.book_count ≤ (n : Int) + 1 ∧
    (get_next_id s.library s.book_count = (n : Int) + 1 ↔ n = 0 ∨ (n : Int) ∈ liveIds s) := by
  obtain ⟨h0, _, _, h3⟩ := h
  obtain ⟨_, hb⟩ := h3 (by omega)
  by_cases hz : s.book_count = 0
  · have hg : get_next_id s.library s.book_count = 1 := by
      unfold get_next_id; rw [if_pos hz]
    have hl : liveIds s = [] := by simp [liveIds, live, hz]
    rw [hg, hl]
    refine ⟨by omega, ?_⟩
    simp only [List.not_mem_nil, or_false]
    omega
  · have hcast : ((s.book_count.toNat : Nat) : Int) = s.book_count := Int.toNat_of_nonneg h0
    have e1 : INT_MIN = -2147483648 := rfl
    have e2 : INT_MAX = 2147483647 := rfl
    obtain ⟨m, ⟨i, hi, hem⟩, hub, hres⟩ :=
      get_next_id_pos s.library s.book_count.toNat (by omega) (fun j hj => by
        have := hb _ ((mem_liveIds_iff s _).mpr ⟨j, hj, rfl⟩)
        omega)
    rw [hcast] at hres
    have hm := hb m ((mem_liveIds_iff s m).mpr ⟨i, hi, hem⟩)
    rw [hres]
    refine ⟨by omega, ⟨fun he => Or.inr ?_, fun hor => ?_⟩⟩
    · have : m = (n : Int) := by omega
      rw [← this]
      exact (mem_liveIds_iff s m).mpr ⟨i, hi, hem⟩
    · rcases hor with hor | hor
      · omega
      · obtain ⟨j, hj, hej⟩ := (mem_liveIds_iff s _).mp hor
        have := hub j hj
        omega

/-- The borrowing loop when no slot it visits carries the id. -/
theorem borrow_loop_none (books : Nat → Book) (id : Int) (n : Nat) : ∀ i : Nat,
    (∀ j, i ≤ j → j < i + n → (books j).id ≠ id) →
    borrow_loop books id n i = (books, LoanResult.notFound) := by
  induction n with
  | zero => intro i _; rfl
  | succ n ih =>
    intro i h
    have hi := h i (le_refl i) (by omega)
    rw [borrow_loop, if_neg (fun hc => hi hc.1), if_neg (fun hc => hi hc.1)]
    exact ih (i + 1) (fun j h1 h2 => h j (by omega) (by omega))

/-- The borrowing loop when `k` is the first slot it visits that carries the
id: the outcome is decided by the flag of that slot alone. -/
theorem borrow_loop_first (books : Nat → Book) (id : Int) (n : Nat) : ∀ i k : Nat,
    i ≤ k → k < i + n → (books k).id = id →
    (∀ j, i ≤ j → j < k → (books j).id ≠ id) →
    borrow_loop books id n i =
      if (books k).is_borrowed = 0 then
        (writeSlot books k { books k with is_borrowed := 1 }, LoanResult.done)
      else (books, LoanResult.refused) := by
  induction n with
  | zero => intro i k h1 h2; omega
  | succ n ih =>
    intro i k h1 h2 hid hfirst
    rw [borrow_loop]
    by_cases hik : i = k
    · subst hik
      by_cases hb : (books i).is_borrowed = 0
      · rw [if_pos ⟨hid, hb⟩, if_pos hb]
      · rw [if_neg (fun hc => hb hc.2), if_pos ⟨hid, hb⟩, if_neg hb]
    · have hi := hfirst i (le_refl i) (by omega)
      rw [if_neg (fun hc => hi hc.1), if_neg (fun hc => hi hc.1)]
      exact ih (i + 1) k (by omega) (by omega) hid (fun j hj1 hj2 => hfirst j (by omega) hj2)

/-- The returning loop when no slot it visits carries the id. -/
theorem return_loop_none (books : Nat → Book) (id : Int) (n : Nat) : ∀ i : Nat,
    (∀ j, i ≤ j → j < i + n → (books j).id ≠ id) →
    return_loop books id n i = (books, LoanResult.notFound) := by
  induction n with
  | zero => intro i _; rfl
  | succ n ih =>
    intro i h
    have hi := h i (le_refl i) (by omega)
    rw [return_loop, if_neg (fun hc => hi hc.1), if_neg (fun hc => hi hc.1)]
    exact ih (i + 1) (fun j h1 h2 => h j (by omega) (by omega))

/-- The returning loop when `k` is the first slot it visits that carries the
id: the outcome is decided by the flag of that slot alone. -/
theorem return_loop_first (books : Nat → Book) (id : Int) (n : Nat) : ∀ i k : Nat,
    i ≤ k → k < i + n → (books k).id = id →
    (∀ j, i ≤ j → j < k → (books j).id ≠ id) →
    return_loop books id n i =
      if (books k).is_borrowed ≠ 0 then
        (writeSlot books k { books k with is_borrowed := 0 }, LoanResult.done)
      else (books, LoanResult.refused) := by
  induction n with
  | zero => intro i k h1 h2; omega
  | succ n ih =>
    intro i k h1 h2 hid hfirst
    rw [return_loop]
    by_cases hik : i = k
    · subst hik
      by_cases hb : (books i).is_borrowed ≠ 0
      · rw [if_pos ⟨hid, hb⟩, if_pos hb]
      · rw [if_neg (fun hc => hb hc.2), if_pos ⟨hid, not_not.mp hb⟩, if_neg hb]
    · have hi := hfirst i (le_refl i) (by omega)
      rw [if_neg (fun hc => hi hc.1), if_neg (fun hc => hi hc.1)]
      exact ih (i + 1) k (by omega) (by omega) hid (fun j hj1 hj2 => hfirst j (by omega) hj2)

/-- `borrowBook` on an empty store. -/
theorem borrowBook_empty (s : State) (id : Int) (h : s.book_count = 0) :
    borrowBook s id = (s, LoanResult.noBooks) := by
  unfold borrowBook; rw [if_pos h]

/-- `borrowBook` when the store is not empty and no live record has the id. -/
theorem borrowBook_none (s : State) (id : Int) (h0 : s.book_count ≠ 0)
    (h : ∀ i : Nat, i < s.book_count.toNat → (s.library i).id ≠ id) :
    borrowBook s id = (s, LoanResult.notFound) := by
  unfold borrowBook
  rw [if_neg h0]
  simp only [borrow_loop_none s.library id s.book_count.toNat 0
    (fun j _ hj => h j (by omega))]

/-- `borrowBook` when `k` is the first live record with the id. -/
theorem borrowBook_first (s : State) (id : Int) (k : Nat) (hk : k < s.book_count.toNat)
    (hid : (s.library k).id = id) (hfirst : ∀ j, j < k → (s.library j).id ≠ id) :
    borrowBook s id =
      if (s.library k).is_borrowed = 0 then
        (setFlag s k 1, LoanResult.done)
      else (s, LoanResult.refused) := by
  have h0 : s.book_count ≠ 0 := by omega
  unfold borrowBook
  rw [if_neg h0]
  simp only [borrow_loop_first s.library id s.book_count.toNat 0 k (Nat.zero_le k)
    (by omega) hid (fun j _ hj => hfirst j hj)]
  split_ifs <;> rfl

/-- `returnBook` on an empty store. -/
theorem returnBook_empty (s : State) (id : Int) (h : s.book_count = 0) :
    returnBook s id = (s, LoanResult.noBooks) := by
  unfold returnBook; rw [if_pos h]

/-- `returnBook` when the store is not empty and no live record has the id. -/
theorem returnBook_none (s : State) (id : Int) (h0 : s.book_count ≠ 0)
    (h : ∀ i : Nat, i < s.book_count.toNat → (s.library i).id ≠ id) :
    returnBook s id = (s, LoanResult.notFound) := by
  unfold returnBook
  rw [if_neg h0]
  simp only [return_loop_none s.library id s.book_count.toNat 0
    (fun j _ hj => h j (by omega))]

/-- `returnBook` when `k` is the first live record with the id. -/
theorem returnBook_first (s : State) (id : Int) (k : Nat) (hk : k < s.book_count.toNat)
    (hid : (s.library k).id = id) (hfirst : ∀ j, j < k → (s.library j).id ≠ id) :
    returnBook s id =
      if (s.library k).is_borrowed ≠ 0 then
        (setFlag s k 0, LoanResult.done)
      else (s, LoanResult.refused) := by
  have h0 : s.book_count ≠ 0 := by omega
  unfold returnBook
  rw [if_neg h0]
  simp only [return_loop_first s.library id s.book_count.toNat 0 k (Nat.zero_le k)
    (by omega) hid (fun j _ hj => hfirst j hj)]
  split_ifs <;> rfl

/-- The first live record with a given id, if there is one. -/
theorem first_match (s : State) (id : Int) :
    (∀ i : Nat, i < s.book_count.toNat → (s.library i).id ≠ id) ∨
    ∃ k : Nat, k < s.book_count.toNat ∧ (s.library k).id = id ∧
      ∀ j, j < k → (s.library j).id ≠ id := by
  rcases find_loop_spec s.library id s.book_count.toNat 0 with ⟨_, h2⟩ | ⟨k, _, h2, _, h4, h5⟩
  · exact Or.inl (fun i hi => h2 i (Nat.zero_le i) (by omega))
  · exact Or.inr ⟨k, by omega, h4, fun j hj => h5 j (Nat.zero_le j) hj⟩

theorem FlagOnly_refl (s : State) : FlagOnly s s :=
  ⟨rfl, rfl, rfl, rfl, fun _ => ⟨rfl, rfl, rfl, rfl⟩, 0, fun _ _ => rfl⟩

theorem setFlag_library_same (s : State) (k : Nat) (v : Int) :
    (setFlag s k v).library k = { s.library k with is_borrowed := v } :=
  writeSlot_same _ _ _

theorem setFlag_library_other (s : State) (k j : Nat) (v : Int) (h : j ≠ k) :
    (setFlag s k v).library j = s.library j :=
  writeSlot_other _ _ _ _ h

theorem setFlag_id (s : State) (k j : Nat) (v : Int) :
    ((setFlag s k v).library j).id = (s.library j).id := by
  by_cases h : j = k
  · subst h; rw [setFlag_library_same]
  · rw [setFlag_library_other s k j v h]

theorem FlagOnly_flag (s : State) (k : Nat) (v : Int) : FlagOnly s (setFlag s k v) := by
  refine ⟨rfl, rfl, rfl, rfl, fun j => ?_, k, fun j hj => setFlag_library_other s k j v hj⟩
  by_cases hj : j = k
  · subst hj
    rw [setFlag_library_same]
    exact ⟨rfl, rfl, rfl, rfl⟩
  · rw [setFlag_library_other s k j v hj]
    exact ⟨rfl, rfl, rfl, rfl⟩

/-- Setting a flag and then setting it back to its old value restores the
state. -/
theorem setFlag_setFlag (s : State) (k : Nat) (v w : Int) (h : (s.library k).is_borrowed = w) :
    setFlag (setFlag s k v) k w = s := by
  have hl : ∀ j, (setFlag (setFlag s k v) k w).library j = s.library j := by
    intro j
    by_cases hj : j = k
    · subst hj
      rw [setFlag_library_same, setFlag_library_same]
      rcases hbk : s.library j with ⟨a, b, c, d, e⟩
      rw [hbk] at h
      simp only at h
      simp only [h]
    · rw [setFlag_library_other _ k j w hj, setFlag_library_other s k j v hj]
  have hf : (setFlag (setFlag s k v) k w).library = s.library := funext hl
  have hs : setFlag (setFlag s k v) k w =
      { s with library := (setFlag (setFlag s k v) k w).library } := rfl
  rw [hs, hf]

theorem FlagOnly_borrowBook (s : State) (id : Int) : FlagOnly s (borrowBook s id).1 := by
  by_cases h0 : s.book_count = 0
  · rw [borrowBook_empty s id h0]; exact FlagOnly_refl s
  · rcases first_match s id with h | ⟨k, hk, hid, hfirst⟩
    · rw [borrowBook_none s id h0 h]; exact FlagOnly_refl s
    · rw [borrowBook_first s id k hk hid hfirst]
      split_ifs
      · exact FlagOnly_flag s k 1
      · exact FlagOnly_refl s

theorem FlagOnly_returnBook (s : State) (id : Int) : FlagOnly s (returnBook s id).1 := by
  by_cases h0 : s.book_count = 0
  · rw [returnBook_empty s id h0]; exact FlagOnly_refl s
  · rcases first_match s id with h | ⟨k, hk, hid, hfirst⟩
    · rw [returnBook_none s id h0 h]; exact FlagOnly_refl s
    · rw [returnBook_first s id k hk hid hfirst]
      split_ifs
      · exact FlagOnly_flag s k 0
      · exact FlagOnly_refl s

/-- A removal that is not confirmed, or whose id is not found, changes
nothing and does not print the success message. -/
theorem removeBook_refused (s : State) (id : Int) (confirm : Char)
    (h : (confirm ≠ 'y' ∧ confirm ≠ 'Y') ∨ find_book_by_id s id = -1) :
    (removeBook s id confirm).1 = s ∧ (removeBook s id confirm).2 ≠ RemoveResult.removed := by
  unfold removeBook
  by_cases h0 : s.book_count = 0
  · rw [if_pos h0]; exact ⟨rfl, fun hc => RemoveResult.noConfusion hc⟩
  · rw [if_neg h0]
    by_cases h1 : find_book_by_id s id = -1
    · rw [if_pos h1]; exact ⟨rfl, fun hc => RemoveResult.noConfusion hc⟩
    · rw [if_neg h1]
      rcases h with ⟨hy, hY⟩ | h
      · have hc : ¬ (confirm = 'y' ∨ confirm = 'Y') := fun hc => hc.elim hy hY
        rw [if_neg hc]; exact ⟨rfl, fun hc => RemoveResult.noConfusion hc⟩
      · exact absurd h h1

/-- With distinct ids, a live record that carries the id is the first one. -/
theorem first_of_distinct (s : State) (id : Int) (hd : (liveIds s).Nodup) (i : Nat)
    (hi : i < s.book_count.toNat) (hid : (s.library i).id = id) :
    ∀ j, j < i → (s.library j).id ≠ id := by
  intro j hj he
  have := distinct_slots s hd j i (by omega) hi (by rw [he, hid])
  omega

/-- The first live record with an id stays the first one when a flag is set. -/
theorem first_setFlag (s : State) (id : Int) (k m : Nat) (v : Int)
    (hid : (s.library k).id = id) (hfirst : ∀ j, j < k → (s.library j).id ≠ id) :
    ((setFlag s m v).library k).id = id ∧
    ∀ j, j < k → ((setFlag s m v).library j).id ≠ id := by
  refine ⟨by rw [setFlag_id]; exact hid, fun j hj => ?_⟩
  rw [setFlag_id]
  exact hfirst j hj

/-- A second borrowing of an id is refused and changes nothing, whenever the
first live record with the id exists. -/
theorem borrowBook_twice (s : State) (id : Int) (k : Nat) (hk : k < s.book_count.toNat)
    (hid : (s.library k).id = id) (hfirst : ∀ j, j < k → (s.library j).id ≠ id) :
    borrowBook (borrowBook s id).1 id = ((borrowBook s id).1, LoanResult.refused) := by
  have h1 := borrowBook_first s id k hk hid hfirst
  by_cases hb : (s.library k).is_borrowed = 0
  · rw [if_pos hb] at h1
    rw [h1]
    obtain ⟨hid1, hfirst1⟩ := first_setFlag s id k k 1 hid hfirst
    have h2 := borrowBook_first (setFlag s k 1) id k hk hid1 hfirst1
    have hne : ¬ ((setFlag s k 1).library k).is_borrowed = 0 := by
      rw [setFlag_library_same]
      exact one_ne_zero
    rw [if_neg hne] at h2
    exact h2
  · rw [if_neg hb] at h1
    rw [h1]
    exact h1

/-- Borrowing and then returning an id whose first live record is available
gives the original state back. -/
theorem borrow_return (s : State) (id : Int) (k : Nat) (hk : k < s.book_count.toNat)
    (hid : (s.library k).id = id) (hfirst : ∀ j, j < k → (s.library j).id ≠ id)
    (hb : (s.library k).is_borrowed = 0) :
    borrowBook s id = (setFlag s k 1, LoanResult.done) ∧
    returnBook (borrowBook s id).1 id = (s, LoanResult.done) := by
  have h1 := borrowBook_first s id k hk hid hfirst
  rw [if_pos hb] at h1
  refine ⟨h1, ?_⟩
  rw [h1]
  obtain ⟨hid1, hfirst1⟩ := first_setFlag s id k k 1 hid hfirst
  have h2 := returnBook_first (setFlag s k 1) id k hk hid1 hfirst1
  have hne : ((setFlag s k 1).library k).is_borrowed ≠ 0 := by
    rw [setFlag_library_same]
    exact one_ne_zero
  rw [if_pos hne, setFlag_setFlag s k 1 0 hb] at h2
  exact h2

/-- The test `strstr` succeeds exactly when the needle is an infix of the
haystack. -/
theorem strstr_iff_infix (hay needle : List Char) :
    strstr hay needle = true ↔ needle <:+: hay := by
  induction hay with
  | nil =>
    rw [strstr, List.isPrefixOf_iff_prefix, List.prefix_nil, List.infix_nil]
  | cons c cs ih =>
    rw [strstr, Bool.or_eq_true, List.isPrefixOf_iff_prefix, ih, List.infix_cons_iff]

/-- What the author filter loop prints and the flag it leaves. -/
theorem filter_author_loop_spec (res : Nat → Book) (author : List Char) (n : Nat) :
    ∀ (i : Nat) (found : Bool),
    (filter_author_loop res author n i found).1 =
      ((List.range' i n).map res).filter (fun b => strstr b.author.toList author) ∧
    ((filter_author_loop res author n i found).2 = true ↔
      found = true ∨ (filter_author_loop res author n i found).1 ≠ []) := by
  induction n with
  | zero =>
    intro i found
    simp [filter_author_loop]
  | succ n ih =>
    intro i found
    rw [filter_author_loop, List.range'_succ, List.map_cons]
    by_cases h : strstr (res i).author.toList author = true
    · obtain ⟨h1, h2⟩ := ih (i + 1) true
      rw [if_pos h]
      simp only [List.filter_cons, h, if_true]
      refine ⟨by rw [← h1], ?_⟩
      simp [h2]
    · obtain ⟨h1, h2⟩ := ih (i + 1) found
      rw [if_neg h]
      simp only [List.filter_cons, h]
      exact ⟨h1, h2⟩

/-- What the year filter loop prints and the flag it leaves. -/
theorem filter_year_loop_spec (res : Nat → Book) (year : Int) (n : Nat) :
    ∀ (i : Nat) (found : Bool),
    (filter_year_loop res year n i found).1 =
      ((List.range' i n).map res).filter (fun b => decide (b.publication_year = year)) ∧
    ((filter_year_loop res year n i found).2 = true ↔
      found = true ∨ (filter_year_loop res year n i found).1 ≠ []) := by
  induction n with
  | zero =>
    intro i found
    simp [filter_year_loop]
  | succ n ih =>
    intro i found
    rw [filter_year_loop, List.range'_succ, List.map_cons]
    by_cases h : (res i).publication_year = year
    · obtain ⟨h1, h2⟩ := ih (i + 1) true
      rw [if_pos h]
      simp only [List.filter_cons, h, decide_True, if_true]
      refine ⟨by rw [← h1], ?_⟩
      simp [h2]
    · obtain ⟨h1, h2⟩ := ih (i + 1) found
      rw [if_neg h]
      simp only [List.filter_cons, h, decide_False]
      exact ⟨h1, h2⟩

/-- What the search loop leaves: the counter grows by the number of matching
records among the slots visited, these records are printed and stored, in
order, behind the results already there, and the flag records whether there
was one. -/
theorem search_loop_spec (library : Nat → Book) (q : List Char) (n : Nat) :
    ∀ (i : Nat) (p : SearchProgress), 0 ≤ p.searchResultCount →
    (search_loop library q n i p).searchResultCount =
      p.searchResultCount +
        (((List.range' i n).map library).filter
          (fun b => strstr (toLowerStr (copy100 b.title)) q)).length ∧
    (search_loop library q n i p).shown =
      p.shown ++ ((List.range' i n).map library).filter
        (fun b => strstr (toLowerStr (copy100 b.title)) q) ∧
    ((search_loop library q n i p).found = true ↔
      p.found = true ∨ ((List.range' i n).map library).filter
        (fun b => strstr (toLowerStr (copy100 b.title)) q) ≠ []) ∧
    (∀ j, j < p.searchResultCount.toNat →
      (search_loop library q n i p).searchResults j = p.searchResults j) ∧
    (∀ (j : Nat) (hj : j < (((List.range' i n).map library).filter
          (fun b => strstr (toLowerStr (copy100 b.title)) q)).length),
      (search_loop library q n i p).searchResults (p.searchResultCount.toNat + j) =
        (((List.range' i n).map library).filter
          (fun b => strstr (toLowerStr (copy100 b.title)) q))[j]) := by
  induction n with
  | zero =>
    intro i p _
    simp [search_loop]
  | succ n ih =>
    intro i p hp
    rw [search_loop]
    simp only [List.range'_succ, List.map_cons, List.filter_cons]
    by_cases h : strstr (toLowerStr (copy100 (library i).title)) q = true
    · simp only [h, if_true]
      obtain ⟨h1, h2, h3, h4, h5⟩ := ih (i + 1)
        { searchResults := writeSlot p.searchResults p.searchResultCount.toNat (library i),
          searchResultCount := p.searchResultCount + 1,
          shown := p.shown ++ [library i],
          found := true } (by show 0 ≤ p.searchResultCount + 1; omega)
      have hc : (p.searchResultCount + 1).toNat = p.searchResultCount.toNat + 1 := by omega
      simp only [hc] at h4 h5
      refine ⟨?_, ?_, ?_, ?_, ?_⟩
      · rw [h1, List.length_cons]; push_cast; omega
      · rw [h2, List.append_assoc]; rfl
      · rw [h3]; simp
      · intro j hj
        rw [h4 j (by omega)]
        exact writeSlot_other _ _ _ _ (by omega)
      · intro j hj
        cases j with
        | zero =>
          exact (h4 _ (by omega)).trans (writeSlot_same _ _ _)
        | succ j =>
          rw [List.getElem_cons_succ, ← h5 j (by simpa using hj)]
          congr 1
          omega
    · simp only [h]
      exact ih (i + 1) p hp

/-- The state and the printed records after the loop of `searchByTitle`: the
result subset holds the live records whose title, cut to 99 characters and
lower-cased, contains the search term, cut to 99 characters and lower-cased. -/
theorem search_loop_results (s : State) (search_title : String) :
    (search_loop s.library (toLowerStr (copy100 search_title)) s.book_count.toNat 0
        { searchResults := s.searchResults, searchResultCount := 0, shown := [],
          found := false }).shown =
      (live s).filter (fun b =>
        strstr (toLowerStr (copy100 b.title)) (toLowerStr (copy100 search_title))) ∧
    (List.range (search_loop s.library (toLowerStr (copy100 search_title))
        s.book_count.toNat 0
        { searchResults := s.searchResults, searchResultCount := 0, shown := [],
          found := false }).searchResultCount.toNat).map
      (search_loop s.library (toLowerStr (copy100 search_title)) s.book_count.toNat 0
        { searchResults := s.searchResults, searchResultCount := 0, shown := [],
          found := false }).searchResults =
      (live s).filter (fun b =>
        strstr (toLowerStr (copy100 b.title)) (toLowerStr (copy100 search_title))) ∧
    ((search_loop s.library (toLowerStr (copy100 search_title)) s.book_count.toNat 0
        { searchResults := s.searchResults, searchResultCount := 0, shown := [],
          found := false }).found = true ↔
      (live s).filter (fun b =>
        strstr (toLowerStr (copy100 b.title)) (toLowerStr (copy100 search_title))) ≠ []) ∧
    (search_loop s.library (toLowerStr (copy100 search_title)) s.book_count.toNat 0
        { searchResults := s.searchResults, searchResultCount := 0, shown := [],
          found := false }).searchResultCount =
      (((live s).filter (fun b =>
        strstr (toLowerStr (copy100 b.title)) (toLowerStr (copy100 search_title)))).length : Int) := by
  obtain ⟨h1, h2, h3, _, h5⟩ := search_loop_spec s.library (toLowerStr (copy100 search_title))
    s.book_count.toNat 0
    { searchResults := s.searchResults, searchResultCount := 0, shown := [], found := false }
    (le_refl _)
  simp only [← List.range_eq_range'] at h1 h2 h3 h5
  unfold live
  refine ⟨by rw [h2]; rfl, ?_, by rw [h3]; simp, by rw [h1]; simp⟩
  apply List.ext_getElem
  · rw [h1]; simp
  · intro j hj1 hj2
    have := h5 j hj2
    simp only [Int.toNat_zero, Nat.zero_add] at this
    rw [← this]
    simp

/-- What `searchByTitle` leaves and prints: the result subset and the printed
records are the live records that pass the test `titleHit`, in store order;
the no-match message is printed exactly when there is none; the store itself
is unchanged. -/
theorem searchByTitle_spec (s : State) (search_title : String) (choice : Int)
    (author : String) (year : Int) :
    results (searchByTitle s search_title choice author year).1 =
      (live s).filter (titleHit search_title) ∧
    (searchByTitle s search_title choice author year).2.shown =
      (live s).filter (titleHit search_title) ∧
    ((searchByTitle s search_title choice author year).2.noneFound = true ↔
      (live s).filter (titleHit search_title) = []) ∧
    (searchByTitle s search_title choice author year).1.searchResultCount =
      (((live s).filter (titleHit search_title)).length : Int) ∧
    (searchByTitle s search_title choice author year).1.library = s.library ∧
    (searchByTitle s search_title choice author year).1.book_count = s.book_count ∧
    (searchByTitle s search_title choice author year).1.next_id = s.next_id := by
  obtain ⟨h1, h2, h3, h4⟩ := search_loop_results s search_title
  have hbool : ∀ b : Bool, ¬ (b = true) → (!b) = true := by decide
  have hbool2 : ∀ b : Bool, b = true → ¬ ((!b) = true) := by decide
  unfold searchByTitle
  by_cases hf : (search_loop s.library (toLowerStr (copy100 search_title)) s.book_count.toNat 0
      { searchResults := s.searchResults, searchResultCount := 0, shown := [],
        found := false }).found = true
  · have hne := h3.mp hf
    simp only [if_neg (hbool2 _ hf)]
    split_ifs
    all_goals
      refine ⟨h2, h1, ?_, h4, rfl, rfl, rfl⟩
      constructor
      · intro h; exact absurd h (by decide)
      · intro h; exact absurd h hne
  · have he : (live s).filter (fun b =>
        strstr (toLowerStr (copy100 b.title)) (toLowerStr (copy100 search_title))) = [] := by
      by_contra hc
      exact hf (h3.mpr hc)
    simp only [if_pos (hbool _ hf)]
    exact ⟨h2, h1, ⟨fun _ => he, fun _ => trivial⟩, h4, trivial, trivial, trivial⟩

/-- On a title and a query of at most 99 characters the test of the code is
the match of the specification. -/
theorem titleHit_eq_titleContains (query : String) (b : Book)
    (hq : query.length ≤ 99) (ht : b.title.length ≤ 99) :
    titleHit query b = titleContains query b := by
  unfold titleHit titleContains copy100
  rw [List.take_of_length_le (by simpa using ht), List.take_of_length_le (by simpa using hq)]

/-- No store operation touches the search results. -/
theorem step_searchResults (s : State) (op : Op) :
    (step s op).searchResults = s.searchResults ∧
    (step s op).searchResultCount = s.searchResultCount := by
  cases op with
  | add title author year =>
    by_cases hfull : MAX_BOOKS ≤ s.book_count
    · simp only [step, addBook_full s title author year hfull]
      exact ⟨trivial, trivial⟩
    · simp only [step, addBook_ok s title author year (not_le.mp hfull)]
      exact ⟨trivial, trivial⟩
  | remove id confirm =>
    rcases removeBook_cases s id confirm with h | ⟨k, hk, hc⟩
    · simp only [step, h]; exact ⟨trivial, trivial⟩
    · simp only [step, removeBook_confirmed s id confirm k hc hk]
      exact ⟨trivial, trivial⟩
  | borrow id =>
    have h := FlagOnly_borrowBook s id
    exact ⟨h.2.2.1, h.2.2.2.1⟩
  | giveBack id =>
    have h := FlagOnly_returnBook s id
    exact ⟨h.2.2.1, h.2.2.2.1⟩

/-- No sequence of store operations touches the search results. -/
theorem run_searchResults (ops : List Op) : ∀ s : State,
    (run s ops).searchResults = s.searchResults ∧
    (run s ops).searchResultCount = s.searchResultCount := by
  induction ops with
  | nil => intro s; exact ⟨rfl, rfl⟩
  | cons op ops ih =>
    intro s
    rw [run_cons]
    obtain ⟨h1, h2⟩ := ih (step s op)
    obtain ⟨h3, h4⟩ := step_searchResults s op
    exact ⟨h1.trans h3, h2.trans h4⟩

/-- What the counting loop adds to its two counters. -/
theorem count_loop_spec (books : Nat → Book) (n : Nat) : ∀ (i : Nat) (a b : Int),
    count_loop books n i a b =
      (a + ((((List.range' i n).map books).filter
          (fun x => decide (x.is_borrowed = 0))).length : Int),
        b + ((((List.range' i n).map books).filter
          (fun x => decide (x.is_borrowed ≠ 0))).length : Int)) := by
  induction n with
  | zero => intro i a b; simp [count_loop]
  | succ n ih =>
    intro i a b
    rw [count_loop, List.range'_succ, List.map_cons]
    by_cases h : (books i).is_borrowed = 0
    · rw [if_neg (not_not.mpr h), ih]
      simp only [List.filter_cons, h, decide_True, if_true, ne_eq, not_true, decide_False,
        List.length_cons]
      simp only [Bool.false_eq_true, if_false, Prod.mk.injEq]
      exact ⟨by push_cast; omega, trivial⟩
    · rw [if_pos h, ih]
      simp only [List.filter_cons, h, decide_False, ne_eq, not_false_eq_true, decide_True,
        if_true, List.length_cons]
      simp only [Bool.false_eq_true, if_false, Prod.mk.injEq]
      exact ⟨trivial, by push_cast; omega⟩

/-- What the loop of `view_borrowed_books` prints and the flag it leaves. -/
theorem view_borrowed_loop_spec (books : Nat → Book) (n : Nat) :
    ∀ (i : Nat) (found : Bool),
    (view_borrowed_loop books n i found).1 =
      ((List.range' i n).map books).filter (fun x => decide (x.is_borrowed ≠ 0)) ∧
    ((view_borrowed_loop books n i found).2 = true ↔
      found = true ∨ (view_borrowed_loop books n i found).1 ≠ []) := by
  induction n with
  | zero => intro i found; simp [view_borrowed_loop]
  | succ n ih =>
    intro i found
    rw [view_borrowed_loop, List.range'_succ, List.map_cons]
    by_cases h : (books i).is_borrowed ≠ 0
    · obtain ⟨h1, h2⟩ := ih (i + 1) true
      rw [if_pos h]
      simp only [List.filter_cons, h, decide_True, if_true, ne_eq, not_false_eq_true]
      refine ⟨by rw [← h1], ?_⟩
      simp [h2]
    · obtain ⟨h1, h2⟩ := ih (i + 1) found
      rw [if_neg h]
      simp only [List.filter_cons, h, decide_False]
      exact ⟨h1, h2⟩

/-- What the loop of `viewAvailableBooks` prints and the counter it leaves. -/
theorem view_available_loop_spec (books : Nat → Book) (n : Nat) :
    ∀ (i : Nat) (c : Int),
    (view_available_loop books n i c).1 =
      ((List.range' i n).map books).filter (fun x => decide (x.is_borrowed = 0)) ∧
    (view_available_loop books n i c).2 =
      c + ((view_available_loop books n i c).1.length : Int) := by
  induction n with
  | zero => intro i c; simp [view_available_loop]
  | succ n ih =>
    intro i c
    rw [view_available_loop, List.range'_succ, List.map_cons]
    by_cases h : (books i).is_borrowed = 0
    · obtain ⟨h1, h2⟩ := ih (i + 1) (c + 1)
      rw [if_pos h]
      simp only [List.filter_cons, h, decide_True, if_true]
      refine ⟨by rw [← h1], ?_⟩
      rw [h2, List.length_cons]
      push_cast
      omega
    · obtain ⟨h1, h2⟩ := ih (i + 1) c
      rw [if_neg h]
      simp only [List.filter_cons, h, decide_False]
      exact ⟨h1, h2⟩

theorem assigned_cons (s : State) (op : Op) (ops : List Op) :
    assigned s (op :: ops) = assignedBy s op ++ assigned (step s op) ops := rfl

theorem length_assignedBy_le (s : State) (op : Op) : (assignedBy s op).length ≤ 1 := by
  cases op with
  | add title author year =>
    simp only [assignedBy]
    cases (addBook s title author year).2 <;> simp
  | remove id confirm => simp [assignedBy]
  | borrow id => simp [assignedBy]
  | giveBack id => simp [assignedBy]

/-- The rounds of `churn` contain `n` adds. -/
theorem length_assigned_churn (n : Nat) : ∀ s : State, (assigned s (churn n)).length ≤ n := by
  induction n with
  | zero => intro s; exact Nat.le_refl 0
  | succ n ih =>
    intro s
    rw [churn, assigned_append, List.length_append, assigned_cons, assigned_cons,
      List.length_append, List.length_append]
    have h1 := ih s
    have h2 := length_assignedBy_le (run s (churn n)) (Op.add "" "" 0)
    have h3 : (assignedBy (step (run s (churn n)) (Op.add "" "" 0))
        (Op.remove (wrap32 ((n : Int) + 2)) 'y')).length = 0 := rfl
    have h4 : (assigned (step (step (run s (churn n)) (Op.add "" "" 0))
        (Op.remove (wrap32 ((n : Int) + 2)) 'y')) []).length = 0 := rfl
    omega

/-- The live ids of a store that holds one record. -/
theorem liveIds_of_one (s : State) (h : s.book_count = 1) :
    liveIds s = [(s.library 0).id] := by
  unfold liveIds live
  rw [h]
  rfl

/-- The state after one add and `2^31 - 2` rounds of `churn`: one live record
with id 1, `2^31 - 1` adds at most, and a counter that has wrapped around. -/
theorem churn_wrapped :
    (assigned initState (Op.add "" "" 0 :: churn 2147483646)).length < 2147483648 ∧
    liveIds (run initState (Op.add "" "" 0 :: churn 2147483646)) = [1] ∧
    (run initState (Op.add "" "" 0 :: churn 2147483646)).next_id = -2147483648 := by
  obtain ⟨h1, h2, h3⟩ := churn_state 2147483646 (by omega)
  have h4 := length_assigned_churn 2147483646 (step initState (Op.add "" "" 0))
  have h5 := length_assignedBy_le initState (Op.add "" "" 0)
  refine ⟨?_, ?_, ?_⟩
  · rw [assigned_cons, List.length_append]
    omega
  · rw [run_cons, liveIds_of_one _ h1, h2]
  · rw [run_cons, h3]
    decide

/-- Whether all five fields are stored, the text left, and the record read
when they are, do not depend on the record that `fscanf` writes into. -/
theorem fscanf_record_indep (inp : List Char) (b c : Book) :
    (fscanf_record inp b).1 = (fscanf_record inp c).1 ∧
    (fscanf_record inp b).2.2 = (fscanf_record inp c).2.2 ∧
    ((fscanf_record inp b).1 = 5 → (fscanf_record inp b).2.1 = (fscanf_record inp c).2.1) := by
  unfold fscanf_record
  repeat' split
  all_goals simp_all

theorem nextRecord_of_five (inp : List Char) (b : Book) (h : (fscanf_record inp b).1 = 5) :
    nextRecord inp = some ((fscanf_record inp b).2.1, (fscanf_record inp b).2.2) := by
  obtain ⟨h1, h2, h3⟩ := fscanf_record_indep inp b zeroBook
  unfold nextRecord
  rw [if_pos (by rw [← h1]; exact h), ← h2, ← h3 h]

theorem nextRecord_of_not_five (inp : List Char) (b : Book)
    (h : ¬ (fscanf_record inp b).1 = 5) : nextRecord inp = none := by
  obtain ⟨h1, _, _⟩ := fscanf_record_indep inp b zeroBook
  unfold nextRecord
  rw [if_neg (by rw [← h1]; exact h)]

/-- The loading loop stores the longest leading run of matches behind the
records already counted, leaves the slots before them and the slots behind
the one after them as they were, and counts them. -/
theorem load_loop_run (n : Nat) : ∀ (inp : List Char) (books : Nat → Book) (count : Nat),
    (load_loop n inp books count).2 = count + (recordRun n inp).length ∧
    (∀ i, i < count → (load_loop n inp books count).1 i = books i) ∧
    (∀ (j : Nat) (hj : j < (recordRun n inp).length),
      (load_loop n inp books count).1 (count + j) = (recordRun n inp)[j]) ∧
    (∀ i, count + (recordRun n inp).length < i →
      (load_loop n inp books count).1 i = books i) := by
  induction n with
  | zero =>
    intro inp books count
    exact ⟨rfl, fun _ _ => rfl, fun j hj => absurd hj (Nat.not_lt_zero j), fun _ _ => rfl⟩
  | succ n ih =>
    intro inp books count
    rw [load_loop]
    by_cases h : (fscanf_record inp (books count)).1 = 5
    · obtain ⟨h1, h2, h3, h4⟩ := ih (fscanf_record inp (books count)).2.2
        (writeSlot books count (fscanf_record inp (books count)).2.1) (count + 1)
      have hr : recordRun (n + 1) inp = (fscanf_record inp (books count)).2.1 ::
          recordRun n (fscanf_record inp (books count)).2.2 := by
        rw [recordRun, nextRecord_of_five inp (books count) h]
      simp only [if_pos h]
      rw [hr]
      refine ⟨?_, ?_, ?_, ?_⟩
      · rw [h1, List.length_cons]; omega
      · intro i hi
        rw [h2 i (by omega)]
        exact writeSlot_other _ _ _ _ (by omega)
      · intro j hj
        cases j with
        | zero => exact (h2 count (by omega)).trans (writeSlot_same _ _ _)
        | succ j =>
          have e : count + (j + 1) = count + 1 + j := Nat.add_right_comm count j 1 ▸ rfl
          rw [e, List.getElem_cons_succ]
          exact h3 j (by simpa using hj)
      · intro i hi
        rw [List.length_cons] at hi
        rw [h4 i (by omega)]
        exact writeSlot_other _ _ _ _ (by omega)
    · have hr : recordRun (n + 1) inp = [] := by
        rw [recordRun, nextRecord_of_not_five inp (books count) h]
      simp only [if_neg h]
      rw [hr]
      refine ⟨rfl, fun i hi => writeSlot_other _ _ _ _ (by omega),
        fun j hj => absurd hj (Nat.not_lt_zero j), fun i hi => ?_⟩
      exact writeSlot_other _ _ _ _ (by simp at hi; omega)

/-- A run of at most `n` matches has at most `n` records. -/
theorem length_recordRun_le (n : Nat) : ∀ inp : List Char, (recordRun n inp).length ≤ n := by
  induction n with
  | zero => intro inp; exact Nat.le_refl 0
  | succ n ih =>
    intro inp
    rw [recordRun]
    split
    · exact Nat.zero_le _
    · rw [List.length_cons]
      exact Nat.succ_le_succ (ih _)

theorem digitChar_spec : ∀ d : Nat, d < 10 →
    isdigit (digitChar d) = true ∧ ((digitChar d).toNat : Int) - 48 = (d : Int) := by
  decide

theorem isdigit_not_special (c : Char) (hc : isdigit c = true) :
    isspace c = false ∧ c ≠ '-' ∧ c ≠ '+' ∧ c ≠ ';' := by
  refine ⟨?_, ?_, ?_, ?_⟩
  · cases h : isspace c
    · rfl
    · exfalso
      simp only [isspace, Bool.or_eq_true, decide_eq_true_eq] at h
      rcases h with ((((h | h) | h) | h) | h) | h <;> subst h <;> exact absurd hc (by decide)
  · rintro rfl; exact absurd hc (by decide)
  · rintro rfl; exact absurd hc (by decide)
  · rintro rfl; exact absurd hc (by decide)

theorem scan_digits_append (ds rest : List Char) :
    ∀ acc : Int, (∀ c ∈ ds, isdigit c = true) →
      scan_digits (ds ++ rest) acc = scan_digits rest (digitsValue ds acc) := by
  induction ds with
  | nil => intro acc _; rfl
  | cons d ds ih =>
    intro acc h
    have hd := h d (List.mem_cons_self d ds)
    rw [List.cons_append, scan_digits, if_pos hd,
      ih _ (fun c hc => h c (List.mem_cons_of_mem d hc))]
    rfl

theorem scan_digits_stop (rest : List Char) (acc : Int)
    (hrest : ∀ c r, rest = c :: r → isdigit c = false) :
    scan_digits rest acc = (acc, rest) := by
  cases rest with
  | nil => rfl
  | cons c r =>
    rw [scan_digits, if_neg (by rw [hrest c r rfl]; exact Bool.false_ne_true)]

theorem print_nat_digits : ∀ (fuel n : Nat), ∀ c ∈ print_nat fuel n, isdigit c = true := by
  intro fuel
  induction fuel with
  | zero => intro n c hc; simp [print_nat] at hc
  | succ fuel ih =>
    intro n c hc
    rw [print_nat] at hc
    split_ifs at hc with h
    · rw [List.mem_singleton] at hc
      rw [hc]; exact (digitChar_spec n h).1
    · rw [List.mem_append, List.mem_singleton] at hc
      rcases hc with hc | hc
      · exact ih _ c hc
      · rw [hc]; exact (digitChar_spec (n % 10) (Nat.mod_lt n (by decide))).1

theorem print_nat_value : ∀ (fuel n : Nat), n < fuel →
    digitsValue (print_nat fuel n) 0 = (n : Int) := by
  intro fuel
  induction fuel with
  | zero => intro n h; omega
  | succ fuel ih =>
    intro n hn
    rw [print_nat]
    split_ifs with h
    · show (0 : Int) * 10 + (((digitChar n).toNat : Int) - 48) = n
      rw [(digitChar_spec n h).2]; omega
    · unfold digitsValue
      rw [List.foldl_append]
      show digitsValue (print_nat fuel (n / 10)) 0 * 10 +
        (((digitChar (n % 10)).toNat : Int) - 48) = n
      rw [ih (n / 10) (by omega), (digitChar_spec (n % 10) (Nat.mod_lt n (by decide))).2]
      omega

theorem print_nat_cons (fuel n : Nat) :
    ∃ c t, print_nat (fuel + 1) n = c :: t := by
  rw [print_nat]
  split_ifs
  · exact ⟨_, _, rfl⟩
  · cases h : print_nat fuel (n / 10) with
    | nil => exact ⟨_, _, rfl⟩
    | cons c t => exact ⟨c, t ++ [digitChar (n % 10)], rfl⟩

theorem strtol_value_of_range (x : Int) (h1 : -9223372036854775808 ≤ x)
    (h2 : x ≤ 9223372036854775807) : strtol_value x = x := by
  have e1 : LONG_MIN = -9223372036854775808 := rfl
  have e2 : LONG_MAX = 9223372036854775807 := rfl
  unfold strtol_value
  rw [if_neg (by omega), if_neg (by omega)]

theorem scan_int_digit (c : Char) (t : List Char) (hc : isdigit c = true) :
    scan_int (c :: t) =
      some (wrap32 (strtol_value (scan_digits (c :: t) 0).1),
        (scan_digits (c :: t) 0).2) := by
  obtain ⟨h1, h2, h3, _⟩ := isdigit_not_special c hc
  unfold scan_int
  have hs : skip_space (c :: t) = c :: t := by
    rw [skip_space, if_neg (by rw [h1]; exact Bool.false_ne_true)]
  rw [hs]
  split
  · rename_i h; exact absurd (List.cons.inj h).1 h2
  · rename_i h; exact absurd (List.cons.inj h).1 h3
  · show (if isdigit c = true then _ else _) = _
    rw [if_pos hc]
    rfl

theorem scan_int_minus (c : Char) (t : List Char) (hc : isdigit c = true) :
    scan_int ('-' :: c :: t) =
      some (wrap32 (strtol_value (-(scan_digits (c :: t) 0).1)),
        (scan_digits (c :: t) 0).2) := by
  unfold scan_int
  have hs : skip_space ('-' :: c :: t) = '-' :: c :: t := rfl
  rw [hs]
  show (if isdigit c = true then _ else _) = _
  rw [if_pos hc]
  rfl

/-- The directive `%d` reads back what `fprintf` wrote for an `int`, when the
text behind it does not start with a digit. -/
theorem scan_int_fprintf (x : Int) (rest : List Char) (h1 : INT_MIN ≤ x) (h2 : x ≤ INT_MAX)
    (hrest : ∀ c r, rest = c :: r → isdigit c = false) :
    scan_int (fprintf_int x ++ rest) = some (x, rest) := by
  have e1 : INT_MIN = -2147483648 := rfl
  have e2 : INT_MAX = 2147483647 := rfl
  have hw : wrap32 (strtol_value x) = x := by
    rw [strtol_value_of_range x (by omega) (by omega)]
    exact wrap32_of_range x (by omega) (by omega)
  unfold fprintf_int
  split_ifs with hneg
  · obtain ⟨c, t, hct⟩ := print_nat_cons x.natAbs x.natAbs
    have hd := print_nat_digits (x.natAbs + 1) x.natAbs
    have hv := print_nat_value (x.natAbs + 1) x.natAbs (Nat.lt_succ_self _)
    rw [hct] at hd hv ⊢
    rw [List.cons_append, List.cons_append,
      scan_int_minus c (t ++ rest) (hd c (List.mem_cons_self c t)),
      ← List.cons_append, scan_digits_append (c :: t) rest 0 hd, hv,
      scan_digits_stop rest _ hrest]
    have : -((x.natAbs : Nat) : Int) = x := by omega
    rw [this, hw]
  · obtain ⟨c, t, hct⟩ := print_nat_cons x.toNat x.toNat
    have hd := print_nat_digits (x.toNat + 1) x.toNat
    have hv := print_nat_value (x.toNat + 1) x.toNat (Nat.lt_succ_self _)
    rw [hct] at hd hv ⊢
    rw [List.cons_append,
      scan_int_digit c (t ++ rest) (hd c (List.mem_cons_self c t)),
      ← List.cons_append, scan_digits_append (c :: t) rest 0 hd, hv,
      scan_digits_stop rest _ hrest]
    have : ((x.toNat : Nat) : Int) = x := by omega
    rw [this, hw]

theorem skip_space_fprintf_int (x : Int) (rest : List Char) :
    skip_space (fprintf_int x ++ rest) = fprintf_int x ++ rest := by
  unfold fprintf_int
  split_ifs with hneg
  · rfl
  · obtain ⟨c, t, hct⟩ := print_nat_cons x.toNat x.toNat
    have hd := print_nat_digits (x.toNat + 1) x.toNat
    rw [hct] at hd ⊢
    have h1 := (isdigit_not_special c (hd c (List.mem_cons_self c t))).1
    rw [List.cons_append, skip_space, if_neg (by rw [h1]; exact Bool.false_ne_true)]

theorem scan_field_stop (t rest : List Char) :
    ∀ w : Nat, t.length ≤ w → ';' ∉ t →
      scan_field w (t ++ ';' :: rest) = (t, ';' :: rest) := by
  induction t with
  | nil =>
    intro w _ _
    cases w with
    | zero => rfl
    | succ w => rw [List.nil_append, scan_field, if_pos rfl]
  | cons a t ih =>
    intro w hw hn
    cases w with
    | zero => simp at hw
    | succ w =>
      have ha : a ≠ ';' := fun h => hn (h ▸ List.mem_cons_self a t)
      rw [List.cons_append, scan_field, if_neg ha,
        ih w (by simpa using hw) (fun h => hn (List.mem_cons_of_mem a h))]

/-- The directive `%99[^;]` reads back a field of 1 to 99 characters without
`;` that is followed by `;`. -/
theorem scan_string_field (f : String) (rest : List Char) (h1 : f.toList ≠ [])
    (h2 : f.toList.length ≤ 99) (h3 : ';' ∉ f.toList) :
    scan_string (f.toList ++ ';' :: rest) = some (f, ';' :: rest) := by
  unfold scan_string
  rw [scan_field_stop f.toList rest 99 h2 h3]
  show (if f.toList = [] then none else some (String.mk f.toList, ';' :: rest)) = _
  rw [if_neg h1]
  rfl

/-- The call of `fscanf` in `load_books` reads back the line that `save_books`
writes for such a record, and leaves the text behind the line without its
leading white space. -/
theorem fscanf_record_fprintf (b c : Book) (rest : List Char) (hb : Storable b) :
    fscanf_record (fprintf_record b ++ rest) c = (5, b, skip_space rest) := by
  obtain ⟨⟨i1, i2⟩, ⟨y1, y2⟩, ⟨f1, f2⟩, ⟨t1, t2, t3⟩, ⟨a1, a2, a3⟩⟩ := hb
  have hsemi : ∀ (X : List Char) (c : Char) (r : List Char),
      ';' :: X = c :: r → isdigit c = false := by
    intro X c r h
    rw [← (List.cons.inj h).1]; decide
  have hnl : ∀ (X : List Char) (c : Char) (r : List Char),
      '\n' :: X = c :: r → isdigit c = false := by
    intro X c r h
    rw [← (List.cons.inj h).1]; decide
  simp only [fprintf_record, List.append_assoc, List.cons_append, List.nil_append]
  unfold fscanf_record
  rw [scan_int_fprintf b.id _ i1 i2 (hsemi _)]
  simp only [scan_semicolon]
  rw [scan_string_field b.title _ t1 t2 t3]
  simp only [scan_semicolon]
  rw [scan_string_field b.author _ a1 a2 a3]
  simp only [scan_semicolon]
  rw [scan_int_fprintf b.publication_year _ y1 y2 (hsemi _)]
  simp only [scan_semicolon]
  rw [scan_int_fprintf b.is_borrowed _ f1 f2 (hnl _)]
  simp only [skip_space]
  cases b
  simp [isspace]

theorem skip_space_idem (inp : List Char) : skip_space (skip_space inp) = skip_space inp := by
  induction inp with
  | nil => rfl
  | cons c cs ih =>
    rw [skip_space]
    split_ifs with h
    · exact ih
    · rw [skip_space, if_neg h]

theorem scan_int_skip_space (inp : List Char) : scan_int (skip_space inp) = scan_int inp := by
  unfold scan_int
  rw [skip_space_idem]

/-- White space before a match of the format is skipped by its first `%d`. -/
theorem nextRecord_skip_space (inp : List Char) :
    nextRecord (skip_space inp) = nextRecord inp := by
  unfold nextRecord fscanf_record
  rw [scan_int_skip_space]
  cases scan_int inp with
  | none =>
    simp only
    rw [if_neg (by split_ifs <;> decide), if_neg (by split_ifs <;> decide)]
  | some p => rfl

theorem recordRun_skip_space (n : Nat) (inp : List Char) :
    recordRun n (skip_space inp) = recordRun n inp := by
  cases n with
  | zero => rfl
  | succ n => rw [recordRun, recordRun, nextRecord_skip_space]

theorem recordRun_nil (n : Nat) : recordRun n [] = [] := by
  cases n with
  | zero => rfl
  | succ n => rfl

theorem nextRecord_fprintf (b : Book) (rest : List Char) (hb : Storable b) :
    nextRecord (fprintf_record b ++ rest) = some (b, skip_space rest) := by
  unfold nextRecord
  rw [fscanf_record_fprintf b zeroBook rest hb, if_pos rfl]

/-- The format of `load_books` matches the lines that `save_books` writes for
records it can read back, one after the other. -/
theorem recordRun_save_loop (books : Nat → Book) (rest : List Char) :
    ∀ (k n i : Nat), k ≤ n → (∀ j : Nat, i ≤ j → j < i + k → Storable (books j)) →
      recordRun n (save_loop books k i ++ rest) =
        (List.range' i k).map books ++ recordRun (n - k) rest := by
  intro k
  induction k with
  | zero => intro n i _ _; rfl
  | succ k ih =>
    intro n i hn hs
    obtain ⟨m, rfl⟩ : ∃ m, n = m + 1 := ⟨n - 1, by omega⟩
    rw [save_loop, List.append_assoc, recordRun,
      nextRecord_fprintf _ _ (hs i (Nat.le_refl i) (by omega))]
    show books i :: recordRun m (skip_space (save_loop books k (i + 1) ++ rest)) = _
    rw [recordRun_skip_space, ih m (i + 1) (by omega) (fun j h1 h2 => hs j (by omega) (by omega)),
      List.range'_succ, List.map_cons, List.cons_append, Nat.add_sub_add_right]

theorem save_loop_congr (a b : Nat → Book) :
    ∀ (k i : Nat), (∀ j : Nat, i ≤ j → j < i + k → a j = b j) →
      save_loop a k i = save_loop b k i := by
  intro k
  induction k with
  | zero => intro i _; rfl
  | succ k ih =>
    intro i h
    rw [save_loop, save_loop, h i (Nat.le_refl i) (by omega),
      ih (i + 1) (fun j h1 h2 => h j (by omega) (by omega))]

theorem recordRun_of_none (n : Nat) (rest : List Char) (h : nextRecord rest = none) :
    recordRun n rest = [] := by
  cases n with
  | zero => rfl
  | succ n => rw [recordRun, h]

/-- Loading of saved lines: when a text starts with the lines that `save_books`
writes for `k ≤ 800` records that the format can read back, and the format
does not match the text behind them (or `k` is 800), `load_books` loads
exactly these `k` records. -/
theorem load_books_saved_lines (recs other : Nat → Book) (k : Nat) (rest : List Char)
    (hk : k ≤ 800) (hs : ∀ j : Nat, j < k → Storable (recs j))
    (hrest : k = 800 ∨ nextRecord rest = none) :
    (load_books (some (save_loop recs k 0 ++ rest)) other).2.2 = (k : Int) ∧
    ∀ i : Nat, i < k →
      (load_books (some (save_loop recs k 0 ++ rest)) other).2.1 i = recs i := by
  have htail : recordRun (800 - k) rest = [] := by
    rcases hrest with h | h
    · rw [h]; rfl
    · exact recordRun_of_none _ rest h
  have hrun : recordRun 800 (save_loop recs k 0 ++ rest) = (List.range' 0 k).map recs := by
    rw [recordRun_save_loop recs rest k 800 0 hk (fun j _ h => hs j (by omega)), htail,
      List.append_nil]
  have hlen : (recordRun 800 (save_loop recs k 0 ++ rest)).length = k := by
    rw [hrun, List.length_map, List.length_range']
  obtain ⟨l1, _, l3, _⟩ := load_loop_run 800 (save_loop recs k 0 ++ rest) other 0
  constructor
  · show (((load_loop 800 (save_loop recs k 0 ++ rest) other 0).2 : Nat) : Int) = _
    rw [l1, hlen, Nat.zero_add]
  · intro i hi
    show (load_loop 800 (save_loop recs k 0 ++ rest) other 0).1 i = _
    have := l3 i (by rw [hlen]; exact hi)
    rw [Nat.zero_add] at this
    rw [this]
    simp only [hrun, List.getElem_map, List.getElem_range', Nat.zero_add, Nat.one_mul]

/-- Round trip for records that the format can read back: for a store of at
most 800 such records, `load_books` applied to the text written by `save_books`
gives the count and the records of the store, and saving what was loaded
writes the same text again. -/
theorem load_books_save_books (books other : Nat → Book) (count : Int)
    (h0 : 0 ≤ count) (h1 : count ≤ MAX_BOOKS)
    (hs : ∀ i : Nat, (i : Int) < count → Storable (books i)) :
    (load_books (save_books true books count).2 other).1 = 1 ∧
    (load_books (save_books true books count).2 other).2.2 = count ∧
    (∀ i : Nat, (i : Int) < count →
      (load_books (save_books true books count).2 other).2.1 i = books i) ∧
    save_books true (load_books (save_books true books count).2 other).2.1
      (load_books (save_books true books count).2 other).2.2 =
      save_books true books count := by
  have e : MAX_BOOKS = 800 := rfl
  have hrun : recordRun 800 (save_loop books count.toNat 0) =
      (List.range' 0 count.toNat).map books := by
    have := recordRun_save_loop books [] count.toNat 800 0 (by omega)
      (fun j _ h => hs j (by omega))
    rw [List.append_nil, recordRun_nil, List.append_nil] at this
    exact this
  have hlen : (recordRun 800 (save_loop books count.toNat 0)).length = count.toNat := by
    rw [hrun, List.length_map, List.length_range']
  obtain ⟨l1, _, l3, _⟩ := load_loop_run 800 (save_loop books count.toNat 0) other 0
  have hsave : (save_books true books count).2 = some (save_loop books count.toNat 0) := rfl
  have hload : load_books (some (save_loop books count.toNat 0)) other =
      (1, (load_loop 800 (save_loop books count.toNat 0) other 0).1,
        (((load_loop 800 (save_loop books count.toNat 0) other 0).2 : Nat) : Int)) := rfl
  have hcount : (((load_loop 800 (save_loop books count.toNat 0) other 0).2 : Nat) : Int)
      = count := by
    rw [l1, hlen]; omega
  have hslots : ∀ i : Nat, (i : Int) < count →
      (load_loop 800 (save_loop books count.toNat 0) other 0).1 i = books i := by
    intro i hi
    have hi2 : i < (recordRun 800 (save_loop books count.toNat 0)).length := by
      rw [hlen]; omega
    have := l3 i hi2
    rw [Nat.zero_add] at this
    rw [this]
    simp only [hrun, List.getElem_map, List.getElem_range', Nat.zero_add, Nat.one_mul]
  rw [hsave, hload]
  refine ⟨rfl, hcount, hslots, ?_⟩
  show save_books true (load_loop 800 (save_loop books count.toNat 0) other 0).1
    (((load_loop 800 (save_loop books count.toNat 0) other 0).2 : Nat) : Int) = _
  rw [hcount]
  unfold save_books
  rw [if_pos rfl, if_pos rfl,
    save_loop_congr _ books count.toNat 0 (fun j _ h => hslots j (by omega))]

/-- The store of the scenario is read back from its saved text. -/
theorem load_books_save_books_scenario :
    live (run initState scenario) =
      [{ id := 2, title := "Foundation", author := "Asimov", publication_year := 1951,
         is_borrowed := 0 },
       { id := 3, title := "Neuromancer", author := "Gibson", publication_year := 1984,
         is_borrowed := 0 }] ∧
    (load_books (save_books true (run initState scenario).library 2).2
      initState.library).2.2 = 2 :=
  ⟨by decide,
    (load_books_save_books (run initState scenario).library initState.library 2
      (by decide) (by decide) (fun i hi => by
        have hi2 : i = 0 ∨ i = 1 := by omega
        rcases hi2 with h | h <;> subst h <;> decide)).2.1⟩

theorem IdsFrom_init : IdsFrom 0 initState :=
  ⟨[], List.Pairwise.nil, fun x hx => absurd hx (List.not_mem_nil x), by decide⟩

/-- One operation keeps the description of the live ids. -/
theorem IdsFrom_step (n : Nat) (s : State) (op : Op) (h : Inv n s) (hi : IdsFrom n s) :
    IdsFrom (n + (assignedBy s op).length) (step s op) := by
  obtain ⟨h0, h1, h2, _⟩ := h
  obtain ⟨idx, p1, p2, p3⟩ := hi
  cases op with
  | add title author year =>
    by_cases hfull : MAX_BOOKS ≤ s.book_count
    · simp only [assignedBy, step, addBook_full s title author year hfull]
      exact ⟨idx, p1, p2, p3⟩
    · have hlt : s.book_count < MAX_BOOKS := not_le.mp hfull
      have hl := live_addBook s title author year h0 hlt
      simp only [assignedBy, step]
      rw [addBook_ok s title author year hlt] at hl ⊢
      simp only [List.length_singleton]
      refine ⟨idx ++ [(n : Int) + 1], List.pairwise_append.mpr
        ⟨p1, List.pairwise_singleton _ _, ?_⟩, ?_, ?_⟩
      · intro a ha b hb
        rw [List.mem_singleton] at hb
        have := p2 a ha
        omega
      · intro x hx
        rw [List.mem_append, List.mem_singleton] at hx
        rcases hx with hx | hx
        · have := p2 x hx
          push_cast; omega
        · push_cast; omega
      · unfold liveIds at p3 ⊢
        rw [hl, List.map_append, List.map_cons, List.map_nil, p3, List.map_append,
          List.map_cons, List.map_nil, ← h2]
  | remove id confirm =>
    simp only [assignedBy, step, List.length_nil, Nat.add_zero]
    have hsub := liveIds_removeBook s id confirm
    rw [p3] at hsub
    obtain ⟨idx2, q1, q2⟩ := List.sublist_map_iff.mp hsub
    exact ⟨idx2, p1.sublist q1, fun x hx => p2 x (q1.subset hx), q2⟩
  | borrow id =>
    simp only [assignedBy, step, List.length_nil, Nat.add_zero]
    exact ⟨idx, p1, p2, by rw [(borrowBook_frame s id).2.2, p3]⟩
  | giveBack id =>
    simp only [assignedBy, step, List.length_nil, Nat.add_zero]
    exact ⟨idx, p1, p2, by rw [(returnBook_frame s id).2.2, p3]⟩

theorem IdsFrom_run (ops : List Op) : ∀ (n : Nat) (s : State), Inv n s → IdsFrom n s →
    IdsFrom (n + (assigned s ops).length) (run s ops) := by
  induction ops with
  | nil => intro n s _ hi; exact hi
  | cons op ops ih =>
    intro n s h hi
    have h1 := (Inv_step n s op h).1
    have h2 := IdsFrom_step n s op h hi
    have h3 := ih _ _ h1 h2
    rw [run_cons]
    simp only [assigned, List.length_append]
    rw [← Nat.add_assoc]
    exact h3

/-- Numbers between `1` and `2^32` stay distinct when reduced to 32 bits. -/
theorem IdsFrom_nodup (n : Nat) (s : State) (hn : n ≤ 4294967296) (hi : IdsFrom n s) :
    (liveIds s).Nodup := by
  obtain ⟨idx, p1, p2, p3⟩ := hi
  rw [p3]
  refine List.Nodup.map_on (fun x hx y hy hxy => ?_) (p1.imp (fun hab => ne_of_lt hab))
  have hx2 := p2 x hx
  have hy2 := p2 y hy
  unfold wrap32 at hxy
  omega

theorem skip_space_spec (inp : List Char) :
    ∃ ws : List Char, inp = ws ++ skip_space inp ∧ (∀ c ∈ ws, isspace c = true) ∧
      (∀ c r, skip_space inp = c :: r → isspace c = false) := by
  induction inp with
  | nil => exact ⟨[], rfl, fun c hc => absurd hc (List.not_mem_nil c), fun c r h => by cases h⟩
  | cons a t ih =>
    by_cases h : isspace a = true
    · obtain ⟨ws, h1, h2, h3⟩ := ih
      have e : skip_space (a :: t) = skip_space t := by rw [skip_space, if_pos h]
      rw [e]
      refine ⟨a :: ws, by rw [List.cons_append, ← h1], fun c hc => ?_, h3⟩
      rcases List.mem_cons.mp hc with hc | hc
      · rw [hc]; exact h
      · exact h2 c hc
    · have e : skip_space (a :: t) = a :: t := by rw [skip_space, if_neg h]
      rw [e]
      refine ⟨[], rfl, fun c hc => absurd hc (List.not_mem_nil c), fun c r hc => ?_⟩
      rw [← (List.cons.inj hc).1]
      exact Bool.eq_false_iff.mpr h

theorem skip_space_append (ws rest : List Char) (h : ∀ c ∈ ws, isspace c = true) :
    skip_space (ws ++ rest) = skip_space rest := by
  induction ws with
  | nil => rfl
  | cons a t ih =>
    rw [List.cons_append, skip_space, if_pos (h a (List.mem_cons_self a t))]
    exact ih (fun c hc => h c (List.mem_cons_of_mem a hc))

theorem skip_space_stop (rest : List Char) (h : ∀ c r, rest = c :: r → isspace c = false) :
    skip_space rest = rest := by
  cases rest with
  | nil => rfl
  | cons c r => rw [skip_space, if_neg (by rw [h c r rfl]; exact Bool.false_ne_true)]

theorem scan_digits_spec (inp : List Char) : ∀ acc : Int,
    ∃ ds : List Char, inp = ds ++ (scan_digits inp acc).2 ∧ (∀ c ∈ ds, isdigit c = true) ∧
      (scan_digits inp acc).1 = digitsValue ds acc ∧
      (∀ c r, (scan_digits inp acc).2 = c :: r → isdigit c = false) := by
  induction inp with
  | nil =>
    intro acc
    exact ⟨[], rfl, fun c hc => absurd hc (List.not_mem_nil c), rfl, fun c r h => by cases h⟩
  | cons a t ih =>
    intro acc
    by_cases h : isdigit a = true
    · obtain ⟨ds, h1, h2, h3, h4⟩ := ih (acc * 10 + ((a.toNat : Int) - 48))
      have e : scan_digits (a :: t) acc = scan_digits t (acc * 10 + ((a.toNat : Int) - 48)) := by
        rw [scan_digits, if_pos h]
      rw [e]
      refine ⟨a :: ds, by rw [List.cons_append, ← h1], fun c hc => ?_, h3, h4⟩
      rcases List.mem_cons.mp hc with hc | hc
      · rw [hc]; exact h
      · exact h2 c hc
    · have e : scan_digits (a :: t) acc = (acc, a :: t) := by rw [scan_digits, if_neg h]
      rw [e]
      refine ⟨[], rfl, fun c hc => absurd hc (List.not_mem_nil c), rfl, fun c r hc => ?_⟩
      rw [← (List.cons.inj hc).1]
      exact Bool.eq_false_iff.mpr h

theorem scan_int_plus (c : Char) (t : List Char) (hc : isdigit c = true) :
    scan_int ('+' :: c :: t) =
      some (wrap32 (strtol_value (scan_digits (c :: t) 0).1),
        (scan_digits (c :: t) 0).2) := by
  unfold scan_int
  have hs : skip_space ('+' :: c :: t) = '+' :: c :: t := rfl
  rw [hs]
  show (if isdigit c = true then _ else _) = _
  rw [if_pos hc]
  rfl

/-- The directive `%d` fails on a text that, after its white space and an
optional sign, does not go on with a digit. -/
theorem scan_int_none (X : List Char) (hX : skip_space X = X) :
    (X = [] → scan_int X = none) ∧
    (∀ t, X = '-' :: t → (∀ c r, t = c :: r → isdigit c = false) → scan_int X = none) ∧
    (∀ t, X = '+' :: t → (∀ c r, t = c :: r → isdigit c = false) → scan_int X = none) ∧
    (∀ c t, X = c :: t → c ≠ '-' → c ≠ '+' → isdigit c = false → scan_int X = none) := by
  refine ⟨?_, ?_, ?_, ?_⟩
  · intro h; rw [h]; rfl
  · intro t h ht
    subst h
    unfold scan_int
    rw [hX]
    cases t with
    | nil => rfl
    | cons c r =>
      show (if isdigit c = true then _ else _) = _
      rw [if_neg (by rw [ht c r rfl]; exact Bool.false_ne_true)]
  · intro t h ht
    subst h
    unfold scan_int
    rw [hX]
    cases t with
    | nil => rfl
    | cons c r =>
      show (if isdigit c = true then _ else _) = _
      rw [if_neg (by rw [ht c r rfl]; exact Bool.false_ne_true)]
  · intro c t h h2 h3 hd
    subst h
    unfold scan_int
    rw [hX]
    split
    · rename_i h; exact absurd (List.cons.inj h).1 h2
    · rename_i h; exact absurd (List.cons.inj h).1 h3
    · show (if isdigit c = true then _ else _) = _
      rw [if_neg (by rw [hd]; exact Bool.false_ne_true)]

/-- What `%d` does after the white space and the sign: a digit must follow,
and the digits are read up to the first character that is not one. -/
theorem numeral_of_digits (d : Char) (t : List Char) (hd : isdigit d = true) :
    ∃ ds : List Char, ds ≠ [] ∧ d :: t = ds ++ (scan_digits (d :: t) 0).2 ∧
      (∀ c ∈ ds, isdigit c = true) ∧ (scan_digits (d :: t) 0).1 = digitsValue ds 0 ∧
      (∀ c r, (scan_digits (d :: t) 0).2 = c :: r → isdigit c = false) := by
  obtain ⟨ds, h1, h2, h3, h4⟩ := scan_digits_spec (d :: t) 0
  refine ⟨ds, ?_, h1, h2, h3, h4⟩
  intro hnil
  rw [hnil, List.nil_append] at h1
  have := h4 d t h1.symm
  rw [hd] at this
  exact Bool.noConfusion this

/-- Soundness of `scan_int`: what it reads is a numeral, it stores the value
of the numeral, and the text left does not start with a digit. -/
theorem scan_int_sound (inp : List Char) (v : Int) (r : List Char)
    (h : scan_int inp = some (v, r)) :
    ∃ txt : List Char, inp = txt ++ r ∧ IsNumeral txt v ∧
      (∀ c r2, r = c :: r2 → isdigit c = false) := by
  obtain ⟨ws, w1, w2, w3⟩ := skip_space_spec inp
  rw [← scan_int_skip_space] at h
  have hX : skip_space (skip_space inp) = skip_space inp := skip_space_idem inp
  obtain ⟨n1, n2, n3, n4⟩ := scan_int_none (skip_space inp) hX
  generalize skip_space inp = X at w1 w3 h hX n1 n2 n3 n4
  subst w1
  cases X with
  | nil => rw [n1 rfl] at h; exact Option.noConfusion h
  | cons a t =>
    by_cases ha1 : a = '-'
    · subst ha1
      cases t with
      | nil =>
        rw [n2 [] rfl (fun c r hc => List.noConfusion hc)] at h
        exact Option.noConfusion h
      | cons d t =>
        by_cases hd : isdigit d = true
        · rw [scan_int_minus d t hd] at h
          obtain ⟨ds, d1, d2, d3, d4, d5⟩ := numeral_of_digits d t hd
          have hv : v = wrap32 (strtol_value (-(scan_digits (d :: t) 0).1)) :=
            (Prod.mk.inj (Option.some.inj h)).1.symm
          have hr : r = (scan_digits (d :: t) 0).2 := (Prod.mk.inj (Option.some.inj h)).2.symm
          rw [← hr] at d2 d5
          refine ⟨ws ++ (['-'] ++ ds), ?_, ⟨ws, ['-'], ds, rfl, w2, Or.inr (Or.inl rfl), d1, d3, ?_⟩, d5⟩
          · rw [d2]; simp
          · rw [hv, d4]; rfl
        · rw [n2 (d :: t) rfl (fun c r hc => by
            rw [← (List.cons.inj hc).1]; exact Bool.eq_false_iff.mpr hd)] at h
          exact Option.noConfusion h
    · by_cases ha2 : a = '+'
      · subst ha2
        cases t with
        | nil =>
          rw [n3 [] rfl (fun c r hc => List.noConfusion hc)] at h
          exact Option.noConfusion h
        | cons d t =>
          by_cases hd : isdigit d = true
          · rw [scan_int_plus d t hd] at h
            obtain ⟨ds, d1, d2, d3, d4, d5⟩ := numeral_of_digits d t hd
            have hv : v = wrap32 (strtol_value (scan_digits (d :: t) 0).1) :=
              (Prod.mk.inj (Option.some.inj h)).1.symm
            have hr : r = (scan_digits (d :: t) 0).2 :=
              (Prod.mk.inj (Option.some.inj h)).2.symm
            rw [← hr] at d2 d5
            refine ⟨ws ++ (['+'] ++ ds), ?_,
              ⟨ws, ['+'], ds, rfl, w2, Or.inr (Or.inr rfl), d1, d3, ?_⟩, d5⟩
            · rw [d2]; simp
            · rw [hv, d4]; rfl
          · rw [n3 (d :: t) rfl (fun c r hc => by
              rw [← (List.cons.inj hc).1]; exact Bool.eq_false_iff.mpr hd)] at h
            exact Option.noConfusion h
      · by_cases hd : isdigit a = true
        · rw [scan_int_digit a t hd] at h
          obtain ⟨ds, d1, d2, d3, d4, d5⟩ := numeral_of_digits a t hd
          have hv : v = wrap32 (strtol_value (scan_digits (a :: t) 0).1) :=
            (Prod.mk.inj (Option.some.inj h)).1.symm
          have hr : r = (scan_digits (a :: t) 0).2 :=
            (Prod.mk.inj (Option.some.inj h)).2.symm
          rw [← hr] at d2 d5
          refine ⟨ws ++ ([] ++ ds), ?_, ⟨ws, [], ds, rfl, w2, Or.inl rfl, d1, d3, ?_⟩, d5⟩
          · rw [d2]; simp
          · rw [hv, d4]; rfl
        · rw [n4 a t rfl ha1 ha2 (Bool.eq_false_iff.mpr hd)] at h
          exact Option.noConfusion h

theorem scan_int_append_space (ws Y : List Char) (h : ∀ c ∈ ws, isspace c = true) :
    scan_int (ws ++ Y) = scan_int Y := by
  rw [← scan_int_skip_space (ws ++ Y), skip_space_append ws Y h, scan_int_skip_space]

/-- Completeness of `scan_int`: a numeral that is not followed by a digit is
read as a whole, and its value is stored. -/
theorem scan_int_complete (txt : List Char) (v : Int) (r : List Char) (h : IsNumeral txt v)
    (hr : ∀ c r2, r = c :: r2 → isdigit c = false) :
    scan_int (txt ++ r) = some (v, r) := by
  obtain ⟨ws, sign, ds, h1, h2, h3, h4, h5, h6⟩ := h
  obtain ⟨d, t, rfl⟩ := List.exists_cons_of_ne_nil h4
  have hd := h5 d (List.mem_cons_self d t)
  have hdig : scan_digits (d :: (t ++ r)) 0 = (digitsValue (d :: t) 0, r) := by
    rw [← List.cons_append, scan_digits_append (d :: t) r 0 h5, scan_digits_stop r _ hr]
  rw [h1, List.append_assoc, scan_int_append_space ws _ h2, h6]
  rcases h3 with h3 | h3 | h3
  · subst h3
    rw [List.nil_append, List.cons_append, scan_int_digit d (t ++ r) hd, hdig]
    rfl
  · subst h3
    show scan_int ('-' :: d :: (t ++ r)) = _
    rw [scan_int_minus d (t ++ r) hd, hdig]
    rfl
  · subst h3
    show scan_int ('+' :: d :: (t ++ r)) = _
    rw [scan_int_plus d (t ++ r) hd, hdig]
    rfl

theorem scan_field_spec : ∀ (w : Nat) (inp : List Char),
    inp = (scan_field w inp).1 ++ (scan_field w inp).2 ∧ (scan_field w inp).1.length ≤ w ∧
      ';' ∉ (scan_field w inp).1 := by
  intro w
  induction w with
  | zero => intro inp; exact ⟨rfl, Nat.le_refl 0, List.not_mem_nil _⟩
  | succ w ih =>
    intro inp
    cases inp with
    | nil => exact ⟨rfl, Nat.zero_le _, List.not_mem_nil _⟩
    | cons c cs =>
      rw [scan_field]
      by_cases hc : c = ';'
      · rw [if_pos hc]
        exact ⟨rfl, Nat.zero_le _, List.not_mem_nil _⟩
      · rw [if_neg hc]
        obtain ⟨h1, h2, h3⟩ := ih cs
        refine ⟨?_, Nat.succ_le_succ h2, ?_⟩
        · show c :: cs = c :: ((scan_field w cs).1 ++ (scan_field w cs).2)
          rw [← h1]
        · intro hm
          rcases List.mem_cons.mp hm with hm | hm
          · exact hc hm.symm
          · exact h3 hm

/-- Soundness of `scan_string`: what it reads is a field. -/
theorem scan_string_sound (inp : List Char) (f : String) (r : List Char)
    (h : scan_string inp = some (f, r)) :
    inp = f.toList ++ r ∧ IsField f.toList := by
  obtain ⟨h1, h2, h3⟩ := scan_field_spec 99 inp
  unfold scan_string at h
  by_cases hnil : (scan_field 99 inp).1 = []
  · simp only [hnil, if_true] at h
    exact Option.noConfusion h
  · simp only [hnil, if_false] at h
    have hf : String.mk (scan_field 99 inp).1 = f := (Prod.mk.inj (Option.some.inj h)).1
    have hr : (scan_field 99 inp).2 = r := (Prod.mk.inj (Option.some.inj h)).2
    subst hf hr
    exact ⟨h1, hnil, h2, h3⟩

theorem scan_semicolon_iff (r r2 : List Char) :
    scan_semicolon r = some r2 ↔ r = ';' :: r2 := by
  constructor
  · intro h
    unfold scan_semicolon at h
    split at h
    · rw [Option.some.inj h]
    · exact Option.noConfusion h
  · intro h; rw [h]; rfl

/-- Soundness of the model of `fscanf`: when it stores all five fields, the
text it has read is a match of the format for the record stored. -/
theorem fscanf_record_sound (inp : List Char) (c : Book)
    (h : (fscanf_record inp c).1 = 5) :
    FormatMatch inp (fscanf_record inp c).2.1 (fscanf_record inp c).2.2 := by
  cases h1 : scan_int inp with
  | none =>
    simp only [fscanf_record, h1] at h
    split_ifs at h
    all_goals exact absurd h (by decide)
  | some p1 =>
  obtain ⟨id, r1⟩ := p1
  cases h2 : scan_semicolon r1 with
  | none => simp [fscanf_record, h1, h2] at h
  | some r2 =>
  cases h3 : scan_string r2 with
  | none => simp [fscanf_record, h1, h2, h3] at h
  | some p3 =>
  obtain ⟨title, r3⟩ := p3
  cases h4 : scan_semicolon r3 with
  | none => simp [fscanf_record, h1, h2, h3, h4] at h
  | some r4 =>
  cases h5 : scan_string r4 with
  | none => simp [fscanf_record, h1, h2, h3, h4, h5] at h
  | some p5 =>
  obtain ⟨author, r5⟩ := p5
  cases h6 : scan_semicolon r5 with
  | none => simp [fscanf_record, h1, h2, h3, h4, h5, h6] at h
  | some r6 =>
  cases h7 : scan_int r6 with
  | none => simp [fscanf_record, h1, h2, h3, h4, h5, h6, h7] at h
  | some p7 =>
  obtain ⟨year, r7⟩ := p7
  cases h8 : scan_semicolon r7 with
  | none => simp [fscanf_record, h1, h2, h3, h4, h5, h6, h7, h8] at h
  | some r8 =>
  cases h9 : scan_int r8 with
  | none => simp [fscanf_record, h1, h2, h3, h4, h5, h6, h7, h8, h9] at h
  | some p9 =>
  obtain ⟨flag, r9⟩ := p9
  have e : fscanf_record inp c =
      (5, { id := id, title := title, author := author, publication_year := year,
            is_borrowed := flag }, skip_space r9) := by
    simp only [fscanf_record, h1, h2, h3, h4, h5, h6, h7, h8, h9]
  rw [e]
  obtain ⟨n1, a1, a2, _⟩ := scan_int_sound inp id r1 h1
  obtain ⟨b1, b2⟩ := scan_string_sound r2 title r3 h3
  obtain ⟨c1, c2⟩ := scan_string_sound r4 author r5 h5
  obtain ⟨n2, d1, d2, _⟩ := scan_int_sound r6 year r7 h7
  obtain ⟨n3, e1, e2, e3⟩ := scan_int_sound r8 flag r9 h9
  obtain ⟨ws, w1, w2, w3⟩ := skip_space_spec r9
  have s2 := (scan_semicolon_iff r1 r2).mp h2
  have s4 := (scan_semicolon_iff r3 r4).mp h4
  have s6 := (scan_semicolon_iff r5 r6).mp h6
  have s8 := (scan_semicolon_iff r7 r8).mp h8
  refine ⟨n1, n2, n3, ws, ?_, a2, b2, c2, d2, e2, w2, ?_, w3⟩
  · show inp = n1 ++ ';' :: (title.toList ++ ';' :: (author.toList ++ ';' ::
      (n2 ++ ';' :: (n3 ++ (ws ++ skip_space r9)))))
    rw [← w1, ← e1, ← s8, ← d1, ← s6, ← c1, ← s4, ← b1, ← s2, ← a1]
  · show ∀ c r, ws ++ skip_space r9 = c :: r → isdigit c = false
    rw [← w1]
    exact e3

/-- Completeness of the model of `fscanf`: on a text that starts with a match
of the format it stores the five fields of the match and leaves the text
behind the match. -/
theorem fscanf_record_complete (inp : List Char) (b c : Book) (rest : List Char)
    (h : FormatMatch inp b rest) : fscanf_record inp c = (5, b, rest) := by
  obtain ⟨n1, n2, n3, ws, h0, h1, ⟨t1, t2, t3⟩, ⟨a1, a2, a3⟩, h4, h5, h6, h7, h8⟩ := h
  have hsemi : ∀ (X : List Char) (c : Char) (r : List Char),
      ';' :: X = c :: r → isdigit c = false := by
    intro X c r h
    rw [← (List.cons.inj h).1]; decide
  rw [h0]
  unfold fscanf_record
  rw [scan_int_complete n1 b.id _ h1 (hsemi _)]
  simp only [scan_semicolon]
  rw [scan_string_field b.title _ t1 t2 t3]
  simp only [scan_semicolon]
  rw [scan_string_field b.author _ a1 a2 a3]
  simp only [scan_semicolon]
  rw [scan_int_complete n2 b.publication_year _ h4 (hsemi _)]
  simp only [scan_semicolon]
  rw [scan_int_complete n3 b.is_borrowed _ h5 h7]
  simp only
  rw [skip_space_append ws rest h6, skip_space_stop rest h8]

/-- The match found by the model of `fscanf` is the match of the format. -/
theorem nextRecord_iff (inp : List Char) (b : Book) (rest : List Char) :
    nextRecord inp = some (b, rest) ↔ FormatMatch inp b rest := by
  constructor
  · intro h
    unfold nextRecord at h
    by_cases h5 : (fscanf_record inp zeroBook).1 = 5
    · rw [if_pos h5] at h
      have hs := fscanf_record_sound inp zeroBook h5
      rw [(Prod.mk.inj (Option.some.inj h)).1, (Prod.mk.inj (Option.some.inj h)).2] at hs
      exact hs
    · rw [if_neg h5] at h
      exact Option.noConfusion h
  · intro h
    unfold nextRecord
    rw [fscanf_record_complete inp b zeroBook rest h, if_pos rfl]

theorem nextRecord_none_iff (inp : List Char) :
    nextRecord inp = none ↔ ∀ (b : Book) (rest : List Char), ¬ FormatMatch inp b rest := by
  constructor
  · intro h b rest hm
    rw [(nextRecord_iff inp b rest).mpr hm] at h
    exact Option.noConfusion h
  · intro h
    cases hn : nextRecord inp with
    | none => rfl
    | some p => exact absurd ((nextRecord_iff inp p.1 p.2).mp hn) (h p.1 p.2)

/-- The records read by iterating the model of `fscanf` are the longest
leading run of matches of the format, and no other list of records is. -/
theorem MatchRun_iff (n : Nat) : ∀ (inp : List Char) (bs : List Book),
    MatchRun n inp bs ↔ bs = recordRun n inp := by
  induction n with
  | zero => intro inp bs; exact Iff.rfl
  | succ n ih =>
    intro inp bs
    cases hn : nextRecord inp with
    | none =>
      have hr : recordRun (n + 1) inp = [] := by rw [recordRun, hn]
      rw [hr]
      cases bs with
      | nil => exact ⟨fun _ => rfl, fun _ => (nextRecord_none_iff inp).mp hn⟩
      | cons b bs =>
        constructor
        · rintro ⟨rest, hm, _⟩
          exact absurd hm ((nextRecord_none_iff inp).mp hn b rest)
        · intro h; exact List.noConfusion h
    | some p =>
      obtain ⟨b0, rest0⟩ := p
      have hr : recordRun (n + 1) inp = b0 :: recordRun n rest0 := by rw [recordRun, hn]
      have hm0 := (nextRecord_iff inp b0 rest0).mp hn
      rw [hr]
      cases bs with
      | nil =>
        constructor
        · intro h; exact absurd hm0 (h b0 rest0)
        · intro h; exact List.noConfusion h
      | cons b bs =>
        constructor
        · rintro ⟨rest, hm, hrun⟩
          have := (nextRecord_iff inp b rest).mpr hm
          rw [hn] at this
          obtain ⟨rfl, rfl⟩ := Prod.mk.inj (Option.some.inj this)
          rw [(ih _ _).mp hrun]
        · intro h
          obtain ⟨rfl, rfl⟩ := List.cons.inj h
          exact ⟨rest0, hm0, (ih _ _).mpr rfl⟩

/-- A number that does not fit in a `long` is stored as the low 32 bits of
`LONG_MAX`: the id 99999999999999999999 of a file is loaded as `-1`. -/
theorem load_books_saturates :
    (load_books (some "99999999999999999999;Dune;Herbert;1965;0\n".toList)
      initState.library).2.2 = 1 ∧
    ((load_books (some "99999999999999999999;Dune;Herbert;1965;0\n".toList)
      initState.library).2.1 0).id = -1 := by
  decide

/-- The sequence that brings the counter back to 1 contains at most 2^32 + 1
adds. -/
theorem length_assigned_wrapped (s : State) :
    (assigned s (Op.add "" "" 0 :: (churn 4294967295 ++ [Op.add "" "" 0]))).length ≤
      4294967297 := by
  rw [assigned_cons, List.length_append, assigned_append, List.length_append, assigned_cons,
    List.length_append]
  have h1 := length_assignedBy_le s (Op.add "" "" 0)
  have h2 := length_assigned_churn 4294967295 (step s (Op.add "" "" 0))
  have h3 := length_assignedBy_le (run (step s (Op.add "" "" 0)) (churn 4294967295))
    (Op.add "" "" 0)
  have h4 : (assigned (step (run (step s (Op.add "" "" 0)) (churn 4294967295))
    (Op.add "" "" 0)) []).length = 0 := rfl
  omega

/-! ## The claims -/

/-- C1 (counterexample). After two adds and the removal of record 2 the store
holds record 1 alone, so 1 is the largest id; removing that record and adding
again assigns 3, not 1 + 1. -/
theorem C1_counterexample :
    liveIds (run initState topRemoved) = [1] ∧
    (removeBook (run initState topRemoved) 1 'y').2 = RemoveResult.removed ∧
    (addBook (removeBook (run initState topRemoved) 1 'y').1 "Neuromancer" "Gibson" 1984).2
      = AddResult.added 3 := by
  decide

/-- C1 (amended). From the initial store, for every sequence of operations with
fewer than 2^31 successful adds, the ids assigned by the successive successful
adds increase strictly (the i-th one is i, counted from 1), so none is assigned
twice; and the add made after removing a live record with id m gets an id
greater than m, which is m + 1 when m was the id assigned last. -/
theorem C1_assigned_ids_increase (ops : List Op)
    (h : (assigned initState ops).length < 2147483648) :
    (assigned initState ops).Pairwise (fun a b => a < b) ∧
    (assigned initState ops).Nodup ∧
    (∀ (i : Nat) (hi : i < (assigned initState ops).length),
      (assigned initState ops)[i] = (i : Int) + 1) ∧
    ∀ (pre post : List Op) (m : Int) (c : Char) (t a : String) (y z : Int),
      ops = pre ++ Op.remove m c :: Op.add t a y :: post →
      m ∈ liveIds (run initState pre) →
      (addBook (run initState (pre ++ [Op.remove m c])) t a y).2 = AddResult.added z →
      m < z ∧ ((assigned initState pre).getLast? = some m → z = m + 1) := by
  have hform : ∀ (i : Nat) (hi : i < (assigned initState ops).length),
      (assigned initState ops)[i] = (i : Int) + 1 := by
    intro i hi
    have := (Inv_run ops 0 initState Inv_init).2 (by omega) i hi
    rw [this]; push_cast; omega
  have hpw : (assigned initState ops).Pairwise (fun a b => a < b) := by
    rw [List.pairwise_iff_getElem]
    intro i j hi hj hij
    rw [hform i hi, hform j hj]
    omega
  refine ⟨hpw, hpw.imp (fun hab => ne_of_lt hab), hform, ?_⟩
  intro pre post m c t a y z hops hm hz
  obtain ⟨hinv, hpre⟩ := Inv_run pre 0 initState Inv_init
  rw [Nat.zero_add] at hinv hpre
  have hinv1 : Inv (assigned initState pre).length (step (run initState pre) (Op.remove m c)) :=
    (Inv_step _ _ (Op.remove m c) hinv).1
  have hstep := (Inv_step _ _ (Op.add t a y) hinv1).2
  rw [run_append, run_singleton] at hz
  have hz1 := assignedBy_add _ t a y z hz
  have hlen : (assigned initState pre).length + 1 ≤ (assigned initState ops).length := by
    rw [hops, assigned_append]
    simp only [assigned, List.length_append, hz1, List.length_singleton]
    omega
  have hzv : z = ((assigned initState pre).length : Int) + 1 := by
    rcases hstep with h0 | h0
    · rw [hz1] at h0; exact absurd h0 (by simp)
    · rw [hz1] at h0
      have hw : wrap32 (((assigned initState pre).length : Int) + 1) =
          ((assigned initState pre).length : Int) + 1 :=
        wrap32_of_range _ (by omega) (by omega)
      rw [hw] at h0
      exact List.head_eq_of_cons_eq h0
  have hmle := ((hinv.2.2.2 (by omega)).2 m hm).2
  refine ⟨by omega, fun hlast => ?_⟩
  rw [List.getLast?_eq_getElem?, List.getElem?_eq_some] at hlast
  obtain ⟨hi, he⟩ := hlast
  rw [hpre (by omega) _ hi] at he
  omega

/-- C1 (witness). The scenario of the specification assigns 1, 2 and 3. -/
theorem C1_witness :
    (assigned initState scenario).length < 2147483648 ∧
    assigned initState scenario = [1, 2, 3] ∧
    (assigned initState scenario).Pairwise (fun a b => a < b) :=
  ⟨by decide, by decide, (C1_assigned_ids_increase scenario (by decide)).1⟩

/-- C2. For every book array and count, `get_next_id` returns 1 when the count
is 0 and otherwise, the ids of the first count records being `int` values
below `INT_MAX`, one more than the largest of these ids. -/
theorem C2_get_next_id (books : Nat → Book) (count : Int)
    (hr : ∀ i : Nat, (i : Int) < count →
      INT_MIN ≤ (books i).id ∧ (books i).id < INT_MAX) :
    get_next_id books 0 = 1 ∧
    (0 < count →
      ∃ m : Int, (∃ i : Nat, (i : Int) < count ∧ (books i).id = m) ∧
        (∀ i : Nat, (i : Int) < count → (books i).id ≤ m) ∧
        get_next_id books count = 1 + m) := by
  refine ⟨rfl, fun hpos => ?_⟩
  have hcast : ((count.toNat : Nat) : Int) = count := Int.toNat_of_nonneg (by omega)
  obtain ⟨m, ⟨i, hi, hem⟩, hub, hres⟩ :=
    get_next_id_pos books count.toNat (by omega) (fun j hj => hr j (by omega))
  rw [hcast] at hres
  exact ⟨m, ⟨i, by omega, hem⟩, fun j hj => hub j (by omega), hres⟩

/-- C2 (witness). For the ids 5 and 3 the next id is 6. -/
theorem C2_witness :
    get_next_id sampleBooks 2 = 6 ∧
    ∃ m : Int, (∃ i : Nat, (i : Int) < 2 ∧ (sampleBooks i).id = m) ∧
      (∀ i : Nat, (i : Int) < 2 → (sampleBooks i).id ≤ m) ∧
      get_next_id sampleBooks 2 = 1 + m :=
  ⟨by decide,
    (C2_get_next_id sampleBooks 2 (fun i hi => by
      have hi2 : i = 0 ∨ i = 1 := by omega
      rcases hi2 with h | h <;> subst h <;> decide)).2 (by decide)⟩

/-- C3 (counterexample). After one add and the removal of that record the store
is empty, `addBook` assigns 2, and `get_next_id` of the current records is 1. -/
theorem C3_counterexample :
    (run initState addRemove).book_count = 0 ∧
    (addBook (run initState addRemove) "Foundation" "Asimov" 1951).2 = AddResult.added 2 ∧
    get_next_id (run initState addRemove).library (run initState addRemove).book_count = 1 := by
  decide

/-- C3 (amended). In every state reached from the initial store that holds
fewer than 800 records, fewer than 2^31 - 1 adds having succeeded, the id that
`addBook` assigns is the counter `next_id`, which is one more than the number
of successful adds so far; `get_next_id` of the current records is at most this
id, and equals it exactly when no add has succeeded yet or the record added
last (id `next_id - 1`) is still in the store. -/
theorem C3_addBook_assigns_counter (ops : List Op) (title author : String) (year : Int)
    (hadds : (assigned initState ops).length + 1 < 2147483648)
    (hroom : (run initState ops).book_count < MAX_BOOKS) :
    (addBook (run initState ops) title author year).2 =
      AddResult.added (run initState ops).next_id ∧
    (run initState ops).next_id = ((assigned initState ops).length : Int) + 1 ∧
    get_next_id (run initState ops).library (run initState ops).book_count ≤
      (run initState ops).next_id ∧
    (get_next_id (run initState ops).library (run initState ops).book_count =
        (run initState ops).next_id ↔
      (assigned initState ops).length = 0 ∨
        (run initState ops).next_id - 1 ∈ liveIds (run initState ops)) := by
  have hinv := (Inv_run ops 0 initState Inv_init).1
  rw [Nat.zero_add] at hinv
  have hnext : (run initState ops).next_id = ((assigned initState ops).length : Int) + 1 := by
    rw [hinv.2.2.1]
    exact wrap32_of_range _ (by omega) (by omega)
  obtain ⟨hle, hiff⟩ := get_next_id_of_Inv _ _ hinv hadds
  refine ⟨?_, hnext, ?_, ?_⟩
  · rw [addBook_ok _ title author year hroom]
  · rw [hnext]; exact hle
  · rw [hnext, hiff]
    have e : ((assigned initState ops).length : Int) + 1 - 1 =
        ((assigned initState ops).length : Int) := by omega
    rw [e]

/-- C3 (witness). After the scenario of the specification, whose last add got
id 3 and is still in the store, the next add gets 4, which is `get_next_id`. -/
theorem C3_witness :
    (assigned initState scenario).length + 1 < 2147483648 ∧
    (run initState scenario).book_count < MAX_BOOKS ∧
    (addBook (run initState scenario) "Hyperion" "Simmons" 1989).2 = AddResult.added 4 ∧
    get_next_id (run initState scenario).library (run initState scenario).book_count = 4 :=
  ⟨by decide, by decide,
    (C3_addBook_assigns_counter scenario "Hyperion" "Simmons" 1989
      (by decide) (by decide)).1.trans (by decide),
    by decide⟩

/-- C4. For every store with `0 ≤ book_count < 800`, `addBook` prints the
success message, increases `book_count` by exactly 1, changes neither the
previously stored records nor their positions, and places after them one new
record carrying the given title, author and year, the id `next_id` and
`is_borrowed = 0`. -/
theorem C4_addBook_appends (s : State) (title author : String) (year : Int)
    (h0 : 0 ≤ s.book_count) (h : s.book_count < MAX_BOOKS) :
    (addBook s title author year).2 = AddResult.added s.next_id ∧
    (addBook s title author year).1.book_count = s.book_count + 1 ∧
    (∀ i : Nat, (i : Int) < s.book_count →
      (addBook s title author year).1.library i = s.library i) ∧
    (addBook s title author year).1.library s.book_count.toNat =
      { id := s.next_id, title := title, author := author,
        publication_year := year, is_borrowed := 0 } ∧
    live (addBook s title author year).1 =
      live s ++ [{ id := s.next_id, title := title, author := author,
                   publication_year := year, is_borrowed := 0 }] := by
  refine ⟨?_, ?_, ?_, ?_, live_addBook s title author year h0 h⟩
  · rw [addBook_ok s title author year h]
  · rw [addBook_ok s title author year h]
  · intro i hi
    rw [addBook_ok s title author year h]
    exact writeSlot_other _ _ _ _ (by omega)
  · rw [addBook_ok s title author year h]
    exact writeSlot_same _ _ _

/-- C4 (witness). An add into the store left by two adds and one removal. -/
theorem C4_witness :
    (0 ≤ (run initState topRemoved).book_count ∧
      (run initState topRemoved).book_count < MAX_BOOKS) ∧
    (addBook (run initState topRemoved) "Neuromancer" "Gibson" 1984).1.book_count = 2 ∧
    live (addBook (run initState topRemoved) "Neuromancer" "Gibson" 1984).1 =
      live (run initState topRemoved) ++
        [{ id := (run initState topRemoved).next_id, title := "Neuromancer",
           author := "Gibson", publication_year := 1984, is_borrowed := 0 }] :=
  ⟨by decide, by decide,
    (C4_addBook_appends (run initState topRemoved) "Neuromancer" "Gibson" 1984
      (by decide) (by decide)).2.2.2.2⟩

/-- C5. For every store with `book_count = MAX_BOOKS` (800), `addBook` prints
the capacity message and leaves the whole state unchanged. -/
theorem C5_addBook_full (s : State) (title author : String) (year : Int)
    (h : s.book_count = MAX_BOOKS) :
    addBook s title author year = (s, AddResult.libraryFull) :=
  addBook_full s title author year (le_of_eq h.symm)

/-- C5 (witness). An add into a store of 800 records. -/
theorem C5_witness :
    fullStore.book_count = MAX_BOOKS ∧
    addBook fullStore "Dune" "Herbert" 1965 = (fullStore, AddResult.libraryFull) :=
  ⟨rfl, C5_addBook_full fullStore "Dune" "Herbert" 1965 rfl⟩

/-- C6 (counterexample). With `int` arithmetic modulo 2^32: one add, then
2^32 - 1 rounds of adding a record and removing it again, then one more add,
which are no more than 2^32 + 1 adds, leave two live records that both carry
the id 1. -/
theorem C6_counterexample :
    liveIds (run initState (Op.add "" "" 0 :: (churn 4294967295 ++ [Op.add "" "" 0]))) =
      [1, 1] ∧
    ¬ (liveIds (run initState
        (Op.add "" "" 0 :: (churn 4294967295 ++ [Op.add "" "" 0])))).Nodup ∧
    (assigned initState
      (Op.add "" "" 0 :: (churn 4294967295 ++ [Op.add "" "" 0]))).length ≤ 4294967297 := by
  rw [churn_liveIds]
  exact ⟨rfl, by decide, length_assigned_wrapped initState⟩

/-- C6 (amended). In every state reached from the initial store by a sequence
of `addBook`, `removeBook`, `borrowBook` and `returnBook` operations in which
at most 2^32 adds succeed, the ids of the live records are pairwise
distinct. -/
theorem C6_live_ids_distinct (ops : List Op)
    (h : (assigned initState ops).length ≤ 4294967296) :
    (liveIds (run initState ops)).Nodup := by
  have hi := IdsFrom_run ops 0 initState Inv_init IdsFrom_init
  rw [Nat.zero_add] at hi
  exact IdsFrom_nodup _ _ h hi

/-- C6 (witness). The live ids after the scenario of the specification. -/
theorem C6_witness :
    (assigned initState scenario).length ≤ 4294967296 ∧
    liveIds (run initState scenario) = [2, 3] ∧
    (liveIds (run initState scenario)).Nodup :=
  ⟨by decide, by decide, C6_live_ids_distinct scenario (by decide)⟩

/-- C7. The store never holds more than 800 records: `0 ≤ book_count ≤
MAX_BOOKS` holds initially and for the count left by `load_books` on any
input, it is preserved by every `addBook`, `removeBook`, `borrowBook` and
`returnBook`, and so it holds after every sequence of these operations. -/
theorem C7_book_count_bounds :
    (0 ≤ initState.book_count ∧ initState.book_count ≤ MAX_BOOKS) ∧
    (∀ (file : Option (List Char)) (books : Nat → Book),
      0 ≤ (load_books file books).2.2 ∧ (load_books file books).2.2 ≤ MAX_BOOKS) ∧
    (∀ (s : State) (title author : String) (year : Int),
      0 ≤ s.book_count → s.book_count ≤ MAX_BOOKS →
      0 ≤ (addBook s title author year).1.book_count ∧
        (addBook s title author year).1.book_count ≤ MAX_BOOKS) ∧
    (∀ (s : State) (id : Int) (confirm : Char),
      0 ≤ s.book_count → s.book_count ≤ MAX_BOOKS →
      0 ≤ (removeBook s id confirm).1.book_count ∧
        (removeBook s id confirm).1.book_count ≤ MAX_BOOKS) ∧
    (∀ (s : State) (id : Int),
      0 ≤ s.book_count → s.book_count ≤ MAX_BOOKS →
      0 ≤ (borrowBook s id).1.book_count ∧ (borrowBook s id).1.book_count ≤ MAX_BOOKS) ∧
    (∀ (s : State) (id : Int),
      0 ≤ s.book_count → s.book_count ≤ MAX_BOOKS →
      0 ≤ (returnBook s id).1.book_count ∧ (returnBook s id).1.book_count ≤ MAX_BOOKS) ∧
    (∀ ops : List Op,
      0 ≤ (run initState ops).book_count ∧ (run initState ops).book_count ≤ MAX_BOOKS) := by
  refine ⟨by decide, ?_, ?_, ?_, ?_, ?_, ?_⟩
  · intro file books
    cases file with
    | none => exact ⟨le_refl _, show (0 : Int) ≤ MAX_BOOKS by decide⟩
    | some inp =>
      have hb := load_loop_count MAX_BOOKS.toNat inp books 0
      have e : MAX_BOOKS.toNat = 800 := by decide
      have e1 : MAX_BOOKS = 800 := rfl
      rw [e] at hb
      show 0 ≤ ((load_loop MAX_BOOKS.toNat inp books 0).2 : Int) ∧
        ((load_loop MAX_BOOKS.toNat inp books 0).2 : Int) ≤ MAX_BOOKS
      rw [e]
      omega
  · intro s title author year h0 h1
    exact bounds_step s (Op.add title author year) h0 h1
  · intro s id confirm h0 h1
    exact bounds_step s (Op.remove id confirm) h0 h1
  · intro s id h0 h1
    exact bounds_step s (Op.borrow id) h0 h1
  · intro s id h0 h1
    exact bounds_step s (Op.giveBack id) h0 h1
  · intro ops
    have hinv := (Inv_run ops 0 initState Inv_init).1
    exact ⟨hinv.1, hinv.2.1⟩

/-- C8. For every store and id, `find_book_by_id` returns -1 if and only if
none of the first `book_count` records has that id, and otherwise it returns
the smallest index below `book_count` whose record has the id. -/
theorem C8_find_book_by_id (s : State) (id : Int) :
    (find_book_by_id s id = -1 ↔
      ∀ i : Nat, (i : Int) < s.book_count → (s.library i).id ≠ id) ∧
    (find_book_by_id s id ≠ -1 →
      ∃ k : Nat, find_book_by_id s id = (k : Int) ∧ (k : Int) < s.book_count ∧
        (s.library k).id = id ∧ ∀ j : Nat, j < k → (s.library j).id ≠ id) := by
  constructor
  · rw [find_eq_neg_one_iff]
    exact ⟨fun h i hi => h i (by omega), fun h i hi => h i (by omega)⟩
  · intro hne
    rcases find_cases s id with h | ⟨k, hk⟩
    · exact absurd h hne
    · obtain ⟨h1, h2, h3⟩ := find_found s id k hk
      exact ⟨k, hk, by omega, h2, h3⟩

/-- C10. For every store and every id that `find_book_by_id` locates at index
`k`, a confirmed `removeBook` prints the success message and yields the
original record sequence with the element at index `k` erased: `book_count`
decreases by 1, the records before `k` keep their positions, the records
after `k` move one position to the left, and `next_id` is unchanged. -/
theorem C10_removeBook_erases (s : State) (id : Int) (confirm : Char) (k : Nat)
    (hc : confirm = 'y' ∨ confirm = 'Y') (hk : find_book_by_id s id = (k : Int)) :
    (removeBook s id confirm).2 = RemoveResult.removed ∧
    (removeBook s id confirm).1.book_count = s.book_count - 1 ∧
    live (removeBook s id confirm).1 = (live s).eraseIdx k ∧
    (∀ j : Nat, j < k → (removeBook s id confirm).1.library j = s.library j) ∧
    (∀ j : Nat, k ≤ j → (j : Int) + 1 < s.book_count →
      (removeBook s id confirm).1.library j = s.library (j + 1)) ∧
    (removeBook s id confirm).1.next_id = s.next_id := by
  have hf := find_found s id k hk
  refine ⟨?_, ?_, live_removeBook s id confirm k hc hk, ?_, ?_, ?_⟩
  · rw [removeBook_confirmed s id confirm k hc hk]
  · rw [removeBook_confirmed s id confirm k hc hk]
  · intro j hj
    rw [removeBook_confirmed s id confirm k hc hk]
    show shift_loop s.library (s.book_count.toNat - 1 - k) k j = s.library j
    rw [shift_loop_apply, if_neg (by omega)]
  · intro j hj1 hj2
    rw [removeBook_confirmed s id confirm k hc hk]
    show shift_loop s.library (s.book_count.toNat - 1 - k) k j = s.library (j + 1)
    rw [shift_loop_apply, if_pos (by omega)]
  · rw [removeBook_confirmed s id confirm k hc hk]

/-- C10 (witness). Removing the first of the two records left by the scenario
of the specification leaves the second one, with id 3, at index 0. -/
theorem C10_witness :
    find_book_by_id (run initState scenario) 2 = ((0 : Nat) : Int) ∧
    live (removeBook (run initState scenario) 2 'y').1 =
      (live (run initState scenario)).eraseIdx 0 ∧
    liveIds (removeBook (run initState scenario) 2 'y').1 = [3] :=
  ⟨by decide,
    (C10_removeBook_erases (run initState scenario) 2 'y' 0 (Or.inl rfl) (by decide)).2.2.1,
    by decide⟩

/-- C11. `removeBook` changes nothing unless it is confirmed: for every store,
every id and every confirmation character other than `y` and `Y`, and for
every id that `find_book_by_id` does not find, it returns the state as it was
(every record, `book_count`, `next_id`) and does not print the success
message. -/
theorem C11_removeBook_unconfirmed (s : State) (id : Int) (confirm : Char)
    (h : (confirm ≠ 'y' ∧ confirm ≠ 'Y') ∨ find_book_by_id s id = -1) :
    (removeBook s id confirm).1 = s ∧
    (removeBook s id confirm).2 ≠ RemoveResult.removed :=
  removeBook_refused s id confirm h

/-- C11 (witness). Answering `n` when removing id 2 after the scenario of the
specification. -/
theorem C11_witness :
    (removeBook (run initState scenario) 2 'n').2 = RemoveResult.canceled ∧
    (removeBook (run initState scenario) 2 'n').1 = run initState scenario :=
  ⟨by decide,
    (C11_removeBook_unconfirmed (run initState scenario) 2 'n'
      (Or.inl ⟨by decide, by decide⟩)).1⟩

/-- C12. For every store and id, `borrowBook` and `returnBook` change nothing
but an `is_borrowed` flag: `book_count`, `next_id`, the search results, the
position of every record and its id, title, author and year are unchanged, and
all records but at most one are unchanged altogether. -/
theorem C12_loan_changes_flag_only (s : State) (id : Int) :
    FlagOnly s (borrowBook s id).1 ∧ FlagOnly s (returnBook s id).1 :=
  ⟨FlagOnly_borrowBook s id, FlagOnly_returnBook s id⟩

/-- C13. For every store with pairwise distinct ids and every id: when a live
record has the id and is available, `borrowBook` sets its flag from 0 to 1 and
prints the success message; when it is borrowed, the already-borrowed message
is printed and the state is unchanged; when no live record has the id,
not-found is reported and the state is unchanged (the message is the not-found
one, or "No books in the library." when `book_count` is 0). So the borrowing
succeeds, and the state changes, if and only if a live record has the id and
is available. -/
theorem C13_borrowBook_outcomes (s : State) (id : Int) (hd : (liveIds s).Nodup) :
    (∀ i : Nat, (i : Int) < s.book_count → (s.library i).id = id →
      (s.library i).is_borrowed = 0 →
      borrowBook s id = (setFlag s i 1, LoanResult.done)) ∧
    (∀ i : Nat, (i : Int) < s.book_count → (s.library i).id = id →
      (s.library i).is_borrowed ≠ 0 →
      borrowBook s id = (s, LoanResult.refused)) ∧
    ((∀ i : Nat, (i : Int) < s.book_count → (s.library i).id ≠ id) →
      borrowBook s id =
        (s, if s.book_count = 0 then LoanResult.noBooks else LoanResult.notFound)) ∧
    ((∀ i : Nat, (i : Int) < s.book_count → (s.library i).id ≠ id) →
      (borrowBook s id).1 = s ∧ reported (borrowBook s id).2 = LoanOutcome.notFound) ∧
    ((borrowBook s id).2 = LoanResult.done ↔
      ∃ i : Nat, (i : Int) < s.book_count ∧ (s.library i).id = id ∧
        (s.library i).is_borrowed = 0) ∧
    ((borrowBook s id).1 ≠ s ↔
      ∃ i : Nat, (i : Int) < s.book_count ∧ (s.library i).id = id ∧
        (s.library i).is_borrowed = 0) := by
  have hok : ∀ i : Nat, (i : Int) < s.book_count → (s.library i).id = id →
      (s.library i).is_borrowed = 0 →
      borrowBook s id = (setFlag s i 1, LoanResult.done) := by
    intro i hi hid hb
    rw [borrowBook_first s id i (by omega) hid (first_of_distinct s id hd i (by omega) hid),
      if_pos hb]
  have hno : ∀ i : Nat, (i : Int) < s.book_count → (s.library i).id = id →
      (s.library i).is_borrowed ≠ 0 →
      borrowBook s id = (s, LoanResult.refused) := by
    intro i hi hid hb
    rw [borrowBook_first s id i (by omega) hid (first_of_distinct s id hd i (by omega) hid),
      if_neg hb]
  have hnone : (∀ i : Nat, (i : Int) < s.book_count → (s.library i).id ≠ id) →
      borrowBook s id =
        (s, if s.book_count = 0 then LoanResult.noBooks else LoanResult.notFound) := by
    intro h
    by_cases h0 : s.book_count = 0
    · rw [if_pos h0, borrowBook_empty s id h0]
    · rw [if_neg h0, borrowBook_none s id h0 (fun i hi => h i (by omega))]
  have hnf : (∀ i : Nat, (i : Int) < s.book_count → (s.library i).id ≠ id) →
      (borrowBook s id).1 = s ∧ reported (borrowBook s id).2 = LoanOutcome.notFound := by
    intro h
    rw [hnone h]
    refine ⟨rfl, ?_⟩
    show reported (if s.book_count = 0 then LoanResult.noBooks else LoanResult.notFound) = _
    split_ifs <;> rfl
  have hchg : ∀ i : Nat, (s.library i).is_borrowed = 0 → setFlag s i 1 ≠ s := by
    intro i hb he
    have h1 : ((setFlag s i 1).library i).is_borrowed = 1 := by rw [setFlag_library_same]
    rw [he, hb] at h1
    exact zero_ne_one h1
  refine ⟨hok, hno, hnone, hnf, ?_, ?_⟩
  · constructor
    · intro hdone
      rcases first_match s id with h | ⟨k, hk, hid, _⟩
      · rw [hnone (fun i hi => h i (by omega))] at hdone
        split_ifs at hdone
      · by_cases hb : (s.library k).is_borrowed = 0
        · exact ⟨k, by omega, hid, hb⟩
        · rw [hno k (by omega) hid hb] at hdone
          exact LoanResult.noConfusion hdone
    · rintro ⟨i, hi, hid, hb⟩
      rw [hok i hi hid hb]
  · constructor
    · intro hne
      rcases first_match s id with h | ⟨k, hk, hid, _⟩
      · rw [hnone (fun i hi => h i (by omega))] at hne
        exact absurd rfl hne
      · by_cases hb : (s.library k).is_borrowed = 0
        · exact ⟨k, by omega, hid, hb⟩
        · rw [hno k (by omega) hid hb] at hne
          exact absurd rfl hne
    · rintro ⟨i, hi, hid, hb⟩
      rw [hok i hi hid hb]
      exact hchg i hb

/-- C13 (witness). Borrowing id 2 after the scenario of the specification. -/
theorem C13_witness :
    (liveIds (run initState scenario)).Nodup ∧
    borrowBook (run initState scenario) 2 =
      (setFlag (run initState scenario) 0 1, LoanResult.done) :=
  ⟨by decide,
    (C13_borrowBook_outcomes (run initState scenario) 2 (by decide)).1 0
      (by decide) (by decide) (by decide)⟩

/-- C14. For every store and every id of a live record that is available, a
`borrowBook` of the id followed at once by a second one prints the
already-borrowed message on the second call, and the second call leaves the
state as the first call left it. -/
theorem C14_second_borrow_refused (s : State) (id : Int)
    (h : ∃ i : Nat, (i : Int) < s.book_count ∧ (s.library i).id = id ∧
      (s.library i).is_borrowed = 0) :
    (borrowBook (borrowBook s id).1 id).2 = LoanResult.refused ∧
    (borrowBook (borrowBook s id).1 id).1 = (borrowBook s id).1 := by
  obtain ⟨i, hi, hid, _⟩ := h
  rcases first_match s id with hnone | ⟨k, hk, hkid, hfirst⟩
  · exact absurd hid (hnone i (by omega))
  · rw [borrowBook_twice s id k hk hkid hfirst]
    exact ⟨rfl, rfl⟩

/-- C14 (witness). Borrowing id 2 twice after the scenario of the
specification. -/
theorem C14_witness :
    (borrowBook (run initState scenario) 2).2 = LoanResult.done ∧
    (borrowBook (borrowBook (run initState scenario) 2).1 2).2 = LoanResult.refused :=
  ⟨by decide,
    (C14_second_borrow_refused (run initState scenario) 2
      ⟨0, by decide, by decide, by decide⟩).1⟩

/-- C15 (counterexample). In the store loaded from a file whose two records
carry the id 1, the first borrowed and the second available, id 1 is the id of
an available record; `borrowBook` of id 1 is refused, and the `returnBook`
that follows clears the flag of the first record, which was 1. -/
theorem C15_counterexample :
    (1 : Int) < lentTwinStore.book_count ∧
    (lentTwinStore.library 1).id = 1 ∧
    (lentTwinStore.library 1).is_borrowed = 0 ∧
    (lentTwinStore.library 0).is_borrowed = 1 ∧
    (borrowBook lentTwinStore 1).2 = LoanResult.refused ∧
    (returnBook (borrowBook lentTwinStore 1).1 1).2 = LoanResult.done ∧
    ((returnBook (borrowBook lentTwinStore 1).1 1).1.library 0).is_borrowed = 0 := by
  decide

/-- C15 (amended). For every store and every id of a live record that is
available and is the first live record with this id (as it is when the ids are
pairwise distinct), `borrowBook` of the id sets the flag of the record to 1,
and the `returnBook` of the id that follows gives back the original state, in
every record and field. -/
theorem C15_borrow_then_return (s : State) (id : Int) (i : Nat)
    (hi : (i : Int) < s.book_count) (hid : (s.library i).id = id)
    (hb : (s.library i).is_borrowed = 0)
    (hfirst : (liveIds s).Nodup ∨ ∀ j : Nat, j < i → (s.library j).id ≠ id) :
    borrowBook s id = (setFlag s i 1, LoanResult.done) ∧
    ((borrowBook s id).1.library i).is_borrowed = 1 ∧
    returnBook (borrowBook s id).1 id = (s, LoanResult.done) := by
  have hf : ∀ j : Nat, j < i → (s.library j).id ≠ id := by
    rcases hfirst with hd | hf
    · exact first_of_distinct s id hd i (by omega) hid
    · exact hf
  obtain ⟨h1, h2⟩ := borrow_return s id i (by omega) hid hf hb
  refine ⟨h1, ?_, h2⟩
  rw [h1, setFlag_library_same]

/-- C15 (witness). Borrowing and returning id 3 after the scenario of the
specification. -/
theorem C15_witness :
    ((1 : Nat) : Int) < (run initState scenario).book_count ∧
    ((run initState scenario).library 1).id = 3 ∧
    returnBook (borrowBook (run initState scenario) 3).1 3 =
      (run initState scenario, LoanResult.done) :=
  ⟨by decide, by decide,
    (C15_borrow_then_return (run initState scenario) 3 1 (by decide) (by decide)
      (by decide) (Or.inl (by decide))).2.2⟩

/-- C16. For every store with pairwise distinct ids and every id: when a live
record has the id and is borrowed, `returnBook` sets its flag to 0 and prints
the success message; when it is not borrowed, the not-borrowed message is
printed and the state is unchanged; when no live record has the id, not-found
is reported and the state is unchanged (the message is the not-found one, or
"No books in the library." when `book_count` is 0). So the return succeeds,
and the state changes, if and only if a live record has the id and is
borrowed. -/
theorem C16_returnBook_outcomes (s : State) (id : Int) (hd : (liveIds s).Nodup) :
    (∀ i : Nat, (i : Int) < s.book_count → (s.library i).id = id →
      (s.library i).is_borrowed ≠ 0 →
      returnBook s id = (setFlag s i 0, LoanResult.done)) ∧
    (∀ i : Nat, (i : Int) < s.book_count → (s.library i).id = id →
      (s.library i).is_borrowed = 0 →
      returnBook s id = (s, LoanResult.refused)) ∧
    ((∀ i : Nat, (i : Int) < s.book_count → (s.library i).id ≠ id) →
      returnBook s id =
        (s, if s.book_count = 0 then LoanResult.noBooks else LoanResult.notFound)) ∧
    ((∀ i : Nat, (i : Int) < s.book_count → (s.library i).id ≠ id) →
      (returnBook s id).1 = s ∧ reported (returnBook s id).2 = LoanOutcome.notFound) ∧
    ((returnBook s id).2 = LoanResult.done ↔
      ∃ i : Nat, (i : Int) < s.book_count ∧ (s.library i).id = id ∧
        (s.library i).is_borrowed ≠ 0) ∧
    ((returnBook s id).1 ≠ s ↔
      ∃ i : Nat, (i : Int) < s.book_count ∧ (s.library i).id = id ∧
        (s.library i).is_borrowed ≠ 0) := by
  have hok : ∀ i : Nat, (i : Int) < s.book_count → (s.library i).id = id →
      (s.library i).is_borrowed ≠ 0 →
      returnBook s id = (setFlag s i 0, LoanResult.done) := by
    intro i hi hid hb
    rw [returnBook_first s id i (by omega) hid (first_of_distinct s id hd i (by omega) hid),
      if_pos hb]
  have hno : ∀ i : Nat, (i : Int) < s.book_count → (s.library i).id = id →
      (s.library i).is_borrowed = 0 →
      returnBook s id = (s, LoanResult.refused) := by
    intro i hi hid hb
    rw [returnBook_first s id i (by omega) hid (first_of_distinct s id hd i (by omega) hid),
      if_neg (not_not.mpr hb)]
  have hnone : (∀ i : Nat, (i : Int) < s.book_count → (s.library i).id ≠ id) →
      returnBook s id =
        (s, if s.book_count = 0 then LoanResult.noBooks else LoanResult.notFound) := by
    intro h
    by_cases h0 : s.book_count = 0
    · rw [if_pos h0, returnBook_empty s id h0]
    · rw [if_neg h0, returnBook_none s id h0 (fun i hi => h i (by omega))]
  have hnf : (∀ i : Nat, (i : Int) < s.book_count → (s.library i).id ≠ id) →
      (returnBook s id).1 = s ∧ reported (returnBook s id).2 = LoanOutcome.notFound := by
    intro h
    rw [hnone h]
    refine ⟨rfl, ?_⟩
    show reported (if s.book_count = 0 then LoanResult.noBooks else LoanResult.notFound) = _
    split_ifs <;> rfl
  have hchg : ∀ i : Nat, (s.library i).is_borrowed ≠ 0 → setFlag s i 0 ≠ s := by
    intro i hb he
    have h1 : ((setFlag s i 0).library i).is_borrowed = 0 := by rw [setFlag_library_same]
    rw [he] at h1
    exact hb h1
  refine ⟨hok, hno, hnone, hnf, ?_, ?_⟩
  · constructor
    · intro hdone
      rcases first_match s id with h | ⟨k, hk, hid, _⟩
      · rw [hnone (fun i hi => h i (by omega))] at hdone
        split_ifs at hdone
      · by_cases hb : (s.library k).is_borrowed = 0
        · rw [hno k (by omega) hid hb] at hdone
          exact LoanResult.noConfusion hdone
        · exact ⟨k, by omega, hid, hb⟩
    · rintro ⟨i, hi, hid, hb⟩
      rw [hok i hi hid hb]
  · constructor
    · intro hne
      rcases first_match s id with h | ⟨k, hk, hid, _⟩
      · rw [hnone (fun i hi => h i (by omega))] at hne
        exact absurd rfl hne
      · by_cases hb : (s.library k).is_borrowed = 0
        · rw [hno k (by omega) hid hb] at hne
          exact absurd rfl hne
        · exact ⟨k, by omega, hid, hb⟩
    · rintro ⟨i, hi, hid, hb⟩
      rw [hok i hi hid hb]
      exact hchg i hb

/-- C16 (witness). Returning id 2 after the scenario of the specification and
a borrowing of id 2. -/
theorem C16_witness :
    (liveIds (borrowBook (run initState scenario) 2).1).Nodup ∧
    (returnBook (borrowBook (run initState scenario) 2).1 2).2 = LoanResult.done ∧
    (returnBook (run initState scenario) 2).2 = LoanResult.refused :=
  ⟨by decide,
    congrArg Prod.snd ((C16_returnBook_outcomes (borrowBook (run initState scenario) 2).1 2
      (by decide)).1 0 (by decide) (by decide) (by decide)),
    by decide⟩

/-- C17 (failing input). The store holds one record whose title is 100 times
`x` followed by "Dune"; the whole title, lower-cased, contains "dune", but
`searchByTitle` compares only the first 99 characters of the title, prints the
no-match message and leaves the result subset empty. -/
theorem C17_long_title_missed :
    live longStore =
      [{ id := 1, title := longTitle, author := "Herbert", publication_year := 1965,
         is_borrowed := 0 }] ∧
    titleContains "dune" (longStore.library 0) = true ∧
    (searchByTitle longStore "dune" 3 "" 0).2 =
      { shown := [], noneFound := true, filtered := none } ∧
    results (searchByTitle longStore "dune" 3 "" 0).1 = [] := by
  decide

set_option maxRecDepth 100000 in
/-- C18 (failing input). The store holds 101 records with the title "Dune";
the search for "dune" leaves `searchResultCount = 101`, above `MAX_RESULTS`,
and has written the last match into slot 100 of `searchResults`, which was
untouched before and lies behind the slots 0 to 99 of the array. -/
theorem C18_more_than_100_results :
    manyStore.book_count = 101 ∧
    (searchByTitle manyStore "dune" 3 "" 0).1.searchResultCount = 101 ∧
    MAX_RESULTS < (searchByTitle manyStore "dune" 3 "" 0).1.searchResultCount ∧
    (searchByTitle manyStore "dune" 3 "" 0).1.searchResults 100 =
      { id := 101, title := "Dune", author := "Herbert", publication_year := 1965,
        is_borrowed := 0 } ∧
    manyStore.searchResults 100 = zeroBook := by
  decide

/-- C19. For every result subset and author string, `filterByAuthor` shows
exactly the records of the subset whose author contains the string as a run of
consecutive characters, compared character by character, in subset order; it
prints its no-match message if and only if it shows none; it depends on
`searchResults` and `searchResultCount` only and returns the state as it was.
Filtering the subset that holds the author "Herbert" by "herbert" shows
nothing. -/
theorem C19_filterByAuthor (s : State) (author : String) :
    (filterByAuthor s author).1 = s ∧
    (filterByAuthor s author).2.shown =
      (results s).filter (fun b => decide (author.toList <:+: b.author.toList)) ∧
    ((filterByAuthor s author).2.noMatch = true ↔ (filterByAuthor s author).2.shown = []) ∧
    (∀ t : State, t.searchResults = s.searchResults →
      t.searchResultCount = s.searchResultCount →
      (filterByAuthor t author).2 = (filterByAuthor s author).2) ∧
    results duneFound = live duneStore ∧
    (filterByAuthor duneFound "herbert").2 = { shown := [], noMatch := true } := by
  obtain ⟨h1, h2⟩ := filter_author_loop_spec s.searchResults author.toList
    s.searchResultCount.toNat 0 false
  have hshown : (filterByAuthor s author).2.shown =
      (results s).filter (fun b => decide (author.toList <:+: b.author.toList)) := by
    show (filter_author_loop s.searchResults author.toList s.searchResultCount.toNat 0 false).1 = _
    rw [h1, ← List.range_eq_range']
    unfold results
    apply List.filter_congr
    intro b _
    rw [Bool.eq_iff_iff, strstr_iff_infix, decide_eq_true_iff]
  refine ⟨rfl, hshown, ?_, ?_, by decide, by decide⟩
  · show (!(filter_author_loop s.searchResults author.toList
        s.searchResultCount.toNat 0 false).2) = true ↔
      (filter_author_loop s.searchResults author.toList s.searchResultCount.toNat 0 false).1 = []
    rw [Bool.not_eq_true', ← Bool.not_eq_true, h2]
    simp
  · intro t ht1 ht2
    unfold filterByAuthor
    rw [ht1, ht2]

/-- C20. For every result subset and year, `filterByYear` shows exactly the
records of the subset whose `publication_year` equals the year, in subset
order; it prints its no-match message if and only if it shows none; it depends
on `searchResults` and `searchResultCount` only and returns the state, store
and subset, as it was. -/
theorem C20_filterByYear (s : State) (year : Int) :
    (filterByYear s year).1 = s ∧
    (filterByYear s year).2.shown =
      (results s).filter (fun b => decide (b.publication_year = year)) ∧
    ((filterByYear s year).2.noMatch = true ↔ (filterByYear s year).2.shown = []) ∧
    (∀ t : State, t.searchResults = s.searchResults →
      t.searchResultCount = s.searchResultCount →
      (filterByYear t year).2 = (filterByYear s year).2) := by
  obtain ⟨h1, h2⟩ := filter_year_loop_spec s.searchResults year
    s.searchResultCount.toNat 0 false
  refine ⟨rfl, ?_, ?_, ?_⟩
  · show (filter_year_loop s.searchResults year s.searchResultCount.toNat 0 false).1 = _
    rw [h1, ← List.range_eq_range']
    rfl
  · show (!(filter_year_loop s.searchResults year s.searchResultCount.toNat 0 false).2) = true ↔
      (filter_year_loop s.searchResults year s.searchResultCount.toNat 0 false).1 = []
    rw [Bool.not_eq_true', ← Bool.not_eq_true, h2]
    simp
  · intro t ht1 ht2
    unfold filterByYear
    rw [ht1, ht2]

/-- C21. The result subset is a copy: `addBook`, `removeBook`, `borrowBook` and
`returnBook`, alone or in any sequence, leave `searchResults` and
`searchResultCount` as they were; after the search for "dune" the record
borrowed in the store still shows `is_borrowed = 0` in the subset. -/
theorem C21_subset_is_a_copy :
    (∀ (s : State) (title author : String) (year : Int),
      (addBook s title author year).1.searchResults = s.searchResults ∧
      (addBook s title author year).1.searchResultCount = s.searchResultCount) ∧
    (∀ (s : State) (id : Int) (confirm : Char),
      (removeBook s id confirm).1.searchResults = s.searchResults ∧
      (removeBook s id confirm).1.searchResultCount = s.searchResultCount) ∧
    (∀ (s : State) (id : Int),
      (borrowBook s id).1.searchResults = s.searchResults ∧
      (borrowBook s id).1.searchResultCount = s.searchResultCount) ∧
    (∀ (s : State) (id : Int),
      (returnBook s id).1.searchResults = s.searchResults ∧
      (returnBook s id).1.searchResultCount = s.searchResultCount) ∧
    (∀ (s : State) (ops : List Op),
      (run s ops).searchResults = s.searchResults ∧
      (run s ops).searchResultCount = s.searchResultCount ∧
      results (run s ops) = results s) ∧
    ((borrowBook duneFound 1).2 = LoanResult.done ∧
      (live (borrowBook duneFound 1).1).map Book.is_borrowed = [1] ∧
      (results (borrowBook duneFound 1).1).map Book.is_borrowed = [0]) := by
  refine ⟨fun s t a y => step_searchResults s (Op.add t a y),
    fun s id c => step_searchResults s (Op.remove id c),
    fun s id => step_searchResults s (Op.borrow id),
    fun s id => step_searchResults s (Op.giveBack id), ?_, by decide⟩
  intro s ops
  obtain ⟨h1, h2⟩ := run_searchResults ops s
  refine ⟨h1, h2, ?_⟩
  unfold results
  rw [h1, h2]

/-- C22. For every store, `countTotalBooks` reports `book_count` as the total,
the number of live records with `is_borrowed = 0` as available and the number
of live records with `is_borrowed ≠ 0` as borrowed; the two add up to the
total (for a count that is not negative), and the state is unchanged. -/
theorem C22_countTotalBooks (s : State) :
    (countTotalBooks s).1 = s ∧
    (countTotalBooks s).2.total = s.book_count ∧
    (countTotalBooks s).2.available =
      (((live s).filter (fun b => decide (b.is_borrowed = 0))).length : Int) ∧
    (countTotalBooks s).2.borrowed =
      (((live s).filter (fun b => decide (b.is_borrowed ≠ 0))).length : Int) ∧
    (0 ≤ s.book_count →
      (countTotalBooks s).2.available + (countTotalBooks s).2.borrowed =
        (countTotalBooks s).2.total) := by
  have h := count_loop_spec s.library s.book_count.toNat 0 0 0
  rw [← List.range_eq_range', Int.zero_add, Int.zero_add] at h
  have ha : (countTotalBooks s).2.available =
      (((live s).filter (fun b => decide (b.is_borrowed = 0))).length : Int) := by
    show (count_loop s.library s.book_count.toNat 0 0 0).1 = _
    rw [h]; rfl
  have hb : (countTotalBooks s).2.borrowed =
      (((live s).filter (fun b => decide (b.is_borrowed ≠ 0))).length : Int) := by
    show (count_loop s.library s.book_count.toNat 0 0 0).2 = _
    rw [h]; rfl
  refine ⟨rfl, rfl, ha, hb, fun h0 => ?_⟩
  rw [ha, hb]
  show _ = s.book_count
  have hp := (List.filter_append_perm (fun b : Book => decide (b.is_borrowed = 0)) (live s)).length_eq
  have hl := length_live s
  have he : (fun b : Book => decide (b.is_borrowed ≠ 0)) =
      (fun b : Book => !decide (b.is_borrowed = 0)) := by
    funext b; simp
  rw [he]
  rw [List.length_append] at hp
  omega

/-- C23. For every store, `viewAvailableBooks` lists exactly the live records
with `is_borrowed = 0` and `view_borrowed_books`, called on the store, exactly
the live records with `is_borrowed ≠ 0`, each in store order; together the two
lists hold every live record once; `viewAvailableBooks` returns the state as
it was, and `view_borrowed_books` has no access to it. -/
theorem C23_listings (s : State) :
    (viewAvailableBooks s).1 = s ∧
    (viewAvailableBooks s).2.shown = (live s).filter (fun b => decide (b.is_borrowed = 0)) ∧
    (view_borrowed_books s.library s.book_count).shown =
      (live s).filter (fun b => decide (b.is_borrowed ≠ 0)) ∧
    List.Perm ((viewAvailableBooks s).2.shown ++
      (view_borrowed_books s.library s.book_count).shown) (live s) ∧
    (∀ b : Book, b ∈ (viewAvailableBooks s).2.shown →
      b ∉ (view_borrowed_books s.library s.book_count).shown) := by
  have hav : (viewAvailableBooks s).2.shown =
      (live s).filter (fun b => decide (b.is_borrowed = 0)) := by
    unfold viewAvailableBooks
    by_cases h0 : s.book_count = 0
    · rw [if_pos h0]
      simp [live, h0]
    · rw [if_neg h0]
      show (view_available_loop s.library s.book_count.toNat 0 0).1 = _
      rw [(view_available_loop_spec s.library s.book_count.toNat 0 0).1,
        ← List.range_eq_range']
      rfl
  have hbo : (view_borrowed_books s.library s.book_count).shown =
      (live s).filter (fun b => decide (b.is_borrowed ≠ 0)) := by
    show (view_borrowed_loop s.library s.book_count.toNat 0 false).1 = _
    rw [(view_borrowed_loop_spec s.library s.book_count.toNat 0 false).1,
      ← List.range_eq_range']
    rfl
  have he : (fun b : Book => decide (b.is_borrowed ≠ 0)) =
      (fun b : Book => !decide (b.is_borrowed = 0)) := by
    funext b; simp
  refine ⟨?_, hav, hbo, ?_, ?_⟩
  · unfold viewAvailableBooks
    split_ifs <;> rfl
  · rw [hav, hbo, he]
    exact List.filter_append_perm _ _
  · intro b hb1 hb2
    rw [hav, List.mem_filter] at hb1
    rw [hbo, List.mem_filter] at hb2
    simp only [decide_eq_true_eq] at hb1 hb2
    exact hb2.2 hb1.2

/-- C24 (failing input). The record added with an empty title is saved as the
line `1;;Herbert;1965;0`, from which `load_books` loads no record; the record
of `longStore`, whose title has 104 characters, is not loaded back either. In
both cases no title or author contains `;` or a line end. -/
theorem C24_round_trip_fails :
    live blankStore =
      [{ id := 1, title := "", author := "Herbert", publication_year := 1965,
         is_borrowed := 0 }] ∧
    save_books true blankStore.library blankStore.book_count =
      (1, some "1;;Herbert;1965;0\n".toList) ∧
    (load_books (save_books true blankStore.library blankStore.book_count).2
      initState.library).2.2 = 0 ∧
    longStore.book_count = 1 ∧
    (load_books (save_books true longStore.library longStore.book_count).2
      initState.library).2.2 = 0 := by
  decide

/-- C25 (counterexample). In `junkFile` the first line carries text behind its
five fields and does not have the 5-field shape, the second line has it; the
longest leading run of lines with the shape is empty, yet `load_books` loads
one record, the one at the start of the first line, and not the second line:
the format matches at the start of the text, and does not match the text
`junk...` left behind the match. In `brokenTitleFile` no line has the shape,
and one record is loaded, with a title that runs across the line end. -/
theorem C25_counterexample :
    textLines junkFile =
      ["1;Dune;Herbert;1965;0junk".toList, "2;Emma;Austen;1815;0".toList] ∧
    lineShape "1;Dune;Herbert;1965;0junk".toList = false ∧
    lineShape "2;Emma;Austen;1815;0".toList = true ∧
    (load_books (some junkFile) initState.library).2.2 = 1 ∧
    (load_books (some junkFile) initState.library).2.1 0 =
      { id := 1, title := "Dune", author := "Herbert", publication_year := 1965,
        is_borrowed := 0 } ∧
    MatchRun 800 junkFile
      [{ id := 1, title := "Dune", author := "Herbert", publication_year := 1965,
         is_borrowed := 0 }] ∧
    (textLines brokenTitleFile).all (fun l => !lineShape l) = true ∧
    (load_books (some brokenTitleFile) initState.library).2.2 = 1 ∧
    ((load_books (some brokenTitleFile) initState.library).2.1 0).title = "Du\nne" :=
  ⟨by decide, by decide, by decide, by decide, by decide,
    (MatchRun_iff 800 junkFile _).mpr (by decide), by decide, by decide, by decide⟩

/-- C25 (amended). For every input text there is exactly one longest leading
run of matches of the format `"%d;%99[^;];%99[^;];%d;%d\n"`, cut off at 800
(`MatchRun`: each match is a numeral, `;`, a field of 1 to 99 characters
without `;`, `;`, such a field, `;`, a numeral, `;`, a numeral and the white
space behind it, and starts where the match before it ended). `load_books`
loads exactly the records of this run: the count is the length of the run,
the first slots of the array hold its records in order, and the slots behind
the one after the last record loaded are as they were. A file that cannot be
opened gives the count 0 and leaves the array as it was. -/
theorem C25_load_books_run (inp : List Char) (books : Nat → Book) :
    (∃ bs : List Book, MatchRun 800 inp bs ∧
      (∀ bs2 : List Book, MatchRun 800 inp bs2 → bs2 = bs) ∧
      bs.length ≤ 800 ∧
      (load_books (some inp) books).1 = 1 ∧
      (load_books (some inp) books).2.2 = (bs.length : Int) ∧
      (∀ (i : Nat) (hi : i < bs.length), (load_books (some inp) books).2.1 i = bs[i]) ∧
      (∀ i : Nat, bs.length < i → (load_books (some inp) books).2.1 i = books i)) ∧
    load_books none books = (0, books, 0) := by
  obtain ⟨h1, _, h3, h4⟩ := load_loop_run 800 inp books 0
  have e : MAX_BOOKS.toNat = 800 := by decide
  refine ⟨⟨recordRun 800 inp, (MatchRun_iff 800 inp _).mpr rfl,
    fun bs2 h => (MatchRun_iff 800 inp bs2).mp h, length_recordRun_le 800 inp, rfl,
    ?_, ?_, ?_⟩, rfl⟩
  · show ((load_loop MAX_BOOKS.toNat inp books 0).2 : Int) = _
    rw [e, h1, Nat.zero_add]
  · intro i hi
    show (load_loop MAX_BOOKS.toNat inp books 0).1 i = _
    rw [e]
    have := h3 i hi
    rw [Nat.zero_add] at this
    exact this
  · intro i hi
    show (load_loop MAX_BOOKS.toNat inp books 0).1 i = _
    rw [e]
    exact h4 i (by omega)

/-- C26 (counterexample). With `int` arithmetic modulo 2^32: after one add and
2^31 - 2 rounds of adding a record and removing it again, fewer than 2^31 adds
have been made, the record with id 1 is live, and `next_id` has wrapped around
to -2^31, so that the id is not below it. -/
theorem C26_counterexample :
    (assigned initState (Op.add "" "" 0 :: churn 2147483646)).length < 2147483648 ∧
    liveIds (run initState (Op.add "" "" 0 :: churn 2147483646)) = [1] ∧
    (run initState (Op.add "" "" 0 :: churn 2147483646)).next_id = -2147483648 ∧
    ¬ ((1 : Int) < -2147483648) :=
  ⟨churn_wrapped.1, churn_wrapped.2.1, churn_wrapped.2.2, by decide⟩

/-- C26 (amended). In every state reached from the initial store by a sequence
of `addBook`, `removeBook`, `borrowBook` and `returnBook` operations in which
fewer than 2^31 - 1 adds succeed, every live record has an id with
`1 ≤ id < next_id`, and `next_id` is one more than the number of successful
adds. -/
theorem C26_live_ids_below_counter (ops : List Op)
    (h : (assigned initState ops).length + 1 < 2147483648) :
    (run initState ops).next_id = ((assigned initState ops).length : Int) + 1 ∧
    ∀ x ∈ liveIds (run initState ops), 1 ≤ x ∧ x < (run initState ops).next_id := by
  have hinv := (Inv_run ops 0 initState Inv_init).1
  rw [Nat.zero_add] at hinv
  have hnext : (run initState ops).next_id = ((assigned initState ops).length : Int) + 1 := by
    rw [hinv.2.2.1]
    exact wrap32_of_range _ (by omega) (by omega)
  refine ⟨hnext, fun x hx => ?_⟩
  have := (hinv.2.2.2 (by omega)).2 x hx
  rw [hnext]
  omega

/-- C26 (witness). After the scenario of the specification the live ids are 2
and 3 and the counter is 4. -/
theorem C26_witness :
    (assigned initState scenario).length + 1 < 2147483648 ∧
    liveIds (run initState scenario) = [2, 3] ∧
    (run initState scenario).next_id = 4 ∧
    ∀ x ∈ liveIds (run initState scenario), 1 ≤ x ∧ x < (run initState scenario).next_id :=
  ⟨by decide, by decide, by decide,
    (C26_live_ids_below_counter scenario (by decide)).2⟩

/-- C27. For every store, also one with several records of the same id,
`borrowBook` and `returnBook` act on the record at index `find_book_by_id`
alone: when the search fails the state is unchanged; when it finds index `k`,
the outcome and the new state are given by the flag of slot `k`, only slot `k`
can change, and two stores with the same count that agree on the slots up to
`k` get the same message. In the store with two records of id 1, borrowing
id 1 sets the flag of the first and leaves the second as it was. -/
theorem C27_first_match_decides (s : State) (id : Int) :
    (find_book_by_id s id = -1 →
      (borrowBook s id).1 = s ∧ (returnBook s id).1 = s ∧
      (borrowBook s id).2 ≠ LoanResult.done ∧ (returnBook s id).2 ≠ LoanResult.done) ∧
    (∀ k : Nat, find_book_by_id s id = (k : Int) →
      borrowBook s id =
        (if (s.library k).is_borrowed = 0 then (setFlag s k 1, LoanResult.done)
          else (s, LoanResult.refused)) ∧
      returnBook s id =
        (if (s.library k).is_borrowed ≠ 0 then (setFlag s k 0, LoanResult.done)
          else (s, LoanResult.refused)) ∧
      (∀ j : Nat, j ≠ k → (borrowBook s id).1.library j = s.library j ∧
        (returnBook s id).1.library j = s.library j) ∧
      (∀ t : State, t.book_count = s.book_count →
        (∀ j : Nat, j ≤ k → t.library j = s.library j) →
        (borrowBook t id).2 = (borrowBook s id).2 ∧
        (returnBook t id).2 = (returnBook s id).2)) ∧
    (liveIds twinStore = [1, 1] ∧
      (live (borrowBook twinStore 1).1).map Book.is_borrowed = [1, 0] ∧
      (borrowBook (borrowBook twinStore 1).1 1).2 = LoanResult.refused) := by
  refine ⟨fun hnone => ?_, fun k hk => ?_, by decide⟩
  · have hno := (find_eq_neg_one_iff s id).mp hnone
    by_cases h0 : s.book_count = 0
    · rw [borrowBook_empty s id h0, returnBook_empty s id h0]
      exact ⟨rfl, rfl, fun h => LoanResult.noConfusion h, fun h => LoanResult.noConfusion h⟩
    · rw [borrowBook_none s id h0 hno, returnBook_none s id h0 hno]
      exact ⟨rfl, rfl, fun h => LoanResult.noConfusion h, fun h => LoanResult.noConfusion h⟩
  · obtain ⟨hlt, hid, hfirst⟩ := find_found s id k hk
    have hb := borrowBook_first s id k hlt hid hfirst
    have hr := returnBook_first s id k hlt hid hfirst
    refine ⟨hb, hr, fun j hj => ?_, fun t ht1 ht2 => ?_⟩
    · rw [hb, hr]
      constructor
      · split_ifs
        · exact setFlag_library_other s k j 1 hj
        · rfl
      · split_ifs
        · exact setFlag_library_other s k j 0 hj
        · rfl
    · have hbt := borrowBook_first t id k (by rw [ht1]; exact hlt)
        (by rw [ht2 k (Nat.le_refl k)]; exact hid)
        (fun j hj => by rw [ht2 j (Nat.le_of_lt hj)]; exact hfirst j hj)
      have hrt := returnBook_first t id k (by rw [ht1]; exact hlt)
        (by rw [ht2 k (Nat.le_refl k)]; exact hid)
        (fun j hj => by rw [ht2 j (Nat.le_of_lt hj)]; exact hfirst j hj)
      rw [hbt, hrt, hb, hr, ht2 k (Nat.le_refl k)]
      constructor <;> split_ifs <;> rfl

/-- C28 (counterexample). For the array with the ids `INT_MAX` and `INT_MIN`,
`get_next_id` returns `INT_MIN`: it is not greater than the first id and it
equals the second. -/
theorem C28_counterexample :
    (extremeBooks 0).id = INT_MAX ∧ (extremeBooks 1).id = INT_MIN ∧
    get_next_id extremeBooks 2 = INT_MIN ∧
    ¬ ((extremeBooks 0).id < get_next_id extremeBooks 2) ∧
    get_next_id extremeBooks 2 = (extremeBooks 1).id := by
  decide

/-- C28 (amended). For every non-empty book array whose ids are 32-bit `int`
values below `INT_MAX`, the value returned by `get_next_id` is greater than
every id in the array, hence different from every id in it. -/
theorem C28_get_next_id_above (books : Nat → Book) (count : Int) (hpos : 0 < count)
    (hr : ∀ i : Nat, (i : Int) < count →
      INT_MIN ≤ (books i).id ∧ (books i).id < INT_MAX) :
    ∀ i : Nat, (i : Int) < count →
      (books i).id < get_next_id books count ∧ get_next_id books count ≠ (books i).id := by
  have hcast : ((count.toNat : Nat) : Int) = count := Int.toNat_of_nonneg (by omega)
  obtain ⟨m, _, hub, hres⟩ :=
    get_next_id_pos books count.toNat (by omega) (fun j hj => hr j (by omega))
  rw [hcast] at hres
  intro i hi
  have := hub i (by omega)
  rw [hres]
  constructor <;> omega

/-- C28 (witness). For the ids 5 and 3 the next id, 6, is above both. -/
theorem C28_witness :
    get_next_id sampleBooks 2 = 6 ∧
    ((sampleBooks 0).id < get_next_id sampleBooks 2 ∧
      get_next_id sampleBooks 2 ≠ (sampleBooks 0).id) :=
  ⟨by decide,
    C28_get_next_id_above sampleBooks 2 (by decide) (fun i hi => by
      have hi2 : i = 0 ∨ i = 1 := by omega
      rcases hi2 with h | h <;> subst h <;> decide) 0 (by decide)⟩

end Library
